import Mathlib

/-!
# Verification of selected routines of the LPC845 SDK tree

Shallow embedding of

* `CMSIS/DSP/Source/FilteringFunctions/arm_conv_q31.c` (scalar builds: the `#if (1)` branch
  with and without `ARM_MATH_LOOPUNROLL`, and the alternate version),
* `CMSIS/DSP/Source/FilteringFunctions/arm_lms_norm_q31.c` (scalar build) and
  `arm_fir_init_f64.c`,
* `CMSIS/DSP/Source/BasicMathFunctions/arm_abs_q31.c` (scalar builds for each setting of
  `ARM_MATH_LOOPUNROLL` and `ARM_MATH_DSP`), `arm_add_q31.c`, `arm_negate_q7.c`,
* `devices/LPC845/drivers/fsl_i2c_dma.c` (I2C master DMA transfer state machine).

Conventions.  `q31_t` and `q63_t` values are integers; a store into a 32-bit or 64-bit signed
object goes through `wrap32` / `wrap64`.  `uint32_t` values are naturals and the arithmetic
the source performs on them goes through `u32_sub` / `u32_add`.  A C array is a `List Int`, a
pointer into it is an offset from its first element.
-/

namespace Q

/-- Two's-complement reduction of an integer to a signed 64-bit value (`q63_t`). -/
def wrap64 (z : Int) : Int := (z + 9223372036854775808) % 18446744073709551616 - 9223372036854775808

/-- Two's-complement reduction of an integer to a signed 32-bit value (`q31_t`), the effect of
the cast `(q31_t) x` on a wider signed value. -/
def wrap32 (z : Int) : Int := (z + 2147483648) % 4294967296 - 2147483648

/-- The expression `x >> 31` on a signed 64-bit value: arithmetic shift, i.e. division by
`2^31` rounding towards minus infinity. -/
def asr31 (z : Int) : Int := Int.fdiv z 2147483648

/-- Two's-complement reduction of an integer to a signed 8-bit value (`q7_t`), the effect of
the cast `(q7_t) x` and of a store into a `q7_t` object. -/
def wrap8 (z : Int) : Int := (z + 128) % 256 - 128

/-- Subtraction of `uint32_t` values (modulo `2^32`): the difference when there is no borrow,
and `2^32` more than the (negative) difference otherwise. -/
def u32_sub (x y : Nat) : Nat :=
  if y ≤ x then (x - y) % 4294967296 else (x + 4294967296 - y) % 4294967296

/-- Addition of `uint32_t` values (modulo `2^32`). -/
def u32_add (x y : Nat) : Nat := (x + y) % 4294967296

/-- Read `*(p + i)` where `p` points to the first element of the array `arr`. -/
def rd (arr : List Int) (i : Int) : Int := if i < 0 then 0 else arr.getD i.toNat 0

end Q

open Q

/-! ## `arm_conv_q31` -/

/-- Registers of the convolution loops: destination buffer, output pointer `pOut` (offset into
`pDst`), working pointers `px` (offset into `pIn1`) and `py` (offset into `pIn2`), and `count`.
`stores` is not a variable of the source: it logs, in program order, the offsets at which
`*pOut++ = ...` has stored. -/
structure ConvState where
  pDst : List Int
  pOut : Nat
  px : Int
  py : Int
  count : Nat
  stores : List Nat
  deriving Repr

/-- The multiply-accumulate loop
`while (k > 0U) { sum += (q63_t) *px++ * *py--; k--; }`;
returns the final `(px, py, sum)`. -/
def conv_mac (pIn1 pIn2 : List Int) : Nat → Int → Int → Int → Int × Int × Int
  | 0, px, py, sum => (px, py, sum)
  | k + 1, px, py, sum =>
    conv_mac pIn1 pIn2 k (px + 1) (py - 1) (wrap64 (sum + rd pIn1 px * rd pIn2 py))

/-- Stage 1, `while (blockSize1 > 0U) { ... }` (lines 317-376, `k = count`). -/
def conv_stage1 (pIn1 pIn2 : List Int) : Nat → ConvState → ConvState
  | 0, s => s
  | blockSize1 + 1, s =>
    let sum := (conv_mac pIn1 pIn2 s.count s.px s.py 0).2.2
    conv_stage1 pIn1 pIn2 blockSize1
      { pDst := s.pDst.set s.pOut (wrap32 (asr31 sum))
        pOut := s.pOut + 1
        py := s.count
        px := 0
        count := u32_add s.count 1
        stores := s.stores ++ [s.pOut] }

/-- Stage 2, `while (blkCnt > 0U) { ... }` (lines 528-581 and 589-618, `k = srcBLen`);
`pSrc2` is the offset `srcBLen - 1U` into `pIn2`. -/
def conv_stage2 (pIn1 pIn2 : List Int) (srcBLen : Nat) (pSrc2 : Int) : Nat → ConvState → ConvState
  | 0, s => s
  | blkCnt + 1, s =>
    let sum := (conv_mac pIn1 pIn2 srcBLen s.px s.py 0).2.2
    let count := u32_add s.count 1
    conv_stage2 pIn1 pIn2 srcBLen pSrc2 blkCnt
      { pDst := s.pDst.set s.pOut (wrap32 (asr31 sum))
        pOut := s.pOut + 1
        count := count
        px := count
        py := pSrc2
        stores := s.stores ++ [s.pOut] }

/-- Stage 3, `while (blockSize3 > 0U) { ... }` (lines 648-706, `k = blockSize3`); the second
argument is `pSrc1`, an offset into `pIn1`. -/
def conv_stage3 (pIn1 pIn2 : List Int) (pSrc2 : Int) : Nat → Int → ConvState → ConvState
  | 0, _, s => s
  | blockSize3 + 1, pSrc1, s =>
    let sum := (conv_mac pIn1 pIn2 (blockSize3 + 1) s.px s.py 0).2.2
    conv_stage3 pIn1 pIn2 pSrc2 blockSize3 (pSrc1 + 1)
      { s with
        pDst := s.pDst.set s.pOut (wrap32 (asr31 sum))
        pOut := s.pOut + 1
        px := pSrc1 + 1
        py := pSrc2
        stores := s.stores ++ [s.pOut] }

/-- The body of `arm_conv_q31` after the operands have been ordered (`srcBLen` is the length of
the sequence `pIn2` that slides across `pIn1`): lines 287-706.  Returns the registers at the
end of stage 3. -/
def conv_stages_run (pIn1 : List Int) (srcALen : Nat) (pIn2 : List Int) (srcBLen : Nat)
    (pDst : List Int) : ConvState :=
  let blockSize1 := u32_sub srcBLen 1
  let blockSize2 := u32_sub srcALen (u32_sub srcBLen 1)
  let blockSize3 := blockSize1
  -- stage 1: count = 1, px = pIn1, py = pIn2
  let s1 := conv_stage1 pIn1 pIn2 blockSize1
    { pDst := pDst, pOut := 0, px := 0, py := 0, count := 1, stores := [] }
  -- stage 2: px = pIn1, pSrc2 = pIn2 + (srcBLen - 1U), py = pSrc2, count = 0
  let pSrc2 : Int := u32_sub srcBLen 1
  let s2 : ConvState := { s1 with px := 0, py := pSrc2, count := 0 }
  let s2 :=
    if srcBLen ≥ 4 then conv_stage2 pIn1 pIn2 srcBLen pSrc2 blockSize2 s2
    else conv_stage2 pIn1 pIn2 srcBLen pSrc2 blockSize2 s2
  -- stage 3: pSrc1 = (pIn1 + srcALen) - (srcBLen - 1U), px = pSrc1, py = pSrc2
  let pSrc1 : Int := (srcALen : Int) - (u32_sub srcBLen 1 : Nat)
  conv_stage3 pIn1 pIn2 pSrc2 blockSize3 pSrc1 { s2 with px := pSrc1, py := pSrc2 }

/-- The destination buffer after the three stages. -/
def conv_stages (pIn1 : List Int) (srcALen : Nat) (pIn2 : List Int) (srcBLen : Nat)
    (pDst : List Int) : List Int :=
  (conv_stages_run pIn1 srcALen pIn2 srcBLen pDst).pDst

/-- Scalar `arm_conv_q31` (`#if (1)` branch, lines 236-706): the longer sequence becomes `pIn1`,
the shorter one `pIn2`, and the three stages run.  Returns the destination buffer. -/
def arm_conv_q31 (pSrcA : List Int) (srcALen : Nat) (pSrcB : List Int) (srcBLen : Nat)
    (pDst : List Int) : List Int :=
  if srcALen ≥ srcBLen then conv_stages pSrcA srcALen pSrcB srcBLen pDst
  else conv_stages pSrcB srcBLen pSrcA srcALen pDst

/-- The offsets of `pDst` at which `arm_conv_q31` stores, in program order. -/
def arm_conv_q31_stores (pSrcA : List Int) (srcALen : Nat) (pSrcB : List Int) (srcBLen : Nat)
    (pDst : List Int) : List Nat :=
  if srcALen ≥ srcBLen then (conv_stages_run pSrcA srcALen pSrcB srcBLen pDst).stores
  else (conv_stages_run pSrcB srcBLen pSrcA srcALen pDst).stores


/-! ### The alternate version of `arm_conv_q31` (`#else` branch, lines 709-735) -/

/-- The inner loop
`for (j = 0U; j <= i; j++) { if (((i - j) < srcBLen) && (j < srcALen))
   sum += ((q63_t) pIn1[j] * pIn2[i - j]); }`.
The first argument is the number of iterations left, then `j` and `sum`; returns `sum`. -/
def conv_alt_inner (pIn1 pIn2 : List Int) (srcALen srcBLen i : Nat) : Nat → Nat → Int → Int
  | 0, _, sum => sum
  | n + 1, j, sum =>
    conv_alt_inner pIn1 pIn2 srcALen srcBLen i n (u32_add j 1)
      (if u32_sub i j < srcBLen ∧ j < srcALen then
        wrap64 (sum + pIn1.getD j 0 * pIn2.getD (u32_sub i j) 0)
      else sum)

/-- The outer loop
`for (i = 0U; i < (srcALen + srcBLen - 1U); i++) { sum = 0; ...; pDst[i] = (q31_t) (sum >> 31U); }`.
The first argument is the number of iterations left, then `i` and the destination. -/
def conv_alt_outer (pIn1 pIn2 : List Int) (srcALen srcBLen : Nat) : Nat → Nat → List Int → List Int
  | 0, _, dst => dst
  | n + 1, i, dst =>
    let sum := conv_alt_inner pIn1 pIn2 srcALen srcBLen i (i + 1) 0 0
    conv_alt_outer pIn1 pIn2 srcALen srcBLen n (u32_add i 1) (dst.set i (wrap32 (asr31 sum)))

/-- The alternate (direct double loop) version of `arm_conv_q31`; `pIn1 = pSrcA`,
`pIn2 = pSrcB`, and the outer loop runs `srcALen + srcBLen - 1U` times. -/
def arm_conv_q31_alt (pSrcA : List Int) (srcALen : Nat) (pSrcB : List Int) (srcBLen : Nat)
    (pDst : List Int) : List Int :=
  conv_alt_outer pSrcA pSrcB srcALen srcBLen (u32_sub (u32_add srcALen srcBLen) 1) 0 pDst

/-! ### `arm_conv_q31` built with `ARM_MATH_LOOPUNROLL` -/

/-- The unrolled multiply-accumulate loop
`while (k > 0U) { sum += (q63_t) *px++ * *py--; (four times) k--; }`;
returns the final `(px, py, sum)`. -/
def conv_mac4 (pIn1 pIn2 : List Int) : Nat → Int → Int → Int → Int × Int × Int
  | 0, px, py, sum => (px, py, sum)
  | k + 1, px, py, sum =>
    let sum := wrap64 (sum + rd pIn1 px * rd pIn2 py)
    let sum := wrap64 (sum + rd pIn1 (px + 1) * rd pIn2 (py - 1))
    let sum := wrap64 (sum + rd pIn1 (px + 2) * rd pIn2 (py - 2))
    let sum := wrap64 (sum + rd pIn1 (px + 3) * rd pIn2 (py - 3))
    conv_mac4 pIn1 pIn2 k (px + 4) (py - 4) sum

/-- The multiply-accumulates of one output under `ARM_MATH_LOOPUNROLL`: `k = n >> 2U` unrolled
iterations, then `k = n % 0x4U` single ones. -/
def conv_mac_unroll (pIn1 pIn2 : List Int) (n : Nat) (px py sum : Int) : Int × Int × Int :=
  let r := conv_mac4 pIn1 pIn2 (n >>> 2) px py sum
  conv_mac pIn1 pIn2 (n % 4) r.1 r.2.1 r.2.2

/-- Stage 1 under `ARM_MATH_LOOPUNROLL` (lines 317-376). -/
def conv_stage1_unroll (pIn1 pIn2 : List Int) : Nat → ConvState → ConvState
  | 0, s => s
  | blockSize1 + 1, s =>
    let sum := (conv_mac_unroll pIn1 pIn2 s.count s.px s.py 0).2.2
    conv_stage1_unroll pIn1 pIn2 blockSize1
      { pDst := s.pDst.set s.pOut (wrap32 (asr31 sum))
        pOut := s.pOut + 1
        py := s.count
        px := 0
        count := u32_add s.count 1
        stores := s.stores ++ [s.pOut] }

/-- Registers of the three-outputs-at-a-time block of stage 2: scratch pointers, the rotating
samples `x0`, `x1` (`x2` and `c0` are assigned before every use) and the three accumulators. -/
structure Conv3 where
  px : Int
  py : Int
  x0 : Int
  x1 : Int
  acc0 : Int
  acc1 : Int
  acc2 : Int
  deriving Repr

/-- The body of `do { ... } while (--k);` (lines 428-473), iterated; the first argument is the
number of iterations. -/
def conv_triple_do (pIn1 pIn2 : List Int) : Nat → Conv3 → Conv3
  | 0, r => r
  | k + 1, r =>
    -- c0 = *(py); x2 = *(px)
    let c0 := rd pIn2 r.py
    let x2 := rd pIn1 r.px
    let acc0 := wrap64 (r.acc0 + r.x0 * c0)
    let acc1 := wrap64 (r.acc1 + r.x1 * c0)
    let acc2 := wrap64 (r.acc2 + x2 * c0)
    -- c0 = *(py - 1U); x0 = *(px + 1U)
    let c0 := rd pIn2 (r.py - 1)
    let x0 := rd pIn1 (r.px + 1)
    let acc0 := wrap64 (acc0 + r.x1 * c0)
    let acc1 := wrap64 (acc1 + x2 * c0)
    let acc2 := wrap64 (acc2 + x0 * c0)
    -- c0 = *(py - 2U); x1 = *(px + 2U)
    let c0 := rd pIn2 (r.py - 2)
    let x1 := rd pIn1 (r.px + 2)
    let acc0 := wrap64 (acc0 + x2 * c0)
    let acc1 := wrap64 (acc1 + x0 * c0)
    let acc2 := wrap64 (acc2 + x1 * c0)
    conv_triple_do pIn1 pIn2 k
      { px := r.px + 3, py := r.py - 3, x0 := x0, x1 := x1, acc0 := acc0, acc1 := acc1,
        acc2 := acc2 }

/-- The remainder loop `while (k > 0U) { c0 = *py--; x2 = *px++; ...; x0 = x1; x1 = x2; k--; }`
(lines 479-500). -/
def conv_triple_rem (pIn1 pIn2 : List Int) : Nat → Conv3 → Conv3
  | 0, r => r
  | k + 1, r =>
    let c0 := rd pIn2 r.py
    let x2 := rd pIn1 r.px
    conv_triple_rem pIn1 pIn2 k
      { px := r.px + 1, py := r.py - 1
        acc0 := wrap64 (r.acc0 + r.x0 * c0)
        acc1 := wrap64 (r.acc1 + r.x1 * c0)
        acc2 := wrap64 (r.acc2 + x2 * c0)
        x0 := r.x1, x1 := x2 }

/-- Number of times the body of `do { ... } while (--k);` runs when entered with the
`uint32_t` counter `k`. -/
def do_while_count (k : Nat) : Nat := if k = 0 then 4294967296 else k

/-- Stage 2 under `ARM_MATH_LOOPUNROLL`, three outputs per iteration:
`while (blkCnt > 0U) { ... }` of lines 412-516. -/
def conv_stage2_triple (pIn1 pIn2 : List Int) (srcBLen : Nat) (pSrc2 : Int) :
    Nat → ConvState → ConvState
  | 0, s => s
  | blkCnt + 1, s =>
    -- acc0 = acc1 = acc2 = 0; x0 = *px++; x1 = *px++; k = srcBLen / 3
    let r := conv_triple_do pIn1 pIn2 (do_while_count (srcBLen / 3))
      { px := s.px + 2, py := s.py, x0 := rd pIn1 s.px, x1 := rd pIn1 (s.px + 1),
        acc0 := 0, acc1 := 0, acc2 := 0 }
    -- k = srcBLen - (3 * (srcBLen / 3))
    let r := conv_triple_rem pIn1 pIn2 (u32_sub srcBLen ((3 * (srcBLen / 3)) % 4294967296)) r
    let count := u32_add s.count 3
    conv_stage2_triple pIn1 pIn2 srcBLen pSrc2 blkCnt
      { pDst := ((s.pDst.set s.pOut (wrap32 (asr31 r.acc0))).set (s.pOut + 1)
          (wrap32 (asr31 r.acc1))).set (s.pOut + 2) (wrap32 (asr31 r.acc2))
        pOut := s.pOut + 3
        count := count
        px := count
        py := pSrc2
        stores := s.stores ++ [s.pOut, s.pOut + 1, s.pOut + 2] }

/-- Stage 2 under `ARM_MATH_LOOPUNROLL`, remaining outputs one at a time:
`while (blkCnt > 0U) { ... }` of lines 528-581 with the unrolled multiply-accumulate. -/
def conv_stage2_unroll (pIn1 pIn2 : List Int) (srcBLen : Nat) (pSrc2 : Int) :
    Nat → ConvState → ConvState
  | 0, s => s
  | blkCnt + 1, s =>
    let sum := (conv_mac_unroll pIn1 pIn2 srcBLen s.px s.py 0).2.2
    let count := u32_add s.count 1
    conv_stage2_unroll pIn1 pIn2 srcBLen pSrc2 blkCnt
      { pDst := s.pDst.set s.pOut (wrap32 (asr31 sum))
        pOut := s.pOut + 1
        count := count
        px := count
        py := pSrc2
        stores := s.stores ++ [s.pOut] }

/-- Stage 3 under `ARM_MATH_LOOPUNROLL` (lines 648-706). -/
def conv_stage3_unroll (pIn1 pIn2 : List Int) (pSrc2 : Int) : Nat → Int → ConvState → ConvState
  | 0, _, s => s
  | blockSize3 + 1, pSrc1, s =>
    let sum := (conv_mac_unroll pIn1 pIn2 (blockSize3 + 1) s.px s.py 0).2.2
    conv_stage3_unroll pIn1 pIn2 pSrc2 blockSize3 (pSrc1 + 1)
      { s with
        pDst := s.pDst.set s.pOut (wrap32 (asr31 sum))
        pOut := s.pOut + 1
        px := pSrc1 + 1
        py := pSrc2
        stores := s.stores ++ [s.pOut] }

/-- The three stages under `ARM_MATH_LOOPUNROLL` (lines 287-706); for `srcBLen < 4` stage 2 is
the plain loop of lines 583-619. -/
def conv_stages_run_unroll (pIn1 : List Int) (srcALen : Nat) (pIn2 : List Int) (srcBLen : Nat)
    (pDst : List Int) : ConvState :=
  let blockSize1 := u32_sub srcBLen 1
  let blockSize2 := u32_sub srcALen (u32_sub srcBLen 1)
  let blockSize3 := blockSize1
  let s1 := conv_stage1_unroll pIn1 pIn2 blockSize1
    { pDst := pDst, pOut := 0, px := 0, py := 0, count := 1, stores := [] }
  let pSrc2 : Int := u32_sub srcBLen 1
  let s2 : ConvState := { s1 with px := 0, py := pSrc2, count := 0 }
  let s2 :=
    if srcBLen ≥ 4 then
      -- blkCnt = blockSize2 / 3, then blkCnt = blockSize2 - 3 * (blockSize2 / 3)
      let s := conv_stage2_triple pIn1 pIn2 srcBLen pSrc2 (blockSize2 / 3) s2
      conv_stage2_unroll pIn1 pIn2 srcBLen pSrc2
        (u32_sub blockSize2 ((3 * (blockSize2 / 3)) % 4294967296)) s
    else conv_stage2 pIn1 pIn2 srcBLen pSrc2 blockSize2 s2
  let pSrc1 : Int := (srcALen : Int) - (u32_sub srcBLen 1 : Nat)
  conv_stage3_unroll pIn1 pIn2 pSrc2 blockSize3 pSrc1 { s2 with px := pSrc1, py := pSrc2 }

/-- Scalar `arm_conv_q31` built with `ARM_MATH_LOOPUNROLL`; returns the destination buffer. -/
def arm_conv_q31_unroll (pSrcA : List Int) (srcALen : Nat) (pSrcB : List Int) (srcBLen : Nat)
    (pDst : List Int) : List Int :=
  if srcALen ≥ srcBLen then (conv_stages_run_unroll pSrcA srcALen pSrcB srcBLen pDst).pDst
  else (conv_stages_run_unroll pSrcB srcBLen pSrcA srcALen pDst).pDst

/-! ## `arm_abs_q31` and `arm_add_q31` -/

/-- The constant `INT32_MIN`. -/
def INT32_MIN : Int := -2147483648

/-- The constant `INT32_MAX`. -/
def INT32_MAX : Int := 2147483647

/-- The loop of the scalar `arm_abs_q31` (lines 187-201, `ARM_MATH_DSP` undefined):
`while (blkCnt > 0U) { in = *pSrc++;
  *pDst++ = (in > 0) ? in : ((in == INT32_MIN) ? INT32_MAX : -in); blkCnt--; }`.
The arguments are `blkCnt`, the offsets of the two running pointers, and the destination. -/
def arm_abs_q31_loop (src : List Int) : Nat → Nat → Nat → List Int → List Int
  | 0, _, _, dst => dst
  | blkCnt + 1, pSrc, pDst, dst =>
    let in_ := src.getD pSrc 0
    arm_abs_q31_loop src blkCnt (pSrc + 1) (pDst + 1)
      (dst.set pDst (if in_ > 0 then in_ else (if in_ = INT32_MIN then INT32_MAX else -in_)))

/-- Scalar `arm_abs_q31` without loop unrolling (`blkCnt = blockSize`); returns the destination
buffer. -/
def arm_abs_q31 (pSrc pDst : List Int) (blockSize : Nat) : List Int :=
  arm_abs_q31_loop pSrc blockSize 0 0 pDst

/-- Modelled from the spec: the saturating addition `__QADD` of the CMSIS headers (not among
the sources), after the documentation of `arm_add_q31`: "The function uses saturating
arithmetic.  Results outside of the allowable Q31 range [0x80000000 0x7FFFFFFF] are
saturated." -/
def __QADD (x y : Int) : Int :=
  if x + y > 2147483647 then 2147483647
  else if x + y < -2147483648 then -2147483648
  else x + y

/-- The loop of the scalar `arm_add_q31` (lines 142-151):
`while (blkCnt > 0U) { *pDst++ = __QADD(*pSrcA++, *pSrcB++); blkCnt--; }`.
The arguments are `blkCnt`, the offsets of the three running pointers, and the destination. -/
def arm_add_q31_loop (srcA srcB : List Int) : Nat → Nat → Nat → Nat → List Int → List Int
  | 0, _, _, _, dst => dst
  | blkCnt + 1, pSrcA, pSrcB, pDst, dst =>
    arm_add_q31_loop srcA srcB blkCnt (pSrcA + 1) (pSrcB + 1) (pDst + 1)
      (dst.set pDst (__QADD (srcA.getD pSrcA 0) (srcB.getD pSrcB 0)))

/-- Scalar `arm_add_q31` without loop unrolling (`blkCnt = blockSize`); returns the destination
buffer. -/
def arm_add_q31 (pSrcA pSrcB pDst : List Int) (blockSize : Nat) : List Int :=
  arm_add_q31_loop pSrcA pSrcB blockSize 0 0 0 pDst

/-! ## `arm_negate_q7` -/

/-- The loop of the scalar `arm_negate_q7` (lines 148-163, `ARM_MATH_DSP` undefined):
`while (blkCnt > 0U) { in = *pSrc++;
  *pDst++ = (in == (q7_t) 0x80) ? (q7_t) 0x7f : -in; blkCnt--; }`.
The arguments are `blkCnt`, the offsets of the two running pointers, and the destination; the
value of `-in` (an `int`) is converted to `q7_t` by the store. -/
def arm_negate_q7_loop (src : List Int) : Nat → Nat → Nat → List Int → List Int
  | 0, _, _, dst => dst
  | blkCnt + 1, pSrc, pDst, dst =>
    let in_ := src.getD pSrc 0
    arm_negate_q7_loop src blkCnt (pSrc + 1) (pDst + 1)
      (dst.set pDst (if in_ = wrap8 0x80 then wrap8 0x7f else wrap8 (-in_)))

/-- Scalar `arm_negate_q7` without loop unrolling (`blkCnt = blockSize`); returns the
destination buffer. -/
def arm_negate_q7 (pSrc pDst : List Int) (blockSize : Nat) : List Int :=
  arm_negate_q7_loop pSrc blockSize 0 0 pDst

/-! ## `arm_lms_norm_q31` -/

/-- The expression `x >> n` on a signed 64-bit value: arithmetic shift, i.e. division by `2^n`
rounding towards minus infinity. -/
def asr (z : Int) (n : Nat) : Int := Int.fdiv z (2 ^ n)

/-- Modelled from the spec: the helper `clip_q63_to_q31` of the CMSIS headers (not among the
sources), after the documentation of `arm_lms_norm_q31` ("saturated to 1.31 format", "the
updation of filter cofficients are saturted"): saturation of a 64-bit value to the Q31 range. -/
def clip_q63_to_q31 (x : Int) : Int :=
  if x > 2147483647 then 2147483647
  else if x < -2147483648 then -2147483648
  else x

/-- What `arm_lms_norm_q31` uses from the CMSIS headers and cannot be read from the sources:
the reciprocal routine `arm_recip_q31(in, &dst, pRecipTable)`, given as the function from `in`
and the table to the returned number of sign bits and the value stored in `*dst`, and the
constant `DELTA_Q31`.  They are parameters of the embedding. -/
structure LmsEnv where
  arm_recip_q31 : Int → List Int → Nat × Int
  DELTA_Q31 : Int

/-- The fields of `arm_lms_norm_instance_q31`; `pState` and `pCoeffs` are the contents of the
buffers the two pointers point to. -/
structure arm_lms_norm_instance_q31 where
  numTaps : Nat
  pState : List Int
  pCoeffs : List Int
  mu : Int
  postShift : Nat
  recipTable : List Int
  energy : Int
  x0 : Int
  deriving DecidableEq, Repr

/-- The filter loop `while (tapCnt > 0U) { acc += ((q63_t) (*px++)) * (*pb++); tapCnt--; }`
(lines 157-164); `px` is an offset into the state buffer, `pb` into the coefficients. -/
def lms_mac (state coeffs : List Int) : Nat → Nat → Nat → Int → Int
  | 0, _, _, acc => acc
  | tapCnt + 1, px, pb, acc =>
    lms_mac state coeffs tapCnt (px + 1) (pb + 1)
      (wrap64 (acc + state.getD px 0 * coeffs.getD pb 0))

/-- Conversion of the accumulator to the output (lines 166-176):
`acc_l = acc & 0xffffffff; acc_h = (acc >> 32) & 0xffffffff;
 acc = (uint32_t) acc_l >> lShift | acc_h << uShift;` followed by the cast `(q31_t) acc`. -/
def lms_out (acc : Int) (uShift lShift : Nat) : Int :=
  let acc_l : Int := wrap32 (acc % 4294967296)
  let acc_h : Int := wrap32 (asr acc 32 % 4294967296)
  -- (uint32_t) acc_l >> lShift
  let lo : Nat := (acc_l % 4294967296).toNat >>> lShift
  -- acc_h << uShift, an int, converted to uint32_t by the bitwise or
  let hi : Nat := (wrap32 (acc_h * 2 ^ uShift) % 4294967296).toNat
  wrap32 ((lo ||| hi : Nat) : Int)

/-- The coefficient update loop (lines 240-249):
`while (tapCnt > 0U) { coef = (q31_t) (((q63_t) w * (*px++)) >> (32));
   *pb = clip_q63_to_q31((q63_t) * pb + (coef << 1U)); pb++; tapCnt--; }`;
`coef << 1U` is a shift of the 32-bit `coef`. -/
def lms_update (w : Int) (state : List Int) : Nat → Nat → Nat → List Int → List Int
  | 0, _, _, coeffs => coeffs
  | tapCnt + 1, px, pb, coeffs =>
    let coef := wrap32 (asr (wrap64 (w * state.getD px 0)) 32)
    lms_update w state tapCnt (px + 1) (pb + 1)
      (coeffs.set pb (clip_q63_to_q31 (wrap64 (coeffs.getD pb 0 + wrap32 (coef * 2)))))

/-- Variables of the block loop: the two buffers of the instance, the output and error blocks,
`energy`, `x0`, the offsets `pState` and `pStateCurnt` into the state buffer, and the common
offset `i` of `pSrc`, `pRef`, `pOut` and `pErr` (all four advance by one per sample). -/
structure LmsState where
  state : List Int
  coeffs : List Int
  out : List Int
  err : List Int
  energy : Int
  x0 : Int
  pState : Nat
  pStateCurnt : Nat
  i : Nat
  deriving DecidableEq, Repr

/-- The block loop `while (blkCnt > 0U) { ... }` (lines 101-259), without loop unrolling. -/
def lms_block (env : LmsEnv) (S : arm_lms_norm_instance_q31) (src ref : List Int) :
    Nat → LmsState → LmsState
  | 0, s => s
  | blkCnt + 1, s =>
    let uShift := u32_add S.postShift 1
    let lShift := u32_sub 32 uShift
    -- *pStateCurnt++ = *pSrc; in = *pSrc++
    let state := s.state.set s.pStateCurnt (src.getD s.i 0)
    let in_ := src.getD s.i 0
    -- update of the energy
    let energy := wrap32 (asr (wrap64 (wrap64 (s.energy * 4294967296)
      - wrap64 (wrap64 (s.x0 * s.x0) * 2))) 32)
    let energy := asr (wrap64 (wrap64 (wrap64 (in_ * in_) * 2) + wrap64 (energy * 4294967296))) 32
    let energy := clip_q63_to_q31 energy
    -- filter output
    let acc := lms_mac state s.coeffs S.numTaps s.pState 0 0
    let y := lms_out acc uShift lShift
    -- e = *pRef++ - (q31_t) acc
    let e := wrap32 (ref.getD s.i 0 - y)
    -- postShift = arm_recip_q31(energy + DELTA_Q31, &oneByEnergy, &S->recipTable[0])
    let rc := env.arm_recip_q31 (wrap32 (wrap64 (energy + env.DELTA_Q31))) S.recipTable
    let postShift := wrap32 rc.1
    let oneByEnergy := rc.2
    let errorXmu := wrap32 (asr (wrap64 (e * S.mu)) 31)
    let w := clip_q63_to_q31 (asr (wrap64 (errorXmu * oneByEnergy)) (31 - postShift).toNat)
    let coeffs := lms_update w state S.numTaps s.pState 0 s.coeffs
    lms_block env S src ref blkCnt
      { state := state
        coeffs := coeffs
        out := s.out.set s.i y
        err := s.err.set s.i e
        energy := energy
        -- x0 = *pState; pState = pState + 1
        x0 := state.getD s.pState 0
        pState := s.pState + 1
        pStateCurnt := s.pStateCurnt + 1
        i := s.i + 1 }

/-- The copy loop `while (tapCnt > 0U) { *pStateCurnt++ = *pState++; tapCnt--; }`
(lines 299-305); both pointers are offsets into the state buffer. -/
def lms_copy : Nat → Nat → Nat → List Int → List Int
  | 0, _, _, state => state
  | tapCnt + 1, pStateCurnt, pState, state =>
    lms_copy tapCnt (pStateCurnt + 1) (pState + 1) (state.set pStateCurnt (state.getD pState 0))

/-- Result of `arm_lms_norm_q31`: the instance, the output block and the error block. -/
structure LmsResult where
  S : arm_lms_norm_instance_q31
  pOut : List Int
  pErr : List Int
  deriving DecidableEq, Repr

/-- `arm_lms_norm_q31` (lines 64-307), without loop unrolling. -/
def arm_lms_norm_q31 (env : LmsEnv) (S : arm_lms_norm_instance_q31) (pSrc pRef pOut pErr : List Int)
    (blockSize : Nat) : LmsResult :=
  let s := lms_block env S pSrc pRef blockSize
    { state := S.pState, coeffs := S.pCoeffs, out := pOut, err := pErr
      energy := S.energy, x0 := S.x0
      pState := 0, pStateCurnt := u32_sub S.numTaps 1, i := 0 }
  { S := { S with
      pState := lms_copy (u32_sub S.numTaps 1) 0 s.pState s.state
      pCoeffs := s.coeffs
      energy := wrap32 s.energy
      x0 := s.x0 }
    pOut := s.out
    pErr := s.err }

/-! ### Sample inputs for `arm_lms_norm_q31` -/

/-- A one-tap instance with coefficient `0x80000000`, `postShift = 0` and `mu = 0`. -/
def lms_one_tap : arm_lms_norm_instance_q31 where
  numTaps := 1
  pState := [0]
  pCoeffs := [-2147483648]
  mu := 0
  postShift := 0
  recipTable := []
  energy := 0
  x0 := 0

/-- A two-tap instance with coefficients `[2^30, 0]`, a cleared state buffer, `postShift = 0`
and `mu = 0` (so that the coefficients are never changed). -/
def lms_two_taps : arm_lms_norm_instance_q31 where
  numTaps := 2
  pState := [0, 0]
  pCoeffs := [1073741824, 0]
  mu := 0
  postShift := 0
  recipTable := []
  energy := 0
  x0 := 0

/-- An environment used to evaluate the model on concrete inputs: a reciprocal routine that
always returns one sign bit and the value `0`, and `DELTA_Q31 = 0x100`. -/
def lms_sample_env : LmsEnv where
  arm_recip_q31 := fun _ _ => (1, 0)
  DELTA_Q31 := 256

/-! ### Auxiliary definition for the proofs about `arm_lms_norm_q31` -/

/-- Two sets of block-loop variables agree: everything is equal, except that the state buffers
(of equal length) are only known to be equal below `pStateCurnt`; `pStateCurnt` is
`numTaps - 1` samples ahead of `pState`. -/
def lms_agree (numTaps : Nat) (s1 s2 : LmsState) : Prop :=
  s1.state.length = s2.state.length
    ∧ (∀ k, k < s1.pStateCurnt → s1.state.getD k 0 = s2.state.getD k 0)
    ∧ s1.pStateCurnt + 1 = s1.pState + numTaps
    ∧ s1.coeffs = s2.coeffs ∧ s1.out = s2.out ∧ s1.err = s2.err
    ∧ s1.energy = s2.energy ∧ s1.x0 = s2.x0 ∧ s1.pState = s2.pState
    ∧ s1.pStateCurnt = s2.pStateCurnt ∧ s1.i = s2.i

/-! ### Auxiliary definitions for the proofs about `arm_conv_q31` -/

/-- Store `g 0, g 1, ..., g (n-1)` at offsets `p, p+1, ...` of `dst`, in this order. -/
def fill (g : Nat → Int) : Nat → Nat → List Int → List Int
  | 0, _, dst => dst
  | n + 1, p, dst => fill (fun i => g (i + 1)) n (p + 1) (dst.set p (g 0))

/-- Value stored for a window of `cnt` products starting at `pIn1[lo]`, `pIn2[top]`. -/
def conv_out (pIn1 pIn2 : List Int) (cnt : Nat) (lo top : Int) : Int :=
  wrap32 (asr31 (conv_mac pIn1 pIn2 cnt lo top 0).2.2)

/-! ## `fsl_i2c_dma.c`: the I2C master DMA driver

The driver talks to two peripherals through registers and through the DMA driver API.  The
embedding threads the handle through every function and records, in program order, a trace of
the externally visible effects (register accesses, DMA driver calls, assignments to
`handle->state`, callback invocations).  The value read from the status register and from
`MSTDAT` are inputs.  The functions of the DMA driver and the register access functions of
`fsl_i2c.h` are not among the sources: each call of one of them is one effect of the trace.
The completion callback is user code that receives the handle: what it does is a parameter of
the embedding. -/

/-- Modelled from the spec: the vendor status codes ("Errors are vendor status codes ...
propagated by return value") that `fsl_i2c_dma.c` returns; their enumeration lives in
`fsl_common.h` / `fsl_i2c.h`, which are not among the sources.  One constructor per
enumerator used by the driver. -/
inductive status_t where
  | kStatus_Success
  | kStatus_InvalidArgument
  | kStatus_NoTransferInProgress
  | kStatus_I2C_Busy
  | kStatus_I2C_Nak
  | kStatus_I2C_InvalidParameter
  | kStatus_I2C_ArbitrationLost
  | kStatus_I2C_StartStopError
  | kStatus_I2C_UnexpectedState
  deriving DecidableEq, Repr

/-- Modelled from the spec: the states of the "interrupt-driven protocol state machine"
(`enum _i2c_transfer_states` of `fsl_i2c.h`, not among the sources), one constructor per
enumerator named in `fsl_i2c_dma.c`.  `handle->state` only ever holds one of them. -/
inductive i2c_transfer_state where
  | kIdleState
  | kTransmitSubaddrState
  | kTransmitDataState
  | kReceiveDataState
  | kReceiveLastDataState
  | kStartState
  | kStopState
  | kWaitForCompletionState
  deriving DecidableEq, Repr

/-- Modelled from the spec: transfer direction (`i2c_direction_t` of `fsl_i2c.h`, not among the
sources). -/
inductive i2c_direction_t where
  | kI2C_Write
  | kI2C_Read
  deriving DecidableEq, Repr

/-- Constants of the device header and of `fsl_i2c.h` / `fsl_i2c_dma.h` that the driver uses and
that are not among the sources.  They are parameters of the embedding: every theorem below holds
for all their values. -/
structure I2CConsts where
  I2C_STAT_MSTPENDING_MASK : Nat
  I2C_STAT_MSTSTATE_MASK : Nat
  I2C_STAT_MSTSTATE_SHIFT : Nat
  I2C_STAT_MSTARBLOSS_MASK : Nat
  I2C_STAT_MSTSTSTPERR_MASK : Nat
  I2C_STAT_MSTCODE_RXREADY : Nat
  I2C_STAT_MSTCODE_TXREADY : Nat
  I2C_STAT_MSTCODE_NACKADR : Nat
  I2C_STAT_MSTCODE_NACKDAT : Nat
  I2C_MSTCTL_MSTSTART_MASK : Nat
  I2C_MSTCTL_MSTSTOP_MASK : Nat
  I2C_MSTCTL_MSTDMA_MASK : Nat
  I2C_INTSTAT_MSTPENDING_MASK : Nat
  I2C_INTSTAT_MSTARBLOSS_MASK : Nat
  I2C_INTSTAT_MSTSTSTPERR_MASK : Nat
  kI2C_TransferNoStartFlag : Nat
  kI2C_TransferNoStopFlag : Nat
  I2C_MAX_DMA_TRANSFER_COUNT : Nat
  deriving Repr

/-- The values these constants have on the LPC845, used to evaluate the model on concrete
inputs. -/
def LPC845 : I2CConsts where
  I2C_STAT_MSTPENDING_MASK := 0x1
  I2C_STAT_MSTSTATE_MASK := 0xE
  I2C_STAT_MSTSTATE_SHIFT := 1
  I2C_STAT_MSTARBLOSS_MASK := 0x10
  I2C_STAT_MSTSTSTPERR_MASK := 0x40
  I2C_STAT_MSTCODE_RXREADY := 1
  I2C_STAT_MSTCODE_TXREADY := 2
  I2C_STAT_MSTCODE_NACKADR := 3
  I2C_STAT_MSTCODE_NACKDAT := 4
  I2C_MSTCTL_MSTSTART_MASK := 0x2
  I2C_MSTCTL_MSTSTOP_MASK := 0x4
  I2C_MSTCTL_MSTDMA_MASK := 0x8
  I2C_INTSTAT_MSTPENDING_MASK := 0x1
  I2C_INTSTAT_MSTARBLOSS_MASK := 0x10
  I2C_INTSTAT_MSTSTSTPERR_MASK := 0x40
  kI2C_TransferNoStartFlag := 0x1
  kI2C_TransferNoStopFlag := 0x4
  I2C_MAX_DMA_TRANSFER_COUNT := 1024

/-- The fields of `i2c_master_transfer_t` the driver reads; `data` is the address of the data
buffer. -/
structure i2c_master_transfer_t where
  flags : Nat
  slaveAddress : Nat
  direction : i2c_direction_t
  subaddress : Nat
  subaddressSize : Nat
  data : Nat
  dataSize : Nat
  deriving DecidableEq, Repr

/-- The fields of `i2c_master_dma_handle_t` the driver uses; `buf` is an address,
`completionCallback` is `none` for a NULL function pointer. -/
structure i2c_master_dma_handle_t where
  state : i2c_transfer_state
  transferCount : Nat
  remainingBytesDMA : Nat
  buf : Nat
  remainingSubaddr : Nat
  subaddrBuf : List Nat
  dmaHandle : Nat
  completionCallback : Option Nat
  userData : Nat
  transfer : i2c_master_transfer_t
  deriving DecidableEq, Repr

/-- One end of a DMA transfer descriptor. -/
inductive DmaEnd where
  | MSTDAT
  | subaddrBuf
  | memory (addr : Nat)
  deriving DecidableEq, Repr

/-- Externally visible effects of the driver, in the vocabulary of the source. -/
inductive Effect where
  | I2C_GetStatusFlags (value : Nat)
  | write_MSTCTL (value : Nat)
  | write_MSTDAT (value : Nat)
  | read_MSTDAT
  | I2C_MasterClearStatusFlags (mask : Nat)
  | I2C_EnableInterrupts (mask : Nat)
  | I2C_DisableInterrupts (mask : Nat)
  | DMA_AbortTransfer
  | DMA_PrepareTransfer (src dst : DmaEnd) (byteWidth transferBytes : Nat)
  | DMA_SubmitTransfer
  | DMA_StartTransfer
  | store_data (index value : Nat)
  | assign_state (s : i2c_transfer_state)
  | completionCallback (fn : Nat) (status : status_t) (userData : Nat)
  deriving DecidableEq, Repr

open status_t i2c_transfer_state i2c_direction_t

/-- The subaddress loop of `I2C_InitTransferStateMachineDMA`:
`for (i = size - 1; i >= 0; i--) { subaddrBuf[i] = (uint8_t)subaddress & 0xff; subaddress >>= 8; }`;
the first argument is `i + 1`. -/
def subaddr_loop : Nat → Nat → List Nat → List Nat
  | 0, _, subaddrBuf => subaddrBuf
  | i + 1, subaddress, subaddrBuf =>
    subaddr_loop i (subaddress >>> 8) (subaddrBuf.set i (subaddress % 256 &&& 0xff))

/-- `I2C_InitTransferStateMachineDMA` (lines 82-142). -/
def I2C_InitTransferStateMachineDMA (c : I2CConsts) (handle : i2c_master_dma_handle_t)
    (xfer : i2c_master_transfer_t) : status_t × i2c_master_dma_handle_t :=
  let handle := { handle with
    transfer := xfer, transferCount := 0, remainingBytesDMA := 0, buf := xfer.data,
    remainingSubaddr := 0 }
  let transfer := handle.transfer
  if transfer.flags &&& c.kI2C_TransferNoStartFlag ≠ 0 then
    if transfer.dataSize = 0 then
      (kStatus_Success, { handle with state := kStopState })
    else if handle.transfer.direction = kI2C_Write then
      (kStatus_Success, { handle with state := kTransmitDataState })
    else if handle.transfer.direction = kI2C_Read then
      (kStatus_Success,
        { handle with state := if xfer.dataSize = 1 then kReceiveLastDataState else kReceiveDataState })
    else
      (kStatus_I2C_InvalidParameter, handle)
  else
    if transfer.subaddressSize ≠ 0 then
      if transfer.subaddressSize > handle.subaddrBuf.length then
        (kStatus_I2C_InvalidParameter, handle)
      else
        (kStatus_Success,
          { handle with
            subaddrBuf := subaddr_loop xfer.subaddressSize xfer.subaddress handle.subaddrBuf
            remainingSubaddr := transfer.subaddressSize
            state := kStartState })
    else
      (kStatus_Success, { handle with state := kStartState })

/-- Result of a driver entry point: returned status, updated handle, trace of effects. -/
structure DriverResult where
  result : status_t
  handle : i2c_master_dma_handle_t
  effects : List Effect
  deriving DecidableEq, Repr

/-- `I2C_MasterTransferDMA` (lines 520-545). -/
def I2C_MasterTransferDMA (c : I2CConsts) (handle : i2c_master_dma_handle_t)
    (xfer : i2c_master_transfer_t) : DriverResult :=
  if handle.state ≠ kIdleState then
    { result := kStatus_I2C_Busy, handle := handle, effects := [] }
  else
    let r := I2C_InitTransferStateMachineDMA c handle xfer
    { result := r.1
      handle := r.2
      effects :=
        [ Effect.I2C_MasterClearStatusFlags
            (c.I2C_STAT_MSTARBLOSS_MASK ||| c.I2C_STAT_MSTSTSTPERR_MASK),
          Effect.I2C_EnableInterrupts
            (c.I2C_INTSTAT_MSTARBLOSS_MASK ||| c.I2C_INTSTAT_MSTSTSTPERR_MASK
              ||| c.I2C_INTSTAT_MSTPENDING_MASK) ] }

/-- `I2C_MasterTransferGetCountDMA` (lines 554-573); `count` is `none` for a NULL pointer and
otherwise holds the current content of `*count`.  Returns the status, the handle and `*count`. -/
def I2C_MasterTransferGetCountDMA (handle : i2c_master_dma_handle_t) (count : Option Nat) :
    status_t × i2c_master_dma_handle_t × Option Nat :=
  match count with
  | none => (kStatus_InvalidArgument, handle, none)
  | some _ =>
    if handle.state = kIdleState then (kStatus_NoTransferInProgress, handle, some 0)
    else (kStatus_Success, handle, some handle.transferCount)

/-- `I2C_RunDMATransfer` (lines 144-194): returns the handle and the effects. -/
def I2C_RunDMATransfer (c : I2CConsts) (handle : i2c_master_dma_handle_t) :
    i2c_master_dma_handle_t × List Effect :=
  -- count = handle->buf - handle->transfer.data; handle->transferCount = (uint32_t)count
  let handle := { handle with transferCount := u32_sub handle.buf handle.transfer.data }
  if handle.remainingBytesDMA = 0 then
    (handle, [Effect.write_MSTCTL 0])
  else
    let transfer_size :=
      if handle.remainingBytesDMA > c.I2C_MAX_DMA_TRANSFER_COUNT then c.I2C_MAX_DMA_TRANSFER_COUNT
      else handle.remainingBytesDMA
    let prepare :=
      match handle.transfer.direction with
      | kI2C_Write =>
        Effect.DMA_PrepareTransfer (DmaEnd.memory handle.buf) DmaEnd.MSTDAT 1 transfer_size
      | kI2C_Read =>
        Effect.DMA_PrepareTransfer DmaEnd.MSTDAT (DmaEnd.memory handle.buf) 1 transfer_size
    ({ handle with
        remainingBytesDMA := u32_sub handle.remainingBytesDMA transfer_size
        buf := u32_add handle.buf transfer_size },
      [prepare, Effect.DMA_SubmitTransfer, Effect.DMA_StartTransfer])

/-- Result of `I2C_RunTransferStateMachineDMA`: returned status, `*isDone`, updated handle and
trace of effects. -/
structure RunResult where
  result : status_t
  isDone : Bool
  handle : i2c_master_dma_handle_t
  effects : List Effect
  deriving DecidableEq, Repr

/-- Outcome of the `if (handle->state == kStartState)` block: either the function returns from
inside the block, or control reaches the `switch` with `start_flag`, the handle and the effects so
far. -/
inductive StartStep where
  | ret (r : RunResult)
  | cont (start_flag : Nat) (handle : i2c_master_dma_handle_t) (effects : List Effect)
  deriving Repr

/-- The `if (handle->state == (uint8_t)kStartState) { ... }` block of
`I2C_RunTransferStateMachineDMA` (lines 254-296); `err` is `kStatus_Success` on entry. -/
def run_start_state (c : I2CConsts) (handle : i2c_master_dma_handle_t) : StartStep :=
  let transfer := handle.transfer
  if handle.state = kStartState then
    -- start_flag = I2C_MSTCTL_MSTSTART_MASK
    if handle.remainingSubaddr ≠ 0 then
      StartStep.cont c.I2C_MSTCTL_MSTSTART_MASK { handle with state := kTransmitSubaddrState }
        [Effect.write_MSTDAT ((transfer.slaveAddress <<< 1) % 4294967296),
         Effect.assign_state kTransmitSubaddrState]
    else if transfer.direction = kI2C_Write then
      if transfer.dataSize = 0 then
        StartStep.ret
          { result := kStatus_Success, isDone := false
            handle := { handle with state := kStopState }
            effects :=
              [Effect.write_MSTDAT ((transfer.slaveAddress <<< 1) % 4294967296),
               Effect.write_MSTCTL c.I2C_MSTCTL_MSTSTART_MASK,
               Effect.assign_state kStopState] }
      else
        StartStep.cont c.I2C_MSTCTL_MSTSTART_MASK { handle with state := kTransmitDataState }
          [Effect.write_MSTDAT ((transfer.slaveAddress <<< 1) % 4294967296),
           Effect.assign_state kTransmitDataState]
    else if transfer.direction = kI2C_Read ∧ transfer.dataSize > 0 then
      if transfer.dataSize = 1 then
        StartStep.ret
          { result := kStatus_Success, isDone := false
            handle := { handle with state := kReceiveLastDataState }
            effects :=
              [Effect.write_MSTDAT (((transfer.slaveAddress <<< 1) % 4294967296) ||| 1),
               Effect.write_MSTCTL c.I2C_MSTCTL_MSTSTART_MASK,
               Effect.assign_state kReceiveLastDataState] }
      else
        StartStep.cont c.I2C_MSTCTL_MSTSTART_MASK { handle with state := kReceiveDataState }
          [Effect.write_MSTDAT (((transfer.slaveAddress <<< 1) % 4294967296) ||| 1),
           Effect.assign_state kReceiveDataState]
    else
      StartStep.ret
        { result := kStatus_I2C_UnexpectedState, isDone := false
          handle := { handle with state := kIdleState }
          effects := [Effect.assign_state kIdleState] }
  else
    StartStep.cont 0 handle []

/-- The `switch (handle->state) { ... } return err;` part of `I2C_RunTransferStateMachineDMA`
(lines 298-409); `effects` are the effects of the call so far. -/
def run_state_switch (c : I2CConsts) (master_state mstdat start_flag : Nat)
    (handle : i2c_master_dma_handle_t) (effects : List Effect) : RunResult :=
  let transfer := handle.transfer
  match handle.state with
  | kTransmitSubaddrState =>
    if master_state ≠ c.I2C_STAT_MSTCODE_TXREADY ∧ start_flag = 0 then
      { result := kStatus_I2C_UnexpectedState, isDone := false, handle := handle, effects := effects }
    else
      let effects := effects ++
        [Effect.write_MSTCTL (start_flag ||| c.I2C_MSTCTL_MSTDMA_MASK),
         Effect.DMA_PrepareTransfer DmaEnd.subaddrBuf DmaEnd.MSTDAT 1 handle.remainingSubaddr,
         Effect.DMA_SubmitTransfer, Effect.DMA_StartTransfer]
      let handle := { handle with remainingSubaddr := 0 }
      let next :=
        if transfer.dataSize ≠ 0 then
          (if transfer.direction = kI2C_Read then kStartState else kTransmitDataState)
        else kStopState
      { result := kStatus_Success, isDone := false
        handle := { handle with state := next }
        effects := effects ++ [Effect.assign_state next] }
  | kTransmitDataState =>
    if master_state ≠ c.I2C_STAT_MSTCODE_TXREADY ∧ start_flag = 0 then
      { result := kStatus_I2C_UnexpectedState, isDone := false, handle := handle, effects := effects }
    else
      let effects := effects ++ [Effect.write_MSTCTL (start_flag ||| c.I2C_MSTCTL_MSTDMA_MASK)]
      let handle := { handle with remainingBytesDMA := handle.transfer.dataSize }
      let d := I2C_RunDMATransfer c handle
      { result := kStatus_Success, isDone := false
        handle := { d.1 with state := kStopState }
        effects := effects ++ d.2 ++ [Effect.assign_state kStopState] }
  | kReceiveDataState =>
    if (master_state ≠ c.I2C_STAT_MSTCODE_RXREADY ∧ start_flag = 0)
        ∧ transfer.flags &&& c.kI2C_TransferNoStartFlag = 0 then
      { result := kStatus_I2C_UnexpectedState, isDone := false, handle := handle, effects := effects }
    else
      let effects := effects ++ [Effect.write_MSTCTL (start_flag ||| c.I2C_MSTCTL_MSTDMA_MASK)]
      let handle := { handle with remainingBytesDMA := u32_sub handle.transfer.dataSize 1 }
      let effects :=
        if transfer.flags &&& c.kI2C_TransferNoStartFlag ≠ 0 then effects ++ [Effect.read_MSTDAT]
        else effects
      let d := I2C_RunDMATransfer c handle
      { result := kStatus_Success, isDone := false
        handle := { d.1 with state := kReceiveLastDataState }
        effects := effects ++ d.2 ++ [Effect.assign_state kReceiveLastDataState] }
  | kReceiveLastDataState =>
    if master_state ≠ c.I2C_STAT_MSTCODE_RXREADY then
      { result := kStatus_I2C_UnexpectedState, isDone := false, handle := handle, effects := effects }
    else
      let effects := effects ++
        [Effect.read_MSTDAT, Effect.store_data (u32_sub transfer.dataSize 1) (mstdat % 256)]
      let handle := { handle with transferCount := u32_add handle.transferCount 1 }
      let effects :=
        if transfer.flags &&& c.kI2C_TransferNoStopFlag = 0 then
          effects ++ [Effect.write_MSTCTL c.I2C_MSTCTL_MSTSTOP_MASK]
        else effects
      { result := kStatus_Success, isDone := false
        handle := { handle with state := kWaitForCompletionState }
        effects := effects ++ [Effect.assign_state kWaitForCompletionState] }
  | kStopState =>
    if transfer.flags &&& c.kI2C_TransferNoStopFlag ≠ 0 then
      { result := kStatus_Success, isDone := true
        handle := { handle with state := kIdleState }
        effects := effects ++ [Effect.assign_state kIdleState] }
    else
      { result := kStatus_Success, isDone := false
        handle := { handle with state := kWaitForCompletionState }
        effects := effects ++
          [Effect.write_MSTCTL c.I2C_MSTCTL_MSTSTOP_MASK,
           Effect.assign_state kWaitForCompletionState] }
  | kWaitForCompletionState =>
    { result := kStatus_Success, isDone := true
      handle := { handle with state := kIdleState }
      effects := effects ++ [Effect.assign_state kIdleState] }
  | kStartState | kIdleState =>
    { result := kStatus_I2C_UnexpectedState, isDone := false, handle := handle, effects := effects }

/-- `I2C_RunTransferStateMachineDMA` (lines 204-409).  `status` is the value returned by the
one call `status = I2C_GetStatusFlags(base)` (line 219), which is the first effect of every
trace; `mstdat` is the value a read of `base->MSTDAT` yields. -/
def I2C_RunTransferStateMachineDMA (c : I2CConsts) (status mstdat : Nat)
    (handle : i2c_master_dma_handle_t) : RunResult :=
  if status &&& c.I2C_STAT_MSTARBLOSS_MASK ≠ 0 then
    { result := kStatus_I2C_ArbitrationLost, isDone := false, handle := handle
      effects :=
        [Effect.I2C_GetStatusFlags status,
         Effect.I2C_MasterClearStatusFlags c.I2C_STAT_MSTARBLOSS_MASK, Effect.DMA_AbortTransfer,
         Effect.write_MSTCTL 0] }
  else if status &&& c.I2C_STAT_MSTSTSTPERR_MASK ≠ 0 then
    { result := kStatus_I2C_StartStopError, isDone := false, handle := handle
      effects :=
        [Effect.I2C_GetStatusFlags status,
         Effect.I2C_MasterClearStatusFlags c.I2C_STAT_MSTSTSTPERR_MASK, Effect.DMA_AbortTransfer,
         Effect.write_MSTCTL 0] }
  else if status &&& c.I2C_STAT_MSTPENDING_MASK = 0 then
    { result := kStatus_I2C_Busy, isDone := false, handle := handle
      effects := [Effect.I2C_GetStatusFlags status] }
  else
    let master_state := (status &&& c.I2C_STAT_MSTSTATE_MASK) >>> c.I2C_STAT_MSTSTATE_SHIFT
    if master_state = c.I2C_STAT_MSTCODE_NACKADR ∨ master_state = c.I2C_STAT_MSTCODE_NACKDAT then
      { result := kStatus_I2C_Nak, isDone := false
        handle := { handle with state := kWaitForCompletionState }
        effects :=
          [Effect.I2C_GetStatusFlags status,
           Effect.DMA_AbortTransfer, Effect.write_MSTCTL c.I2C_MSTCTL_MSTSTOP_MASK,
           Effect.assign_state kWaitForCompletionState] }
    else
      match run_start_state c handle with
      | StartStep.ret r => { r with effects := Effect.I2C_GetStatusFlags status :: r.effects }
      | StartStep.cont start_flag handle effects =>
        run_state_switch c master_state mstdat start_flag handle
          (Effect.I2C_GetStatusFlags status :: effects)

/-- The functions a completion callback pointer can designate
(`i2c_master_dma_transfer_callback_t`, called as
`handle->completionCallback(base, handle, result, handle->userData)`).  A callback is user code
and receives the handle itself: from `*handle`, the status and `userData` it yields the handle
as it leaves it and the driver effects it causes (for instance by calling
`I2C_MasterTransferDMA` to start the next transfer), or `none` when it does not return. -/
def i2c_master_dma_transfer_callback_t : Type :=
  i2c_master_dma_handle_t → status_t → Nat → Option (i2c_master_dma_handle_t × List Effect)

/-- Outcome of a call of `I2C_MasterTransferDMAHandleIRQ`. -/
inductive IrqResult where
  /-- The macro `assert(i2cHandle != NULL)` failed and the program was aborted. -/
  | assert_failed
  /-- The handler returned: the handle on return (`none` for a NULL pointer), the effects of
  the handler in program order, and then those of the user code run by the callback. -/
  | returned (handle : Option i2c_master_dma_handle_t) (effects callback_effects : List Effect)
  /-- The handler called the completion callback, last of `effects`, and the callback has not
  returned. -/
  | in_callback (effects : List Effect)
  deriving DecidableEq, Repr

/-- The effects of the handler itself, the invocation of the callback included. -/
def IrqResult.effects : IrqResult → List Effect
  | IrqResult.assert_failed => []
  | IrqResult.returned _ effects _ => effects
  | IrqResult.in_callback effects => effects

/-- `I2C_MasterTransferDMAHandleIRQ` (lines 411-442).  `i2cHandle` is `none` for a NULL pointer:
the call then fails the assertion of line 413, or returns at once (lines 420-423) in a build
with `NDEBUG`, where `assert` expands to nothing.  `callback fn` is the user function the
pointer `fn` designates.  The callback is called last, with the handle, so the handle on return
is the one the callback leaves. -/
def I2C_MasterTransferDMAHandleIRQ (c : I2CConsts) (NDEBUG : Bool)
    (callback : Nat → i2c_master_dma_transfer_callback_t) (status mstdat : Nat)
    (i2cHandle : Option i2c_master_dma_handle_t) : IrqResult :=
  match i2cHandle with
  | none => if NDEBUG then IrqResult.returned none [] [] else IrqResult.assert_failed
  | some handle =>
    let r := I2C_RunTransferStateMachineDMA c status mstdat handle
    if r.result ≠ kStatus_Success ∨ r.isDone = true then
      let handle := { r.handle with state := kIdleState }
      let effects := r.effects ++
        [Effect.assign_state kIdleState,
         Effect.I2C_DisableInterrupts
           (c.I2C_INTSTAT_MSTPENDING_MASK ||| c.I2C_INTSTAT_MSTARBLOSS_MASK
             ||| c.I2C_INTSTAT_MSTSTSTPERR_MASK)]
      match handle.completionCallback with
      | some fn =>
        let effects := effects ++ [Effect.completionCallback fn r.result handle.userData]
        match callback fn handle r.result handle.userData with
        | some after => IrqResult.returned (some after.1) effects after.2
        | none => IrqResult.in_callback effects
      | none => IrqResult.returned (some handle) effects []
    else
      IrqResult.returned (some r.handle) r.effects []

/-! ### Observations on a trace of effects -/

/-- The values assigned to `handle->state`, in program order. -/
def state_writes (es : List Effect) : List i2c_transfer_state :=
  es.filterMap fun e => match e with
    | Effect.assign_state s => some s
    | _ => none

/-- The values written to `base->MSTCTL`, in program order. -/
def mstctl_writes (es : List Effect) : List Nat :=
  es.filterMap fun e => match e with
    | Effect.write_MSTCTL v => some v
    | _ => none

/-- The statuses passed to the completion callback, one per invocation, in program order. -/
def callback_calls (es : List Effect) : List status_t :=
  es.filterMap fun e => match e with
    | Effect.completionCallback _ st _ => some st
    | _ => none

/-- The masks passed to `I2C_DisableInterrupts`, one per call, in program order. -/
def disable_calls (es : List Effect) : List Nat :=
  es.filterMap fun e => match e with
    | Effect.I2C_DisableInterrupts m => some m
    | _ => none

/-- The values read from the status register, one per call of `I2C_GetStatusFlags`, in program
order. -/
def status_reads (es : List Effect) : List Nat :=
  es.filterMap fun e => match e with
    | Effect.I2C_GetStatusFlags v => some v
    | _ => none

/-- The number of reads of `base->MSTDAT`. -/
def mstdat_reads (es : List Effect) : Nat :=
  (es.filter fun e => match e with
    | Effect.read_MSTDAT => true
    | _ => false).length

/-- The number of calls into the DMA driver (`DMA_AbortTransfer`, `DMA_PrepareTransfer`,
`DMA_SubmitTransfer`, `DMA_StartTransfer`). -/
def dma_calls (es : List Effect) : Nat :=
  (es.filter fun e => match e with
    | Effect.DMA_AbortTransfer => true
    | Effect.DMA_PrepareTransfer _ _ _ _ => true
    | Effect.DMA_SubmitTransfer => true
    | Effect.DMA_StartTransfer => true
    | _ => false).length

/-- Direct successors of a state: the values the source assigns to `handle->state` in the code
that handles that state (the NACK branch assigns `kWaitForCompletionState` from every state). -/
def successors : i2c_transfer_state → List i2c_transfer_state
  | kStartState =>
    [kTransmitSubaddrState, kTransmitDataState, kReceiveDataState, kReceiveLastDataState,
     kStopState, kIdleState, kWaitForCompletionState]
  | kTransmitSubaddrState => [kStartState, kTransmitDataState, kStopState, kWaitForCompletionState]
  | kTransmitDataState => [kStopState, kWaitForCompletionState]
  | kReceiveDataState => [kReceiveLastDataState, kWaitForCompletionState]
  | kReceiveLastDataState => [kWaitForCompletionState]
  | kStopState => [kIdleState, kWaitForCompletionState]
  | kWaitForCompletionState => [kIdleState, kWaitForCompletionState]
  | kIdleState => [kWaitForCompletionState]

/-- Every assignment in the list moves to a direct successor of the state held just before. -/
def steps_from : i2c_transfer_state → List i2c_transfer_state → Prop
  | _, [] => True
  | s, t :: ts => t ∈ successors s ∧ steps_from t ts

/-! ### Sample inputs -/

/-- A write of four bytes to the slave at address `0x50`, without subaddress, default flags. -/
def sample_transfer : i2c_master_transfer_t where
  flags := 0
  slaveAddress := 0x50
  direction := kI2C_Write
  subaddress := 0
  subaddressSize := 0
  data := 0x10000000
  dataSize := 4

/-- A handle in state `st` that carries `sample_transfer` and has a completion callback. -/
def sample_handle (st : i2c_transfer_state) : i2c_master_dma_handle_t where
  state := st
  transferCount := 0
  remainingBytesDMA := 0
  buf := 0x10000000
  remainingSubaddr := 0
  subaddrBuf := [0, 0, 0, 0]
  dmaHandle := 0
  completionCallback := some 1
  userData := 7
  transfer := sample_transfer

/-- A completion callback that starts the next transfer: it calls
`I2C_MasterTransferDMA(base, handle, &sample_transfer)` and returns. -/
def chain_callback : Nat → i2c_master_dma_transfer_callback_t :=
  fun _ handle _ _ =>
    let r := I2C_MasterTransferDMA LPC845 handle sample_transfer
    some (r.handle, r.effects)

/-- A completion callback that leaves the handle alone and returns. -/
def plain_callback : Nat → i2c_master_dma_transfer_callback_t :=
  fun _ handle _ _ => some (handle, [])

/-- A completion callback that does not return. -/
def stuck_callback : Nat → i2c_master_dma_transfer_callback_t :=
  fun _ _ _ _ => none

/-! ### Auxiliary definitions for the proofs about the state machine -/

/-- Summary of one block of the state machine that turns handle `h` and trace `e` into handle
`h2` and trace `e2`: no callback, no interrupt disabling, callback fields untouched, and at most
one assignment to `handle->state`, to a direct successor. -/
def block_summary (h : i2c_master_dma_handle_t) (e : List Effect)
    (h2 : i2c_master_dma_handle_t) (e2 : List Effect) : Prop :=
  callback_calls e2 = callback_calls e ∧ disable_calls e2 = disable_calls e
    ∧ h2.completionCallback = h.completionCallback ∧ h2.userData = h.userData
    ∧ ((state_writes e2 = state_writes e ∧ h2.state = h.state)
        ∨ (state_writes e2 = state_writes e ++ [h2.state] ∧ h2.state ∈ successors h.state))

/-- Summary of a whole call of `I2C_RunTransferStateMachineDMA` entered with handle `h`. -/
def run_summary (h : i2c_master_dma_handle_t) (r : RunResult) : Prop :=
  callback_calls r.effects = [] ∧ disable_calls r.effects = []
    ∧ r.handle.completionCallback = h.completionCallback ∧ r.handle.userData = h.userData
    ∧ (state_writes r.effects).length ≤ 2
    ∧ (h.state ≠ kStartState → (state_writes r.effects).length ≤ 1)
    ∧ steps_from h.state (state_writes r.effects)
    ∧ r.handle.state = (state_writes r.effects).getLastD h.state
    ∧ (r.result = kStatus_Success ∨ r.result = kStatus_I2C_ArbitrationLost
        ∨ r.result = kStatus_I2C_StartStopError ∨ r.result = kStatus_I2C_Busy
        ∨ r.result = kStatus_I2C_Nak ∨ r.result = kStatus_I2C_UnexpectedState)

/-! ## `arm_fir_init_f64` -/

/-- The fields of `arm_fir_instance_f64`; the two pointers are addresses. -/
structure arm_fir_instance_f64 where
  numTaps : Nat
  pState : Nat
  pCoeffs : Nat
  deriving DecidableEq, Repr

/-- The byte loop of the C library function `memset(s, c, n)`: store `(unsigned char) c` in
`n` consecutive bytes starting at offset `p` of the buffer. -/
def memset_loop (c : Int) : Nat → Nat → List Int → List Int
  | 0, _, buf => buf
  | n + 1, p, buf => memset_loop c n (p + 1) (buf.set p (c % 256))

/-- `sizeof(float64_t)`. -/
def sizeof_float64_t : Nat := 8

/-- `arm_fir_init_f64` (lines 62-79).  `stateBuf` holds the bytes of the buffer `pState` points
to and `coeffBuf` those of the buffer `pCoeffs` points to; the byte count of `memset` is
computed in 32-bit unsigned arithmetic (`size_t` of the target).  Returns the instance and the
two buffers. -/
def arm_fir_init_f64 (S : arm_fir_instance_f64) (numTaps : Nat) (pCoeffs : Nat) (pState : Nat)
    (blockSize : Nat) (stateBuf coeffBuf : List Int) :
    arm_fir_instance_f64 × List Int × List Int :=
  let S := { S with numTaps := numTaps }
  let S := { S with pCoeffs := pCoeffs }
  -- memset(pState, 0, (numTaps + (blockSize - 1U)) * sizeof(float64_t))
  let stateBuf := memset_loop 0
    ((u32_add numTaps (u32_sub blockSize 1) * sizeof_float64_t) % 4294967296) 0 stateBuf
  let S := { S with pState := pState }
  (S, stateBuf, coeffBuf)

/-! ## The redundant scalar builds of `arm_abs_q31` -/

/-- Modelled from the spec: the intrinsic `__QSUB` of the CMSIS headers (not among the
sources), the 32-bit saturating subtraction: `x - y` limited to the range
`[0x80000000, 0x7FFFFFFF]`. -/
def __QSUB (x y : Int) : Int :=
  if x - y > 2147483647 then 2147483647
  else if x - y < -2147483648 then -2147483648
  else x - y

/-- The expression stored by every `*pDst++ = ...` statement of `arm_abs_q31`, as selected by
`#if defined (ARM_MATH_DSP)`: `(in > 0) ? in : (q31_t)__QSUB(0, in)` when the flag is defined,
`(in > 0) ? in : ((in == INT32_MIN) ? INT32_MAX : -in)` otherwise. -/
def arm_abs_q31_value (ARM_MATH_DSP : Bool) (in_ : Int) : Int :=
  if ARM_MATH_DSP then
    (if in_ > 0 then in_ else wrap32 (__QSUB 0 in_))
  else
    (if in_ > 0 then in_ else (if in_ = INT32_MIN then INT32_MAX else -in_))

/-- The loop of lines 139-174 (`ARM_MATH_LOOPUNROLL`): four times
`in = *pSrc++; *pDst++ = ...;` per iteration, then `blkCnt--`.  The arguments are `blkCnt`,
the offsets of the two running pointers, and the destination; the result holds the two
pointers and the destination on exit. -/
def arm_abs_q31_unroll_loop (ARM_MATH_DSP : Bool) (src : List Int) :
    Nat → Nat → Nat → List Int → Nat × Nat × List Int
  | 0, pSrc, pDst, dst => (pSrc, pDst, dst)
  | blkCnt + 1, pSrc, pDst, dst =>
    let in_ := src.getD pSrc 0
    let dst := dst.set pDst (arm_abs_q31_value ARM_MATH_DSP in_)
    let in_ := src.getD (pSrc + 1) 0
    let dst := dst.set (pDst + 1) (arm_abs_q31_value ARM_MATH_DSP in_)
    let in_ := src.getD (pSrc + 2) 0
    let dst := dst.set (pDst + 2) (arm_abs_q31_value ARM_MATH_DSP in_)
    let in_ := src.getD (pSrc + 3) 0
    let dst := dst.set (pDst + 3) (arm_abs_q31_value ARM_MATH_DSP in_)
    arm_abs_q31_unroll_loop ARM_MATH_DSP src blkCnt (pSrc + 4) (pDst + 4) dst

/-- The loop of lines 187-201 under either setting of `ARM_MATH_DSP`:
`while (blkCnt > 0U) { in = *pSrc++; *pDst++ = ...; blkCnt--; }`. -/
def arm_abs_q31_tail_loop (ARM_MATH_DSP : Bool) (src : List Int) :
    Nat → Nat → Nat → List Int → List Int
  | 0, _, _, dst => dst
  | blkCnt + 1, pSrc, pDst, dst =>
    let in_ := src.getD pSrc 0
    arm_abs_q31_tail_loop ARM_MATH_DSP src blkCnt (pSrc + 1) (pDst + 1)
      (dst.set pDst (arm_abs_q31_value ARM_MATH_DSP in_))

/-- The scalar `arm_abs_q31` (lines 98-203, `ARM_MATH_NEON` undefined) for each setting of
`ARM_MATH_LOOPUNROLL` and `ARM_MATH_DSP`: with loop unrolling `blkCnt = blockSize >> 2U` passes
of the unrolled loop are followed by `blkCnt = blockSize % 0x4U` passes of the last loop,
without it the last loop runs `blkCnt = blockSize` times.  Returns the destination buffer. -/
def arm_abs_q31_build (ARM_MATH_LOOPUNROLL ARM_MATH_DSP : Bool) (pSrc pDst : List Int)
    (blockSize : Nat) : List Int :=
  if ARM_MATH_LOOPUNROLL then
    let r := arm_abs_q31_unroll_loop ARM_MATH_DSP pSrc (blockSize >>> 2) 0 0 pDst
    arm_abs_q31_tail_loop ARM_MATH_DSP pSrc (blockSize % 4) r.1 r.2.1 r.2.2
  else
    arm_abs_q31_tail_loop ARM_MATH_DSP pSrc blockSize 0 0 pDst

/-! ### Arithmetic facts -/

namespace Q

theorem wrap64_add_left (x y : Int) : wrap64 (wrap64 x + y) = wrap64 (x + y) := by
  unfold wrap64; omega

theorem wrap64_zero : wrap64 0 = 0 := by decide

theorem rd_natCast (arr : List Int) (k : Nat) : rd arr (k : Int) = arr.getD k 0 := by
  simp [rd]

theorem u32_sub_of_le {x y : Nat} (h : y ≤ x) (hx : x < 4294967296) : u32_sub x y = x - y := by
  unfold u32_sub; rw [if_pos h]; omega

theorem u32_add_of_lt {x y : Nat} (h : x + y < 4294967296) : u32_add x y = x + y := by
  unfold u32_add; omega

end Q

/-! ### The multiply-accumulate loop -/

/-- The accumulator after `k` multiply-accumulates is the wrapped exact sum. -/
theorem conv_mac_sum (pIn1 pIn2 : List Int) (k : Nat) (px py s : Int) :
    (conv_mac pIn1 pIn2 k px py (wrap64 s)).2.2
      = wrap64 (s + ∑ j in Finset.range k, rd pIn1 (px + j) * rd pIn2 (py - j)) := by
  induction k generalizing px py s with
  | zero => simp [conv_mac]
  | succ k ih =>
    rw [conv_mac, wrap64_add_left, ih, Finset.sum_range_succ']
    congr 1
    have hs : ∀ j : Nat, rd pIn1 (px + 1 + (j : Int)) * rd pIn2 (py - 1 - (j : Int))
        = rd pIn1 (px + ((j + 1 : Nat) : Int)) * rd pIn2 (py - ((j + 1 : Nat) : Int)) := by
      intro j
      have h1 : px + 1 + (j : Int) = px + ((j + 1 : Nat) : Int) := by push_cast; ring
      have h2 : py - 1 - (j : Int) = py - ((j + 1 : Nat) : Int) := by push_cast; ring
      rw [h1, h2]
    rw [Finset.sum_congr rfl (fun j _ => hs j)]
    simp
    ring

/-- The window sum read through natural-number indices. -/
theorem conv_mac_window (pIn1 pIn2 : List Int) (cnt lo top : Nat) (h : cnt ≤ top + 1) :
    (conv_mac pIn1 pIn2 cnt (lo : Int) (top : Int) 0).2.2
      = wrap64 (∑ j in Finset.range cnt, pIn1.getD (lo + j) 0 * pIn2.getD (top - j) 0) := by
  have h0 := conv_mac_sum pIn1 pIn2 cnt (lo : Int) (top : Int) 0
  rw [wrap64_zero, zero_add] at h0
  rw [h0]
  congr 1
  apply Finset.sum_congr rfl
  intro j hj
  have hj2 : j < cnt := Finset.mem_range.mp hj
  have e1 : ((lo : Int) + (j : Int)) = ((lo + j : Nat) : Int) := by push_cast; ring
  have e2 : ((top : Int) - (j : Int)) = ((top - j : Nat) : Int) := by omega
  rw [e1, e2, rd_natCast, rd_natCast]

/-! ### Consecutive stores -/

theorem fill_length (g : Nat → Int) (n p : Nat) (dst : List Int) :
    (fill g n p dst).length = dst.length := by
  induction n generalizing g p dst with
  | zero => rfl
  | succ n ih => rw [fill, ih, List.length_set]

theorem fill_getElem? (g : Nat → Int) (n p : Nat) (dst : List Int) (i : Nat) :
    (fill g n p dst)[i]?
      = if p ≤ i ∧ i < p + n ∧ i < dst.length then some (g (i - p)) else dst[i]? := by
  induction n generalizing g p dst with
  | zero =>
    have h : ¬ (p ≤ i ∧ i < p + 0 ∧ i < dst.length) := by omega
    rw [fill, if_neg h]
  | succ n ih =>
    rw [fill, ih, List.length_set, List.getElem?_set]
    by_cases h1 : p + 1 ≤ i ∧ i < p + 1 + n ∧ i < dst.length
    · have h2 : p ≤ i ∧ i < p + (n + 1) ∧ i < dst.length := by omega
      have h3 : i - (p + 1) + 1 = i - p := by omega
      rw [if_pos h1, if_pos h2, h3]
    · rw [if_neg h1]
      by_cases h4 : p = i
      · subst h4
        by_cases h5 : p < dst.length
        · have h2 : p ≤ p ∧ p < p + (n + 1) ∧ p < dst.length := by omega
          simp [h5]
        · have h6 : dst[p]? = none := List.getElem?_eq_none (by omega)
          simp [h5, h6]
      · have h2 : ¬ (p ≤ i ∧ i < p + (n + 1) ∧ i < dst.length) := by omega
        rw [if_neg h4, if_neg h2]

/-! ### The three stages as consecutive stores -/

theorem conv_stage1_eq (pIn1 pIn2 : List Int) (n : Nat) (s : ConvState)
    (hpx : s.px = 0) (hpy : s.py = (s.count : Int) - 1) (hc : s.count + n < 4294967296) :
    (conv_stage1 pIn1 pIn2 n s).pDst
        = fill (fun i => conv_out pIn1 pIn2 (s.count + i) 0 (((s.count + i : Nat) : Int) - 1))
            n s.pOut s.pDst
      ∧ (conv_stage1 pIn1 pIn2 n s).pOut = s.pOut + n
      ∧ (conv_stage1 pIn1 pIn2 n s).stores = s.stores ++ List.range' s.pOut n := by
  induction n generalizing s with
  | zero => exact ⟨rfl, rfl, by simp [conv_stage1]⟩
  | succ n ih =>
    have hadd : u32_add s.count 1 = s.count + 1 := u32_add_of_lt (by omega)
    rw [conv_stage1]
    obtain ⟨h1, h2, h3⟩ := ih
      { pDst := s.pDst.set s.pOut (wrap32 (asr31 (conv_mac pIn1 pIn2 s.count s.px s.py 0).2.2))
        pOut := s.pOut + 1
        py := s.count
        px := 0
        count := u32_add s.count 1
        stores := s.stores ++ [s.pOut] } rfl (by simp [hadd]) (by simp only [hadd]; omega)
    refine ⟨?_, ?_, ?_⟩
    rotate_left 2
    · rw [h3]; simp [List.range'_succ]
    · rw [h1, fill]
      simp only [hadd, hpx, hpy, conv_out, Nat.add_zero]
      congr 1
      funext i
      have : s.count + 1 + i = s.count + (i + 1) := by omega
      rw [this]
    · rw [h2]; simp only []; omega

theorem conv_stage2_eq (pIn1 pIn2 : List Int) (srcBLen : Nat) (pSrc2 : Int) (n : Nat)
    (s : ConvState) (hpx : s.px = (s.count : Int)) (hpy : s.py = pSrc2)
    (hc : s.count + n < 4294967296) :
    (conv_stage2 pIn1 pIn2 srcBLen pSrc2 n s).pDst
        = fill (fun i => conv_out pIn1 pIn2 srcBLen ((s.count + i : Nat) : Int) pSrc2)
            n s.pOut s.pDst
      ∧ (conv_stage2 pIn1 pIn2 srcBLen pSrc2 n s).pOut = s.pOut + n
      ∧ (conv_stage2 pIn1 pIn2 srcBLen pSrc2 n s).stores = s.stores ++ List.range' s.pOut n := by
  induction n generalizing s with
  | zero => exact ⟨rfl, rfl, by simp [conv_stage2]⟩
  | succ n ih =>
    have hadd : u32_add s.count 1 = s.count + 1 := u32_add_of_lt (by omega)
    rw [conv_stage2]
    obtain ⟨h1, h2, h3⟩ := ih
      { pDst := s.pDst.set s.pOut (wrap32 (asr31 (conv_mac pIn1 pIn2 srcBLen s.px s.py 0).2.2))
        pOut := s.pOut + 1
        count := u32_add s.count 1
        px := (u32_add s.count 1 : Nat)
        py := pSrc2
        stores := s.stores ++ [s.pOut] } rfl rfl (by simp only [hadd]; omega)
    refine ⟨?_, ?_, ?_⟩
    rotate_left 2
    · rw [h3]; simp [List.range'_succ]
    · rw [h1, fill]
      simp only [hadd, hpx, hpy, conv_out, Nat.add_zero]
      congr 1
      funext i
      have : s.count + 1 + i = s.count + (i + 1) := by omega
      rw [this]
    · rw [h2]; simp only []; omega

theorem conv_stage3_eq (pIn1 pIn2 : List Int) (pSrc2 : Int) (n : Nat) (pSrc1 : Int)
    (s : ConvState) (hpx : s.px = pSrc1) (hpy : s.py = pSrc2) :
    (conv_stage3 pIn1 pIn2 pSrc2 n pSrc1 s).pDst
        = fill (fun i => conv_out pIn1 pIn2 (n - i) (pSrc1 + (i : Int)) pSrc2) n s.pOut s.pDst
      ∧ (conv_stage3 pIn1 pIn2 pSrc2 n pSrc1 s).pOut = s.pOut + n
      ∧ (conv_stage3 pIn1 pIn2 pSrc2 n pSrc1 s).stores = s.stores ++ List.range' s.pOut n := by
  induction n generalizing s pSrc1 with
  | zero => exact ⟨rfl, rfl, by simp [conv_stage3]⟩
  | succ n ih =>
    rw [conv_stage3]
    obtain ⟨h1, h2, h3⟩ := ih (pSrc1 + 1)
      { s with
        pDst := s.pDst.set s.pOut
          (wrap32 (asr31 (conv_mac pIn1 pIn2 (n + 1) s.px s.py 0).2.2))
        pOut := s.pOut + 1
        px := pSrc1 + 1
        py := pSrc2
        stores := s.stores ++ [s.pOut] } rfl rfl
    refine ⟨?_, ?_, ?_⟩
    rotate_left 2
    · rw [h3]; simp [List.range'_succ]
    · rw [h1, fill]
      simp only [hpx, hpy, conv_out, Nat.sub_zero, Nat.cast_zero, add_zero]
      congr 1
      funext i
      have e1 : n + 1 - (i + 1) = n - i := by omega
      have e2 : pSrc1 + 1 + (i : Int) = pSrc1 + ((i + 1 : Nat) : Int) := by push_cast; ring
      rw [e1, e2]
    · rw [h2]; simp only []; omega

/-! ### From windows to the convolution sum -/

theorem conv_window_sum (X Y : List Int) (A B n lo cnt : Nat)
    (hset : ∀ k, (lo ≤ k ∧ k < lo + cnt) ↔ (k < A ∧ k ≤ n ∧ n - k < B)) :
    ∑ j in Finset.range cnt, X.getD (lo + j) 0 * Y.getD (n - lo - j) 0
      = ∑ k in (Finset.range A).filter (fun k => k ≤ n ∧ n - k < B),
          X.getD k 0 * Y.getD (n - k) 0 := by
  have hfil : (Finset.range A).filter (fun k => k ≤ n ∧ n - k < B) = Finset.Ico lo (lo + cnt) := by
    ext k
    simp only [Finset.mem_filter, Finset.mem_range, Finset.mem_Ico]
    exact (hset k).symm
  rw [hfil, Finset.sum_Ico_eq_sum_range, Nat.add_sub_cancel_left]
  apply Finset.sum_congr rfl
  intro j _
  rw [Nat.sub_sub]

theorem conv_out_eq (X Y : List Int) (A B n lo cnt : Nat) (loI topI : Int)
    (hlo : loI = (lo : Int)) (htop : topI = ((n - lo : Nat) : Int)) (hcnt : cnt ≤ n - lo + 1)
    (hset : ∀ k, (lo ≤ k ∧ k < lo + cnt) ↔ (k < A ∧ k ≤ n ∧ n - k < B)) :
    conv_out X Y cnt loI topI
      = wrap32 (asr31 (wrap64 (∑ k in (Finset.range A).filter (fun k => k ≤ n ∧ n - k < B),
          X.getD k 0 * Y.getD (n - k) 0))) := by
  rw [conv_out, hlo, htop, conv_mac_window X Y cnt lo (n - lo) hcnt,
    conv_window_sum X Y A B n lo cnt hset]

/-- The three stages store, at every offset `n < A + B - 1`, the truncated shifted wrapped
convolution sum, when the sliding sequence is the shorter one. -/
theorem conv_stages_getElem? (X Y dst : List Int) (A B : Nat)
    (hB : 1 ≤ B) (hBA : B ≤ A) (hA : A < 4294967296) (hdst : A + B - 1 ≤ dst.length)
    (n : Nat) (hn : n < A + B - 1) :
    (conv_stages X A Y B dst)[n]?
      = some (wrap32 (asr31 (wrap64 (∑ k in (Finset.range A).filter (fun k => k ≤ n ∧ n - k < B),
          X.getD k 0 * Y.getD (n - k) 0)))) := by
  have hb1 : u32_sub B 1 = B - 1 := u32_sub_of_le hB (by omega)
  have hb2 : u32_sub A (B - 1) = A - (B - 1) := u32_sub_of_le (by omega) hA
  unfold conv_stages conv_stages_run
  simp only [hb1, hb2, ite_self]
  obtain ⟨d1, p1, _⟩ := conv_stage1_eq X Y (B - 1)
    { pDst := dst, pOut := 0, px := 0, py := 0, count := 1, stores := [] } rfl (by simp)
    (by simp only []; omega)
  generalize conv_stage1 X Y (B - 1)
    { pDst := dst, pOut := 0, px := 0, py := 0, count := 1, stores := [] } = s1 at d1 p1 ⊢
  obtain ⟨d2, p2, _⟩ := conv_stage2_eq X Y B ((B - 1 : Nat) : Int) (A - (B - 1))
    { s1 with px := 0, py := ((B - 1 : Nat) : Int), count := 0 } (by simp) rfl
    (by simp only []; omega)
  generalize conv_stage2 X Y B ((B - 1 : Nat) : Int) (A - (B - 1))
    { s1 with px := 0, py := ((B - 1 : Nat) : Int), count := 0 } = s2 at d2 p2 ⊢
  obtain ⟨d3, _, _⟩ := conv_stage3_eq X Y ((B - 1 : Nat) : Int) (B - 1)
    ((A : Int) - ((B - 1 : Nat) : Int))
    { s2 with px := (A : Int) - ((B - 1 : Nat) : Int), py := ((B - 1 : Nat) : Int) } rfl rfl
  rw [d3]
  simp only [] at d1 p1 d2 p2 ⊢
  rw [fill_getElem?, d2, fill_length, fill_getElem?, d1, fill_length, fill_getElem?, p2, p1]
  simp only [Nat.zero_add]
  by_cases c3 : A ≤ n
  · have h3 : B - 1 + (A - (B - 1)) ≤ n ∧ n < B - 1 + (A - (B - 1)) + (B - 1) ∧ n < dst.length := by
      omega
    rw [if_pos h3]
    congr 1
    apply conv_out_eq X Y A B n (n + 1 - B) _ _ _
    · omega
    · omega
    · omega
    · intro k; omega
  · have h3 : ¬ (B - 1 + (A - (B - 1)) ≤ n ∧ n < B - 1 + (A - (B - 1)) + (B - 1)
        ∧ n < dst.length) := by omega
    rw [if_neg h3]
    by_cases c2 : B - 1 ≤ n
    · have h2 : B - 1 ≤ n ∧ n < B - 1 + (A - (B - 1)) ∧ n < dst.length := by omega
      rw [if_pos h2]
      congr 1
      apply conv_out_eq X Y A B n (n + 1 - B) _ _ _
      · omega
      · omega
      · omega
      · intro k; omega
    · have h2 : ¬ (B - 1 ≤ n ∧ n < B - 1 + (A - (B - 1)) ∧ n < dst.length) := by omega
      have h1 : 0 ≤ n ∧ n < B - 1 ∧ n < dst.length := by omega
      rw [if_neg h2, if_pos h1]
      congr 1
      apply conv_out_eq X Y A B n 0 _ _ _
      · simp
      · simp
      · omega
      · intro k; omega

/-- The convolution sum does not depend on which sequence slides across the other. -/
theorem conv_sum_comm (X Y : List Int) (A B n : Nat) :
    ∑ k in (Finset.range B).filter (fun k => k ≤ n ∧ n - k < A), Y.getD k 0 * X.getD (n - k) 0
      = ∑ k in (Finset.range A).filter (fun k => k ≤ n ∧ n - k < B),
          X.getD k 0 * Y.getD (n - k) 0 := by
  apply Finset.sum_nbij' (fun k => n - k) (fun k => n - k)
  · intro k hk
    simp only [Finset.mem_filter, Finset.mem_range] at hk ⊢
    omega
  · intro k hk
    simp only [Finset.mem_filter, Finset.mem_range] at hk ⊢
    omega
  · intro k hk
    simp only [Finset.mem_filter, Finset.mem_range] at hk
    omega
  · intro k hk
    simp only [Finset.mem_filter, Finset.mem_range] at hk
    omega
  · intro k hk
    simp only [Finset.mem_filter, Finset.mem_range] at hk
    have : n - (n - k) = k := by omega
    rw [this, mul_comm]

/-! ### Claims on `arm_conv_q31` -/

/-- C1: for sequences `a` (length `A ≥ 1`) and `b` (length `B ≥ 1`), `arm_conv_q31` stores at
every offset `n < A + B - 1` of `pDst` the low 32 bits of `S_n >> 31`, where `S_n` is the sum of
`a[k] * b[n-k]` over all `k < A` with `0 ≤ n - k < B`, held in a wrapping signed 64-bit
accumulator. -/
theorem arm_conv_q31_convolution (a b dst : List Int)
    (hA : 1 ≤ a.length) (hB : 1 ≤ b.length)
    (hA32 : a.length < 4294967296) (hB32 : b.length < 4294967296)
    (hdst : a.length + b.length - 1 ≤ dst.length)
    (n : Nat) (hn : n < a.length + b.length - 1) :
    (arm_conv_q31 a a.length b b.length dst)[n]?
      = some (wrap32 (asr31 (wrap64
          (∑ k in (Finset.range a.length).filter (fun k => k ≤ n ∧ n - k < b.length),
            a.getD k 0 * b.getD (n - k) 0)))) := by
  unfold arm_conv_q31
  by_cases h : a.length ≥ b.length
  · rw [if_pos h]
    exact conv_stages_getElem? a b dst a.length b.length hB h hA32 hdst n hn
  · rw [if_neg h,
      conv_stages_getElem? b a dst b.length a.length hA (by omega) hB32 (by omega) n (by omega),
      conv_sum_comm a b a.length b.length n]

/-- C1 at `a = [2^30, 2, 3]`, `b = [5, 7]`, output offset `2`. -/
theorem arm_conv_q31_convolution_witness :
    (arm_conv_q31 [1073741824, 2, 3] 3 [5, 7] 2 [0, 0, 0, 0, 0])[2]?
      = some (wrap32 (asr31 (wrap64
          (∑ k in (Finset.range 3).filter (fun k => k ≤ 2 ∧ 2 - k < 2),
            [(1073741824 : Int), 2, 3].getD k 0 * [(5 : Int), 7].getD (2 - k) 0)))) :=
  arm_conv_q31_convolution [1073741824, 2, 3] [5, 7] [0, 0, 0, 0, 0]
    (by decide) (by decide) (by decide) (by decide) (by decide) 2 (by decide)

/-- C2 (behaviour of the code at the input of the claim): for `a = b = [0x80000000]` the
accumulator is `2^62`, the shifted accumulator is `+2^31`, and the value stored is
`0x80000000 = -2^31` (not the saturated `0x7FFFFFFF`). -/
theorem arm_conv_q31_truncates_at_min :
    (conv_mac [-2147483648] [-2147483648] 1 0 0 0).2.2 = 4611686018427387904
      ∧ asr31 4611686018427387904 = 2147483648
      ∧ arm_conv_q31 [-2147483648] 1 [-2147483648] 1 [0] = [-2147483648] := by
  decide

/-! ## Claims on the I2C master DMA driver -/

theorem I2C_InitTransferStateMachineDMA_result (c : I2CConsts)
    (handle : i2c_master_dma_handle_t) (xfer : i2c_master_transfer_t) :
    (I2C_InitTransferStateMachineDMA c handle xfer).1 = kStatus_Success
      ∨ (I2C_InitTransferStateMachineDMA c handle xfer).1 = kStatus_I2C_InvalidParameter := by
  unfold I2C_InitTransferStateMachineDMA
  simp only []
  split_ifs <;> simp

/-- C3: `I2C_MasterTransferDMA` returns `kStatus_I2C_Busy` exactly when `handle->state` is not
`kIdleState` on entry, and in that case the handle is returned unchanged and the trace of
effects is empty (no register is written, no driver call is made). -/
theorem I2C_MasterTransferDMA_busy (c : I2CConsts) (handle : i2c_master_dma_handle_t)
    (xfer : i2c_master_transfer_t) :
    ((I2C_MasterTransferDMA c handle xfer).result = kStatus_I2C_Busy
        ↔ handle.state ≠ kIdleState)
      ∧ (handle.state ≠ kIdleState →
          (I2C_MasterTransferDMA c handle xfer).handle = handle
            ∧ (I2C_MasterTransferDMA c handle xfer).effects = []) := by
  unfold I2C_MasterTransferDMA
  by_cases h : handle.state = kIdleState
  · have hr := I2C_InitTransferStateMachineDMA_result c handle xfer
    simp only [h, ne_eq, not_true_eq_false, if_false, iff_false, false_implies, and_true]
    rcases hr with hr | hr <;> rw [hr] <;> decide
  · simp [h]

/-- C3 at a handle whose state is `kStopState`. -/
theorem I2C_MasterTransferDMA_busy_witness :
    (I2C_MasterTransferDMA LPC845 (sample_handle kStopState) sample_transfer).handle
        = sample_handle kStopState
      ∧ (I2C_MasterTransferDMA LPC845 (sample_handle kStopState) sample_transfer).effects = [] :=
  (I2C_MasterTransferDMA_busy LPC845 (sample_handle kStopState) sample_transfer).2 (by decide)

/-- Case analysis on the guards at the head of `I2C_RunTransferStateMachineDMA`. -/
theorem I2C_RunTransferStateMachineDMA_cases (c : I2CConsts) (status mstdat : Nat)
    (handle : i2c_master_dma_handle_t) (P : RunResult → Prop)
    (harb : P { result := kStatus_I2C_ArbitrationLost, isDone := false, handle := handle
                effects := [Effect.I2C_GetStatusFlags status,
                  Effect.I2C_MasterClearStatusFlags c.I2C_STAT_MSTARBLOSS_MASK,
                  Effect.DMA_AbortTransfer, Effect.write_MSTCTL 0] })
    (hstp : P { result := kStatus_I2C_StartStopError, isDone := false, handle := handle
                effects := [Effect.I2C_GetStatusFlags status,
                  Effect.I2C_MasterClearStatusFlags c.I2C_STAT_MSTSTSTPERR_MASK,
                  Effect.DMA_AbortTransfer, Effect.write_MSTCTL 0] })
    (hbusy : P { result := kStatus_I2C_Busy, isDone := false, handle := handle
                 effects := [Effect.I2C_GetStatusFlags status] })
    (hnak : P { result := kStatus_I2C_Nak, isDone := false
                handle := { handle with state := kWaitForCompletionState }
                effects := [Effect.I2C_GetStatusFlags status,
                  Effect.DMA_AbortTransfer, Effect.write_MSTCTL c.I2C_MSTCTL_MSTSTOP_MASK,
                  Effect.assign_state kWaitForCompletionState] })
    (hrun : ∀ master_state : Nat,
      P (match run_start_state c handle with
          | StartStep.ret r => { r with effects := Effect.I2C_GetStatusFlags status :: r.effects }
          | StartStep.cont start_flag handle effects =>
            run_state_switch c master_state mstdat start_flag handle
              (Effect.I2C_GetStatusFlags status :: effects))) :
    P (I2C_RunTransferStateMachineDMA c status mstdat handle) := by
  unfold I2C_RunTransferStateMachineDMA
  by_cases h1 : status &&& c.I2C_STAT_MSTARBLOSS_MASK ≠ 0
  · rw [if_pos h1]; exact harb
  · rw [if_neg h1]
    by_cases h2 : status &&& c.I2C_STAT_MSTSTSTPERR_MASK ≠ 0
    · rw [if_pos h2]; exact hstp
    · rw [if_neg h2]
      by_cases h3 : status &&& c.I2C_STAT_MSTPENDING_MASK = 0
      · rw [if_pos h3]; exact hbusy
      · rw [if_neg h3]
        simp only []
        split_ifs
        · exact hnak
        · exact hrun _

theorem run_state_switch_summary (c : I2CConsts) (ms mstdat f : Nat)
    (handle : i2c_master_dma_handle_t) (e : List Effect) :
    block_summary handle e (run_state_switch c ms mstdat f handle e).handle
        (run_state_switch c ms mstdat f handle e).effects
      ∧ ((run_state_switch c ms mstdat f handle e).result = kStatus_Success
          ∨ (run_state_switch c ms mstdat f handle e).result = kStatus_I2C_UnexpectedState) := by
  generalize hr : run_state_switch c ms mstdat f handle e = r
  rcases handle with ⟨st, tc, rb, buf, rs, sb, dh, cb, ud, ⟨fl, sa, dir, sub, ss, data, ds⟩⟩
  cases st <;> cases dir <;> simp only [run_state_switch, I2C_RunDMATransfer] at hr <;>
    (try split_ifs at hr) <;> subst hr <;>
    simp [block_summary, callback_calls, disable_calls, state_writes, successors]

theorem run_start_state_summary (c : I2CConsts) (handle : i2c_master_dma_handle_t) :
    match run_start_state c handle with
    | StartStep.ret r =>
      handle.state = kStartState ∧ block_summary handle [] r.handle r.effects
        ∧ r.isDone = false
        ∧ (r.result = kStatus_Success ∨ r.result = kStatus_I2C_UnexpectedState)
    | StartStep.cont _ h2 e =>
      (handle.state ≠ kStartState ∧ h2 = handle ∧ e = [])
        ∨ (handle.state = kStartState ∧ block_summary handle [] h2 e) := by
  generalize hr : run_start_state c handle = r
  rcases handle with ⟨st, tc, rb, buf, rs, sb, dh, cb, ud, ⟨fl, sa, dir, sub, ss, data, ds⟩⟩
  cases st <;> cases dir <;> simp only [run_start_state] at hr <;>
    (try split_ifs at hr) <;> subst hr <;>
    simp_all [block_summary, callback_calls, disable_calls, state_writes, successors]

theorem wait_mem_successors (s : i2c_transfer_state) :
    kWaitForCompletionState ∈ successors s := by
  cases s <;> simp [successors]

/-- Two consecutive blocks, each assigning `handle->state` at most once. -/
theorem two_blocks (s0 s1 s2 : i2c_transfer_state) (w1 w2 : List i2c_transfer_state)
    (b : (w1 = [] ∧ s1 = s0) ∨ (w1 = [] ++ [s1] ∧ s1 ∈ successors s0))
    (a : (w2 = w1 ∧ s2 = s1) ∨ (w2 = w1 ++ [s2] ∧ s2 ∈ successors s1)) :
    w2.length ≤ 2 ∧ (w1 = [] → w2.length ≤ 1) ∧ steps_from s0 w2 ∧ s2 = w2.getLastD s0 := by
  rcases b with ⟨rfl, rfl⟩ | ⟨rfl, hb⟩ <;> rcases a with ⟨rfl, rfl⟩ | ⟨rfl, ha⟩ <;>
    simp [steps_from, *]

theorem I2C_RunTransferStateMachineDMA_summary (c : I2CConsts) (status mstdat : Nat)
    (handle : i2c_master_dma_handle_t) :
    run_summary handle (I2C_RunTransferStateMachineDMA c status mstdat handle) := by
  apply I2C_RunTransferStateMachineDMA_cases c status mstdat handle (run_summary handle)
  · simp [run_summary, callback_calls, disable_calls, state_writes, steps_from]
  · simp [run_summary, callback_calls, disable_calls, state_writes, steps_from]
  · simp [run_summary, callback_calls, disable_calls, state_writes, steps_from]
  · simp [run_summary, callback_calls, disable_calls, state_writes, steps_from,
      wait_mem_successors]
  · intro ms
    have hB := run_start_state_summary c handle
    have hnil : state_writes [] = [] := rfl
    cases hst : run_start_state c handle with
    | ret r =>
      rw [hst] at hB
      simp only [] at hB ⊢
      obtain ⟨hs, ⟨b1, b2, b3, b4, b5⟩, _, hres⟩ := hB
      rw [hnil] at b5
      obtain ⟨t1, t2, t3, t4⟩ := two_blocks handle.state r.handle.state r.handle.state
        (state_writes r.effects) (state_writes r.effects) b5 (Or.inl ⟨rfl, rfl⟩)
      refine ⟨b1, b2, b3, b4, t1, fun h => absurd hs h, t3, t4, ?_⟩
      rcases hres with h | h <;> simp [h]
    | cont f hd e =>
      rw [hst] at hB
      simp only [] at hB ⊢
      obtain ⟨⟨a1, a2, a3, a4, a5⟩, hres⟩ :=
        run_state_switch_summary c ms mstdat f hd (Effect.I2C_GetStatusFlags status :: e)
      generalize run_state_switch c ms mstdat f hd (Effect.I2C_GetStatusFlags status :: e) = r
        at a1 a2 a3 a4 a5 hres ⊢
      have a1 : callback_calls r.effects = callback_calls e := a1
      have a2 : disable_calls r.effects = disable_calls e := a2
      have a5 : (state_writes r.effects = state_writes e ∧ r.handle.state = hd.state)
          ∨ (state_writes r.effects = state_writes e ++ [r.handle.state]
              ∧ r.handle.state ∈ successors hd.state) := a5
      have hres2 : r.result = kStatus_Success ∨ r.result = kStatus_I2C_ArbitrationLost
          ∨ r.result = kStatus_I2C_StartStopError ∨ r.result = kStatus_I2C_Busy
          ∨ r.result = kStatus_I2C_Nak ∨ r.result = kStatus_I2C_UnexpectedState := by
        rcases hres with h | h <;> simp [h]
      rcases hB with ⟨_, rfl, rfl⟩ | ⟨hs, b1, b2, b3, b4, b5⟩
      · obtain ⟨t1, t2, t3, t4⟩ := two_blocks hd.state hd.state r.handle.state
          (state_writes []) (state_writes r.effects) (Or.inl ⟨rfl, rfl⟩) a5
        exact ⟨a1, a2, a3, a4, t1, fun _ => t2 rfl, t3, t4, hres2⟩
      · rw [hnil] at b5
        obtain ⟨t1, _, t3, t4⟩ := two_blocks handle.state hd.state r.handle.state
          (state_writes e) (state_writes r.effects) b5 a5
        exact ⟨a1.trans b1, a2.trans b2, a3.trans b3, a4.trans b4, t1,
          fun h => absurd hs h, t3, t4, hres2⟩

/-- C4: hardware errors are reported by return value with a fixed priority.  With MSTARBLOSS
set the result is `kStatus_I2C_ArbitrationLost`; with MSTARBLOSS clear and MSTSTSTPERR set it is
`kStatus_I2C_StartStopError`; in both cases `handle->state` is unchanged and the only write to
MSTCTL writes 0.  With both flags clear, MSTPENDING set and master state code NACKADR or
NACKDAT the result is `kStatus_I2C_Nak` and the only write to MSTCTL writes MSTSTOP. -/
theorem I2C_RunTransferStateMachineDMA_error_priority (c : I2CConsts) (status mstdat : Nat)
    (handle : i2c_master_dma_handle_t) :
    (status &&& c.I2C_STAT_MSTARBLOSS_MASK ≠ 0 →
        (I2C_RunTransferStateMachineDMA c status mstdat handle).result
            = kStatus_I2C_ArbitrationLost
          ∧ (I2C_RunTransferStateMachineDMA c status mstdat handle).handle.state = handle.state
          ∧ mstctl_writes (I2C_RunTransferStateMachineDMA c status mstdat handle).effects = [0])
      ∧ (status &&& c.I2C_STAT_MSTARBLOSS_MASK = 0 →
          status &&& c.I2C_STAT_MSTSTSTPERR_MASK ≠ 0 →
          (I2C_RunTransferStateMachineDMA c status mstdat handle).result
              = kStatus_I2C_StartStopError
            ∧ (I2C_RunTransferStateMachineDMA c status mstdat handle).handle.state = handle.state
            ∧ mstctl_writes (I2C_RunTransferStateMachineDMA c status mstdat handle).effects = [0])
      ∧ (status &&& c.I2C_STAT_MSTARBLOSS_MASK = 0 →
          status &&& c.I2C_STAT_MSTSTSTPERR_MASK = 0 →
          status &&& c.I2C_STAT_MSTPENDING_MASK ≠ 0 →
          ((status &&& c.I2C_STAT_MSTSTATE_MASK) >>> c.I2C_STAT_MSTSTATE_SHIFT
                = c.I2C_STAT_MSTCODE_NACKADR
              ∨ (status &&& c.I2C_STAT_MSTSTATE_MASK) >>> c.I2C_STAT_MSTSTATE_SHIFT
                = c.I2C_STAT_MSTCODE_NACKDAT) →
          (I2C_RunTransferStateMachineDMA c status mstdat handle).result = kStatus_I2C_Nak
            ∧ mstctl_writes (I2C_RunTransferStateMachineDMA c status mstdat handle).effects
                = [c.I2C_MSTCTL_MSTSTOP_MASK]) := by
  refine ⟨?_, ?_, ?_⟩
  · intro h1
    unfold I2C_RunTransferStateMachineDMA
    rw [if_pos h1]
    simp [mstctl_writes]
  · intro h1 h2
    unfold I2C_RunTransferStateMachineDMA
    rw [if_neg (by simp [h1]), if_pos h2]
    simp [mstctl_writes]
  · intro h1 h2 h3 h4
    unfold I2C_RunTransferStateMachineDMA
    rw [if_neg (by simp [h1]), if_neg (by simp [h2]), if_neg h3]
    simp only []
    rw [if_pos h4]
    simp [mstctl_writes]

/-- C4 on the LPC845 with status words `0x51` (both error flags and MSTPENDING set), `0x41`
(MSTSTSTPERR and MSTPENDING) and `0x07` (MSTPENDING, master state code 3 = NACKADR), for a
handle in `kTransmitDataState`. -/
theorem I2C_RunTransferStateMachineDMA_error_priority_witness :
    ((I2C_RunTransferStateMachineDMA LPC845 0x51 0 (sample_handle kTransmitDataState)).result
          = kStatus_I2C_ArbitrationLost
        ∧ (I2C_RunTransferStateMachineDMA LPC845 0x51 0
            (sample_handle kTransmitDataState)).handle.state
          = (sample_handle kTransmitDataState).state
        ∧ mstctl_writes (I2C_RunTransferStateMachineDMA LPC845 0x51 0
            (sample_handle kTransmitDataState)).effects = [0])
      ∧ ((I2C_RunTransferStateMachineDMA LPC845 0x41 0 (sample_handle kTransmitDataState)).result
          = kStatus_I2C_StartStopError
        ∧ (I2C_RunTransferStateMachineDMA LPC845 0x41 0
            (sample_handle kTransmitDataState)).handle.state
          = (sample_handle kTransmitDataState).state
        ∧ mstctl_writes (I2C_RunTransferStateMachineDMA LPC845 0x41 0
            (sample_handle kTransmitDataState)).effects = [0])
      ∧ ((I2C_RunTransferStateMachineDMA LPC845 0x07 0 (sample_handle kTransmitDataState)).result
          = kStatus_I2C_Nak
        ∧ mstctl_writes (I2C_RunTransferStateMachineDMA LPC845 0x07 0
            (sample_handle kTransmitDataState)).effects = [LPC845.I2C_MSTCTL_MSTSTOP_MASK]) :=
  ⟨(I2C_RunTransferStateMachineDMA_error_priority LPC845 0x51 0
      (sample_handle kTransmitDataState)).1 (by decide),
   (I2C_RunTransferStateMachineDMA_error_priority LPC845 0x41 0
      (sample_handle kTransmitDataState)).2.1 (by decide) (by decide),
   (I2C_RunTransferStateMachineDMA_error_priority LPC845 0x07 0
      (sample_handle kTransmitDataState)).2.2 (by decide) (by decide) (by decide) (by decide)⟩

/-- C5, refutation of the claim as stated: entered in `kStartState` with a pending write of
four bytes and no subaddress, one call assigns `handle->state` twice, first
`kTransmitDataState` (start block), then `kStopState` (state switch). -/
theorem I2C_RunTransferStateMachineDMA_two_assignments :
    state_writes (I2C_RunTransferStateMachineDMA LPC845 0x1 0 (sample_handle kStartState)).effects
        = [kTransmitDataState, kStopState]
      ∧ ¬ ((state_writes
          (I2C_RunTransferStateMachineDMA LPC845 0x1 0 (sample_handle kStartState)).effects).length
            ≤ 1) := by
  decide

/-- C5, amended: during one call `handle->state` is assigned at most twice, and at most once
when the state on entry is not `kStartState`; every assignment moves to a direct successor of
the state held just before it, and the state on return is the last value assigned (the state on
entry when there was no assignment). -/
theorem I2C_RunTransferStateMachineDMA_steps (c : I2CConsts) (status mstdat : Nat)
    (handle : i2c_master_dma_handle_t) :
    (state_writes (I2C_RunTransferStateMachineDMA c status mstdat handle).effects).length ≤ 2
      ∧ (handle.state ≠ kStartState →
          (state_writes (I2C_RunTransferStateMachineDMA c status mstdat handle).effects).length ≤ 1)
      ∧ steps_from handle.state
          (state_writes (I2C_RunTransferStateMachineDMA c status mstdat handle).effects)
      ∧ (I2C_RunTransferStateMachineDMA c status mstdat handle).handle.state
          = (state_writes (I2C_RunTransferStateMachineDMA c status mstdat handle).effects).getLastD
              handle.state := by
  obtain ⟨_, _, _, _, h1, h2, h3, h4, _⟩ :=
    I2C_RunTransferStateMachineDMA_summary c status mstdat handle
  exact ⟨h1, h2, h3, h4⟩

/-- C5 amended, at a handle in `kStopState`: at most one assignment. -/
theorem I2C_RunTransferStateMachineDMA_steps_witness :
    (state_writes
      (I2C_RunTransferStateMachineDMA LPC845 0x1 0 (sample_handle kStopState)).effects).length
        ≤ 1 :=
  (I2C_RunTransferStateMachineDMA_steps LPC845 0x1 0 (sample_handle kStopState)).2.1 (by decide)

/-- C6, refutation of the claim as stated: with MSTSTSTPERR set the result is
`kStatus_I2C_StartStopError`, with MSTPENDING clear it is `kStatus_I2C_Busy`, and entered in
`kIdleState` with MSTPENDING set it is `kStatus_I2C_UnexpectedState`; none of them is one of
the three statuses of the claim. -/
theorem I2C_RunTransferStateMachineDMA_other_statuses :
    (I2C_RunTransferStateMachineDMA LPC845 0x40 0 (sample_handle kTransmitDataState)).result
        = kStatus_I2C_StartStopError
      ∧ (I2C_RunTransferStateMachineDMA LPC845 0x0 0 (sample_handle kTransmitDataState)).result
        = kStatus_I2C_Busy
      ∧ (I2C_RunTransferStateMachineDMA LPC845 0x1 0 (sample_handle kIdleState)).result
        = kStatus_I2C_UnexpectedState
      ∧ ¬ ((I2C_RunTransferStateMachineDMA LPC845 0x40 0
              (sample_handle kTransmitDataState)).result = kStatus_Success
          ∨ (I2C_RunTransferStateMachineDMA LPC845 0x40 0
              (sample_handle kTransmitDataState)).result = kStatus_I2C_ArbitrationLost
          ∨ (I2C_RunTransferStateMachineDMA LPC845 0x40 0
              (sample_handle kTransmitDataState)).result = kStatus_I2C_Nak) := by
  decide

/-- C6, amended: for every handle and every value of the status register,
`I2C_RunTransferStateMachineDMA` returns one of `kStatus_Success`,
`kStatus_I2C_ArbitrationLost`, `kStatus_I2C_StartStopError`, `kStatus_I2C_Busy`,
`kStatus_I2C_Nak` or `kStatus_I2C_UnexpectedState`, and no other status. -/
theorem I2C_RunTransferStateMachineDMA_statuses (c : I2CConsts) (status mstdat : Nat)
    (handle : i2c_master_dma_handle_t) :
    (I2C_RunTransferStateMachineDMA c status mstdat handle).result = kStatus_Success
      ∨ (I2C_RunTransferStateMachineDMA c status mstdat handle).result
          = kStatus_I2C_ArbitrationLost
      ∨ (I2C_RunTransferStateMachineDMA c status mstdat handle).result
          = kStatus_I2C_StartStopError
      ∨ (I2C_RunTransferStateMachineDMA c status mstdat handle).result = kStatus_I2C_Busy
      ∨ (I2C_RunTransferStateMachineDMA c status mstdat handle).result = kStatus_I2C_Nak
      ∨ (I2C_RunTransferStateMachineDMA c status mstdat handle).result
          = kStatus_I2C_UnexpectedState :=
  (I2C_RunTransferStateMachineDMA_summary c status mstdat handle).2.2.2.2.2.2.2.2

theorem state_writes_append (a b : List Effect) :
    state_writes (a ++ b) = state_writes a ++ state_writes b := by
  simp [state_writes]

theorem callback_calls_append (a b : List Effect) :
    callback_calls (a ++ b) = callback_calls a ++ callback_calls b := by
  simp [callback_calls]

theorem disable_calls_append (a b : List Effect) :
    disable_calls (a ++ b) = disable_calls a ++ disable_calls b := by
  simp [disable_calls]

theorem status_reads_append (a b : List Effect) :
    status_reads (a ++ b) = status_reads a ++ status_reads b := by
  simp [status_reads]

theorem mstdat_reads_append (a b : List Effect) :
    mstdat_reads (a ++ b) = mstdat_reads a + mstdat_reads b := by
  simp [mstdat_reads]

theorem dma_calls_append (a b : List Effect) :
    dma_calls (a ++ b) = dma_calls a + dma_calls b := by
  simp [dma_calls]

/-- C7, refutation of the claim as stated: with a completion callback that starts the next
transfer (it calls `I2C_MasterTransferDMA` on the handle it is given), a call that ends a
transfer on arbitration loss returns with `handle->state == kStartState`, not `kIdleState`, and
the last thing done before the return is the callback enabling the three interrupts again. -/
theorem I2C_MasterTransferDMAHandleIRQ_chained :
    (I2C_RunTransferStateMachineDMA LPC845 0x11 0 (sample_handle kTransmitDataState)).result
        = kStatus_I2C_ArbitrationLost
      ∧ (∃ h es, I2C_MasterTransferDMAHandleIRQ LPC845 true chain_callback 0x11 0
            (some (sample_handle kTransmitDataState))
          = IrqResult.returned (some h) es
              [Effect.I2C_MasterClearStatusFlags 0x50, Effect.I2C_EnableInterrupts 0x51]
          ∧ h.state = kStartState)
      ∧ ¬ (∃ h es ces, I2C_MasterTransferDMAHandleIRQ LPC845 true chain_callback 0x11 0
            (some (sample_handle kTransmitDataState)) = IrqResult.returned (some h) es ces
          ∧ h.state = kIdleState) := by
  refine ⟨by decide, ⟨_, _, rfl, by decide⟩, ?_⟩
  rintro ⟨h, es, ces, heq, hst⟩
  have h1 : I2C_MasterTransferDMAHandleIRQ LPC845 true chain_callback 0x11 0
      (some (sample_handle kTransmitDataState))
      = IrqResult.returned (some { sample_handle kStartState with
          transferCount := 0, remainingBytesDMA := 0, buf := sample_transfer.data,
          remainingSubaddr := 0 })
        [Effect.I2C_GetStatusFlags 0x11, Effect.I2C_MasterClearStatusFlags 0x10,
         Effect.DMA_AbortTransfer, Effect.write_MSTCTL 0, Effect.assign_state kIdleState,
         Effect.I2C_DisableInterrupts 0x51,
         Effect.completionCallback 1 kStatus_I2C_ArbitrationLost 7]
        [Effect.I2C_MasterClearStatusFlags 0x50, Effect.I2C_EnableInterrupts 0x51] := by
    decide
  rw [h1] at heq
  injection heq with e1 _ _
  injection e1 with e1
  rw [← e1] at hst
  exact absurd hst (by decide)

/-- C7, amended: for a non-NULL handle, when the state machine returns a status other than
`kStatus_Success` or reports `isDone`, the handler assigns `kIdleState` to `handle->state`
(its last assignment), disables the MSTPENDING/MSTARBLOSS/MSTSTSTPERR interrupts (one call,
with that mask) and then, when the completion callback is non-NULL, invokes it exactly once, as
its last action, with the status the state machine returned, with `handle->userData` and with
the handle in `kIdleState`; the handle on return is the one the callback leaves (the idle
handle itself when the callback is NULL), and the handler does not return when the callback
does not.  Otherwise the handler neither invokes the callback nor disables interrupts, and
the handle is the one the state machine left. -/
theorem I2C_MasterTransferDMAHandleIRQ_completion (c : I2CConsts) (NDEBUG : Bool)
    (callback : Nat → i2c_master_dma_transfer_callback_t) (status mstdat : Nat)
    (handle : i2c_master_dma_handle_t) :
    (((I2C_RunTransferStateMachineDMA c status mstdat handle).result ≠ kStatus_Success
          ∨ (I2C_RunTransferStateMachineDMA c status mstdat handle).isDone = true) →
        disable_calls
            (I2C_MasterTransferDMAHandleIRQ c NDEBUG callback status mstdat (some handle)).effects
              = [c.I2C_INTSTAT_MSTPENDING_MASK ||| c.I2C_INTSTAT_MSTARBLOSS_MASK
                  ||| c.I2C_INTSTAT_MSTSTSTPERR_MASK]
          ∧ (state_writes
              (I2C_MasterTransferDMAHandleIRQ c NDEBUG callback status mstdat
                (some handle)).effects).getLast? = some kIdleState
          ∧ callback_calls
              (I2C_MasterTransferDMAHandleIRQ c NDEBUG callback status mstdat
                (some handle)).effects
              = (if handle.completionCallback.isSome = true
                then [(I2C_RunTransferStateMachineDMA c status mstdat handle).result] else [])
          ∧ (handle.completionCallback = none →
              I2C_MasterTransferDMAHandleIRQ c NDEBUG callback status mstdat (some handle)
                = IrqResult.returned
                    (some { (I2C_RunTransferStateMachineDMA c status mstdat handle).handle with
                      state := kIdleState })
                    (I2C_MasterTransferDMAHandleIRQ c NDEBUG callback status mstdat
                      (some handle)).effects [])
          ∧ (∀ fn, handle.completionCallback = some fn →
              (I2C_MasterTransferDMAHandleIRQ c NDEBUG callback status mstdat
                  (some handle)).effects.getLast?
                = some (Effect.completionCallback fn
                    (I2C_RunTransferStateMachineDMA c status mstdat handle).result
                    handle.userData)
              ∧ I2C_MasterTransferDMAHandleIRQ c NDEBUG callback status mstdat (some handle)
                = (match callback fn
                      { (I2C_RunTransferStateMachineDMA c status mstdat handle).handle with
                        state := kIdleState }
                      (I2C_RunTransferStateMachineDMA c status mstdat handle).result
                      handle.userData with
                  | some after =>
                    IrqResult.returned (some after.1)
                      (I2C_MasterTransferDMAHandleIRQ c NDEBUG callback status mstdat
                        (some handle)).effects after.2
                  | none =>
                    IrqResult.in_callback
                      (I2C_MasterTransferDMAHandleIRQ c NDEBUG callback status mstdat
                        (some handle)).effects)))
      ∧ (¬ ((I2C_RunTransferStateMachineDMA c status mstdat handle).result ≠ kStatus_Success
            ∨ (I2C_RunTransferStateMachineDMA c status mstdat handle).isDone = true) →
          callback_calls
              (I2C_MasterTransferDMAHandleIRQ c NDEBUG callback status mstdat
                (some handle)).effects = []
            ∧ disable_calls
              (I2C_MasterTransferDMAHandleIRQ c NDEBUG callback status mstdat
                (some handle)).effects = []
            ∧ I2C_MasterTransferDMAHandleIRQ c NDEBUG callback status mstdat (some handle)
                = IrqResult.returned
                    (some (I2C_RunTransferStateMachineDMA c status mstdat handle).handle)
                    (I2C_RunTransferStateMachineDMA c status mstdat handle).effects []) := by
  obtain ⟨s1, s2, s3, s4, _⟩ := I2C_RunTransferStateMachineDMA_summary c status mstdat handle
  unfold I2C_MasterTransferDMAHandleIRQ
  simp only []
  generalize I2C_RunTransferStateMachineDMA c status mstdat handle = r at s1 s2 s3 s4 ⊢
  generalize ({ r.handle with state := kIdleState } : i2c_master_dma_handle_t) = idle
  refine ⟨?_, ?_⟩
  · intro h
    rw [if_pos h]
    cases hcb : handle.completionCallback with
    | none =>
      rw [s3.trans hcb]
      simp only [IrqResult.effects, disable_calls_append, callback_calls_append,
        state_writes_append, s1, s2]
      refine ⟨rfl, ?_, rfl, fun _ => trivial, ?_⟩
      · simp [state_writes]
      · intro fn hfn
        cases hfn
    | some fn =>
      rw [s3.trans hcb, s4]
      simp only []
      cases hc : callback fn idle r.result handle.userData with
      | none =>
        simp only [IrqResult.effects, disable_calls_append, callback_calls_append,
          state_writes_append, s1, s2]
        refine ⟨rfl, ?_, rfl, ?_, ?_⟩
        · simp [state_writes]
        · intro h0
          cases h0
        · intro fn2 hfn
          cases hfn
          rw [hc]
          exact ⟨by simp, rfl⟩
      | some after =>
        simp only [IrqResult.effects, disable_calls_append, callback_calls_append,
          state_writes_append, s1, s2]
        refine ⟨rfl, ?_, rfl, ?_, ?_⟩
        · simp [state_writes]
        · intro h0
          cases h0
        · intro fn2 hfn
          cases hfn
          rw [hc]
          exact ⟨by simp, rfl⟩
  · intro h
    rw [if_neg h]
    exact ⟨s1, s2, rfl⟩

/-- C7 amended, on the LPC845: arbitration loss while transmitting with the callback that
starts the next transfer, the same with a callback that leaves the handle alone (the handle is
then in `kIdleState` on return), and a successful intermediate step. -/
theorem I2C_MasterTransferDMAHandleIRQ_completion_witness :
    (disable_calls
          (I2C_MasterTransferDMAHandleIRQ LPC845 true chain_callback 0x11 0
            (some (sample_handle kTransmitDataState))).effects = [0x51]
        ∧ callback_calls
          (I2C_MasterTransferDMAHandleIRQ LPC845 true chain_callback 0x11 0
            (some (sample_handle kTransmitDataState))).effects = [kStatus_I2C_ArbitrationLost])
      ∧ I2C_MasterTransferDMAHandleIRQ LPC845 true plain_callback 0x11 0
            (some (sample_handle kTransmitDataState))
          = IrqResult.returned (some (sample_handle kIdleState))
              (I2C_MasterTransferDMAHandleIRQ LPC845 true plain_callback 0x11 0
                (some (sample_handle kTransmitDataState))).effects []
      ∧ I2C_MasterTransferDMAHandleIRQ LPC845 true chain_callback 0x5 0
            (some (sample_handle kTransmitDataState))
          = IrqResult.returned
              (some (I2C_RunTransferStateMachineDMA LPC845 0x5 0
                (sample_handle kTransmitDataState)).handle)
              (I2C_RunTransferStateMachineDMA LPC845 0x5 0
                (sample_handle kTransmitDataState)).effects [] :=
  ⟨⟨((I2C_MasterTransferDMAHandleIRQ_completion LPC845 true chain_callback 0x11 0
        (sample_handle kTransmitDataState)).1 (by decide)).1,
    ((I2C_MasterTransferDMAHandleIRQ_completion LPC845 true chain_callback 0x11 0
        (sample_handle kTransmitDataState)).1 (by decide)).2.2.1⟩,
   (((I2C_MasterTransferDMAHandleIRQ_completion LPC845 true plain_callback 0x11 0
        (sample_handle kTransmitDataState)).1 (by decide)).2.2.2.2 1 rfl).2,
   ((I2C_MasterTransferDMAHandleIRQ_completion LPC845 true chain_callback 0x5 0
      (sample_handle kTransmitDataState)).2 (by decide)).2.2⟩

/-- C8: `I2C_MasterTransferGetCountDMA` returns `kStatus_InvalidArgument` and writes nothing
when `count` is NULL; with `count` non-NULL it stores 0 and returns
`kStatus_NoTransferInProgress` when the handle is in `kIdleState`, and otherwise stores
`handle->transferCount` and returns `kStatus_Success`.  The handle is unchanged in all three
cases. -/
theorem I2C_MasterTransferGetCountDMA_spec (handle : i2c_master_dma_handle_t) (old : Nat) :
    I2C_MasterTransferGetCountDMA handle none = (kStatus_InvalidArgument, handle, none)
      ∧ (handle.state = kIdleState →
          I2C_MasterTransferGetCountDMA handle (some old)
            = (kStatus_NoTransferInProgress, handle, some 0))
      ∧ (handle.state ≠ kIdleState →
          I2C_MasterTransferGetCountDMA handle (some old)
            = (kStatus_Success, handle, some handle.transferCount)) := by
  refine ⟨rfl, ?_, ?_⟩
  · intro h
    simp [I2C_MasterTransferGetCountDMA, h]
  · intro h
    simp [I2C_MasterTransferGetCountDMA, h]

/-- C8 at an idle handle and at a handle in `kStopState`, with `*count == 99` before the call. -/
theorem I2C_MasterTransferGetCountDMA_spec_witness :
    I2C_MasterTransferGetCountDMA (sample_handle kIdleState) (some 99)
        = (kStatus_NoTransferInProgress, sample_handle kIdleState, some 0)
      ∧ I2C_MasterTransferGetCountDMA (sample_handle kStopState) (some 99)
        = (kStatus_Success, sample_handle kStopState, some (sample_handle kStopState).transferCount) :=
  ⟨(I2C_MasterTransferGetCountDMA_spec (sample_handle kIdleState) 99).2.1 (by decide),
   (I2C_MasterTransferGetCountDMA_spec (sample_handle kStopState) 99).2.2 (by decide)⟩

/-! ## Claims on `arm_abs_q31` and `arm_add_q31` -/

theorem arm_abs_q31_loop_eq (src : List Int) (n pSrc pDst : Nat) (dst : List Int) :
    arm_abs_q31_loop src n pSrc pDst dst
      = fill (fun k => if src.getD (pSrc + k) 0 > 0 then src.getD (pSrc + k) 0
          else (if src.getD (pSrc + k) 0 = INT32_MIN then INT32_MAX else -src.getD (pSrc + k) 0))
          n pDst dst := by
  induction n generalizing pSrc pDst dst with
  | zero => rfl
  | succ n ih =>
    rw [arm_abs_q31_loop, ih, fill]
    simp only [Nat.add_zero]
    congr 1
    funext k
    have : pSrc + 1 + k = pSrc + (k + 1) := by omega
    rw [this]

/-- C9: for every `i < blockSize` (within both buffers), `arm_abs_q31` stores
`pDst[i] = |pSrc[i]|` when `pSrc[i] ≠ -2^31` and `pDst[i] = 0x7FFFFFFF` when
`pSrc[i] = 0x80000000`; the value stored is therefore never negative. -/
theorem arm_abs_q31_spec (pSrc pDst : List Int) (blockSize : Nat)
    (hsrc : blockSize ≤ pSrc.length) (hdst : blockSize ≤ pDst.length)
    (i : Nat) (hi : i < blockSize) :
    ∃ x : Int, pSrc[i]? = some x
      ∧ (arm_abs_q31 pSrc pDst blockSize)[i]?
          = some (if x = -2147483648 then 2147483647 else |x|)
      ∧ 0 ≤ (if x = -2147483648 then (2147483647 : Int) else |x|) := by
  have hlt : i < pSrc.length := by omega
  refine ⟨pSrc[i], List.getElem?_eq_getElem hlt, ?_, ?_⟩
  · have hget : pSrc.getD i 0 = pSrc[i] := by
      simp [List.getD, List.getElem?_eq_getElem hlt]
    rw [arm_abs_q31, arm_abs_q31_loop_eq, fill_getElem?,
      if_pos (by omega : 0 ≤ i ∧ i < 0 + blockSize ∧ i < pDst.length)]
    simp only [Nat.zero_add, Nat.sub_zero, hget, INT32_MIN, INT32_MAX]
    congr 1
    by_cases h0 : pSrc[i] > 0
    · rw [if_pos h0, if_neg (by omega), abs_of_pos h0]
    · rw [if_neg h0]
      by_cases h1 : pSrc[i] = -2147483648
      · rw [if_pos h1, if_pos h1]
      · rw [if_neg h1, if_neg h1, abs_of_nonpos (by omega)]
  · split_ifs
    · decide
    · exact abs_nonneg _

/-- C9 at `pSrc = [5, -7, -2^31]`, `blockSize = 3`, element `2`. -/
theorem arm_abs_q31_spec_witness :
    ∃ x : Int, [(5 : Int), -7, -2147483648][2]? = some x
      ∧ (arm_abs_q31 [5, -7, -2147483648] [0, 0, 0, 0] 3)[2]?
          = some (if x = -2147483648 then 2147483647 else |x|)
      ∧ 0 ≤ (if x = -2147483648 then (2147483647 : Int) else |x|) :=
  arm_abs_q31_spec [5, -7, -2147483648] [0, 0, 0, 0] 3 (by decide) (by decide) 2 (by decide)

theorem arm_add_q31_loop_eq (srcA srcB : List Int) (n pSrcA pSrcB pDst : Nat) (dst : List Int) :
    arm_add_q31_loop srcA srcB n pSrcA pSrcB pDst dst
      = fill (fun k => __QADD (srcA.getD (pSrcA + k) 0) (srcB.getD (pSrcB + k) 0)) n pDst dst := by
  induction n generalizing pSrcA pSrcB pDst dst with
  | zero => rfl
  | succ n ih =>
    rw [arm_add_q31_loop, ih, fill]
    simp only [Nat.add_zero]
    congr 1
    funext k
    have e1 : pSrcA + 1 + k = pSrcA + (k + 1) := by omega
    have e2 : pSrcB + 1 + k = pSrcB + (k + 1) := by omega
    rw [e1, e2]

/-- C10: for every `i < blockSize` (within the three buffers), `arm_add_q31` stores
`pDst[i] = clamp(pSrcA[i] + pSrcB[i], -2^31, 2^31 - 1)`, the sum being the integer sum
(`__QADD` as documented: saturating). -/
theorem arm_add_q31_spec (pSrcA pSrcB pDst : List Int) (blockSize : Nat)
    (hA : blockSize ≤ pSrcA.length) (hB : blockSize ≤ pSrcB.length)
    (hdst : blockSize ≤ pDst.length) (i : Nat) (hi : i < blockSize) :
    ∃ x y : Int, pSrcA[i]? = some x ∧ pSrcB[i]? = some y
      ∧ (arm_add_q31 pSrcA pSrcB pDst blockSize)[i]?
          = some (max (-2147483648) (min 2147483647 (x + y))) := by
  have hltA : i < pSrcA.length := by omega
  have hltB : i < pSrcB.length := by omega
  refine ⟨pSrcA[i], pSrcB[i], List.getElem?_eq_getElem hltA, List.getElem?_eq_getElem hltB, ?_⟩
  have hgA : pSrcA.getD i 0 = pSrcA[i] := by simp [List.getD, List.getElem?_eq_getElem hltA]
  have hgB : pSrcB.getD i 0 = pSrcB[i] := by simp [List.getD, List.getElem?_eq_getElem hltB]
  rw [arm_add_q31, arm_add_q31_loop_eq, fill_getElem?,
    if_pos (by omega : 0 ≤ i ∧ i < 0 + blockSize ∧ i < pDst.length)]
  simp only [Nat.zero_add, Nat.sub_zero, hgA, hgB, __QADD]
  congr 1
  split_ifs <;> omega

/-- C10 at `pSrcA = [2^31 - 1, -2^31, 3]`, `pSrcB = [1, -1, 4]`, element `0` (positive
saturation). -/
theorem arm_add_q31_spec_witness :
    ∃ x y : Int, [(2147483647 : Int), -2147483648, 3][0]? = some x
      ∧ [(1 : Int), -1, 4][0]? = some y
      ∧ (arm_add_q31 [2147483647, -2147483648, 3] [1, -1, 4] [0, 0, 0] 3)[0]?
          = some (max (-2147483648) (min 2147483647 (x + y))) :=
  arm_add_q31_spec [2147483647, -2147483648, 3] [1, -1, 4] [0, 0, 0] 3
    (by decide) (by decide) (by decide) 0 (by decide)

/-! ## Claim on `arm_negate_q7` -/

theorem arm_negate_q7_loop_eq (src : List Int) (n pSrc pDst : Nat) (dst : List Int) :
    arm_negate_q7_loop src n pSrc pDst dst
      = fill (fun k => if src.getD (pSrc + k) 0 = wrap8 0x80 then wrap8 0x7f
          else wrap8 (-src.getD (pSrc + k) 0)) n pDst dst := by
  induction n generalizing pSrc pDst dst with
  | zero => rfl
  | succ n ih =>
    rw [arm_negate_q7_loop, ih, fill]
    simp only [Nat.add_zero]
    congr 1
    funext k
    have : pSrc + 1 + k = pSrc + (k + 1) := by omega
    rw [this]

/-- C11: for every `i < blockSize` (within both buffers) whose source element `x` is a Q7 value,
`arm_negate_q7` stores `pDst[i] = -x` when `x ≠ -128` and `pDst[i] = 0x7F` when `x = 0x80`. -/
theorem arm_negate_q7_spec (pSrc pDst : List Int) (blockSize : Nat)
    (hsrc : blockSize ≤ pSrc.length) (hdst : blockSize ≤ pDst.length)
    (i : Nat) (hi : i < blockSize)
    (hq7 : ∀ x, pSrc[i]? = some x → -128 ≤ x ∧ x ≤ 127) :
    ∃ x : Int, pSrc[i]? = some x
      ∧ (arm_negate_q7 pSrc pDst blockSize)[i]? = some (if x = -128 then 127 else -x) := by
  have hlt : i < pSrc.length := by omega
  have hx := hq7 pSrc[i] (List.getElem?_eq_getElem hlt)
  refine ⟨pSrc[i], List.getElem?_eq_getElem hlt, ?_⟩
  have hget : pSrc.getD i 0 = pSrc[i] := by
    simp [List.getD, List.getElem?_eq_getElem hlt]
  rw [arm_negate_q7, arm_negate_q7_loop_eq, fill_getElem?,
    if_pos (by omega : 0 ≤ i ∧ i < 0 + blockSize ∧ i < pDst.length)]
  simp only [Nat.zero_add, Nat.sub_zero, hget]
  congr 1
  have h80 : wrap8 0x80 = -128 := by decide
  have h7f : wrap8 0x7f = 127 := by decide
  rw [h80, h7f]
  by_cases h1 : pSrc[i] = -128
  · rw [if_pos h1, if_pos h1]
  · rw [if_neg h1, if_neg h1]
    unfold wrap8
    omega

/-- C11 at `pSrc = [5, -128, -7]`, `blockSize = 3`, element `1`. -/
theorem arm_negate_q7_spec_witness :
    ∃ x : Int, [(5 : Int), -128, -7][1]? = some x
      ∧ (arm_negate_q7 [5, -128, -7] [0, 0, 0] 3)[1]? = some (if x = -128 then 127 else -x) :=
  arm_negate_q7_spec [5, -128, -7] [0, 0, 0] 3 (by decide) (by decide) 1 (by decide)
    (by intro x hx; simp at hx; subst hx; decide)

/-! ## Frame of `arm_conv_q31` -/

/-- The three stages as three runs of consecutive stores, with the log of store offsets. -/
theorem conv_stages_run_eq (X Y dst : List Int) (A B : Nat)
    (hB : 1 ≤ B) (hBA : B ≤ A) (hA : A < 4294967296) :
    (∃ g1 g2 g3 : Nat → Int, (conv_stages_run X A Y B dst).pDst
        = fill g3 (B - 1) A (fill g2 (A - (B - 1)) (B - 1) (fill g1 (B - 1) 0 dst)))
      ∧ (conv_stages_run X A Y B dst).stores
        = List.range' 0 (B - 1) ++ List.range' (B - 1) (A - (B - 1)) ++ List.range' A (B - 1) := by
  have hb1 : u32_sub B 1 = B - 1 := u32_sub_of_le hB (by omega)
  have hb2 : u32_sub A (B - 1) = A - (B - 1) := u32_sub_of_le (by omega) hA
  unfold conv_stages_run
  simp only [hb1, hb2, ite_self]
  obtain ⟨d1, p1, l1⟩ := conv_stage1_eq X Y (B - 1)
    { pDst := dst, pOut := 0, px := 0, py := 0, count := 1, stores := [] } rfl (by simp)
    (by simp only []; omega)
  generalize conv_stage1 X Y (B - 1)
    { pDst := dst, pOut := 0, px := 0, py := 0, count := 1, stores := [] } = s1 at d1 p1 l1 ⊢
  obtain ⟨d2, p2, l2⟩ := conv_stage2_eq X Y B ((B - 1 : Nat) : Int) (A - (B - 1))
    { s1 with px := 0, py := ((B - 1 : Nat) : Int), count := 0 } (by simp) rfl
    (by simp only []; omega)
  generalize conv_stage2 X Y B ((B - 1 : Nat) : Int) (A - (B - 1))
    { s1 with px := 0, py := ((B - 1 : Nat) : Int), count := 0 } = s2 at d2 p2 l2 ⊢
  obtain ⟨d3, _, l3⟩ := conv_stage3_eq X Y ((B - 1 : Nat) : Int) (B - 1)
    ((A : Int) - ((B - 1 : Nat) : Int))
    { s2 with px := (A : Int) - ((B - 1 : Nat) : Int), py := ((B - 1 : Nat) : Int) } rfl rfl
  simp only [] at d1 p1 l1 d2 p2 l2 d3 l3
  have hp2 : s2.pOut = A := by rw [p2, p1]; omega
  have hp1 : s1.pOut = B - 1 := by rw [p1]; omega
  rw [d3, l3, hp2, d2, l2, hp1, d1, l1]
  exact ⟨⟨_, _, _, rfl⟩, by simp⟩

theorem conv_stages_frame (X Y dst : List Int) (A B : Nat)
    (hB : 1 ≤ B) (hBA : B ≤ A) (hA : A < 4294967296) :
    (conv_stages X A Y B dst).length = dst.length
      ∧ ∀ n, A + B - 1 ≤ n → (conv_stages X A Y B dst)[n]? = dst[n]? := by
  obtain ⟨⟨g1, g2, g3, hd⟩, _⟩ := conv_stages_run_eq X Y dst A B hB hBA hA
  unfold conv_stages
  rw [hd]
  refine ⟨by simp [fill_length], ?_⟩
  intro n hn
  rw [fill_getElem?, if_neg (by omega), fill_getElem?, if_neg (by omega), fill_getElem?,
    if_neg (by omega)]

theorem range_three_stages (m M : Nat) (hm : 1 ≤ m) (hmM : m ≤ M) :
    List.range' 0 (m - 1) ++ List.range' (m - 1) (M - (m - 1)) ++ List.range' M (m - 1)
      = List.range (M + m - 1) := by
  rw [List.range_eq_range']
  have h1 := List.range'_append_1 0 (m - 1) (M - (m - 1))
  have h2 := List.range'_append_1 0 M (m - 1)
  simp only [Nat.zero_add] at h1 h2
  have e3 : M - (m - 1) + (m - 1) = M := by omega
  have e1 : M + m - 1 = m - 1 + M := by omega
  rw [h1, e3, h2, e1]

/-- C12: for `srcALen ≥ 1` and `srcBLen ≥ 1`, the stores of `arm_conv_q31` go, in program order,
to the offsets `0, 1, ..., srcALen+srcBLen-2` of `pDst`, each exactly once, in three runs of
`m-1`, `M-m+1` and `m-1` stores (`m` the smaller and `M` the larger length); the buffer keeps
its length and every element from offset `srcALen+srcBLen-1` on keeps its value. -/
theorem arm_conv_q31_frame (a b dst : List Int)
    (hA : 1 ≤ a.length) (hB : 1 ≤ b.length)
    (hA32 : a.length < 4294967296) (hB32 : b.length < 4294967296) :
    arm_conv_q31_stores a a.length b b.length dst
        = List.range' 0 (min a.length b.length - 1)
          ++ List.range' (min a.length b.length - 1)
              (max a.length b.length - (min a.length b.length - 1))
          ++ List.range' (max a.length b.length) (min a.length b.length - 1)
      ∧ arm_conv_q31_stores a a.length b b.length dst = List.range (a.length + b.length - 1)
      ∧ (arm_conv_q31 a a.length b b.length dst).length = dst.length
      ∧ ∀ n, a.length + b.length - 1 ≤ n →
          (arm_conv_q31 a a.length b b.length dst)[n]? = dst[n]? := by
  unfold arm_conv_q31_stores arm_conv_q31
  by_cases h : a.length ≥ b.length
  · rw [if_pos h, if_pos h]
    have hmin : min a.length b.length = b.length := by omega
    have hmax : max a.length b.length = a.length := by omega
    obtain ⟨_, hl⟩ := conv_stages_run_eq a b dst a.length b.length hB h hA32
    obtain ⟨f1, f2⟩ := conv_stages_frame a b dst a.length b.length hB h hA32
    rw [hmin, hmax]
    exact ⟨hl, by rw [hl, range_three_stages _ _ hB h], f1, f2⟩
  · rw [if_neg h, if_neg h]
    have hmin : min a.length b.length = a.length := by omega
    have hmax : max a.length b.length = b.length := by omega
    obtain ⟨_, hl⟩ := conv_stages_run_eq b a dst b.length a.length hA (by omega) hB32
    obtain ⟨f1, f2⟩ := conv_stages_frame b a dst b.length a.length hA (by omega) hB32
    rw [hmin, hmax]
    refine ⟨hl, ?_, f1, ?_⟩
    · rw [hl, range_three_stages _ _ hA (by omega)]
      congr 1
      omega
    · intro n hn
      exact f2 n (by omega)

/-- C12 at `a = [1, 2, 3]`, `b = [4, 5]`, and a destination of six elements: the last one
keeps its value. -/
theorem arm_conv_q31_frame_witness :
    (arm_conv_q31 [1, 2, 3] 3 [4, 5] 2 [9, 9, 9, 9, 9, 9])[4]?
      = [(9 : Int), 9, 9, 9, 9, 9][4]? :=
  (arm_conv_q31_frame [1, 2, 3] [4, 5] [9, 9, 9, 9, 9, 9] (by decide) (by decide) (by decide)
    (by decide)).2.2.2 4 (by decide)

/-! ## Further claims on `arm_conv_q31` -/

/-- Value stored by `arm_conv_q31` at every offset below `A + B - 1`. -/
theorem arm_conv_q31_getElem? (a b dst : List Int)
    (hA : 1 ≤ a.length) (hB : 1 ≤ b.length)
    (hA32 : a.length < 4294967296) (hB32 : b.length < 4294967296)
    (hdst : a.length + b.length - 1 ≤ dst.length)
    (n : Nat) (hn : n < a.length + b.length - 1) :
    (arm_conv_q31 a a.length b b.length dst)[n]?
      = some (wrap32 (asr31 (wrap64
          (∑ k in (Finset.range a.length).filter (fun k => k ≤ n ∧ n - k < b.length),
            a.getD k 0 * b.getD (n - k) 0)))) := by
  unfold arm_conv_q31
  by_cases h : a.length ≥ b.length
  · rw [if_pos h]
    exact conv_stages_getElem? a b dst a.length b.length hB h hA32 hdst n hn
  · rw [if_neg h,
      conv_stages_getElem? b a dst b.length a.length hA (by omega) hB32 (by omega) n (by omega),
      conv_sum_comm a b a.length b.length n]

namespace Q

theorem wrap64_of_abs_le (z : Int) (h : |z| ≤ 4611686018427387904) : wrap64 z = z := by
  have h1 := abs_le.mp h
  unfold wrap64
  omega

end Q

/-- A sum of `k` terms, each of size at most `C / L`, has size at most `k * C / L`. -/
theorem scaled_sum_bound (f : Nat → Int) (L C : Int) (hL : 0 ≤ L)
    (hf : ∀ i, L * |f i| ≤ C) (k : Nat) :
    L * |∑ i in Finset.range k, f i| ≤ k * C := by
  induction k with
  | zero => simp
  | succ k ih =>
    rw [Finset.sum_range_succ]
    have h1 : L * |∑ i in Finset.range k, f i + f k|
        ≤ L * (|∑ i in Finset.range k, f i| + |f k|) :=
      mul_le_mul_of_nonneg_left (abs_add _ _) hL
    have h2 := hf k
    push_cast
    nlinarith [h1, h2, ih]

theorem scaled_finset_sum_bound (s : Finset Nat) (f : Nat → Int) (L C : Int) (hL : 0 ≤ L)
    (hf : ∀ i ∈ s, L * |f i| ≤ C) :
    L * |∑ i in s, f i| ≤ s.card * C := by
  have h1 : L * |∑ i in s, f i| ≤ L * ∑ i in s, |f i| :=
    mul_le_mul_of_nonneg_left (Finset.abs_sum_le_sum_abs _ _) hL
  have h2 : ∑ i in s, L * |f i| ≤ s.card • C := Finset.sum_le_card_nsmul s _ C hf
  rw [← Finset.mul_sum] at h2
  rw [nsmul_eq_mul] at h2
  exact le_trans h1 h2

/-- The index set of output `n` has at most `min A B` elements. -/
theorem conv_index_card (A B n : Nat) :
    ((Finset.range A).filter (fun k => k ≤ n ∧ n - k < B)).card ≤ min A B := by
  apply le_min
  · exact le_trans (Finset.card_filter_le _ _) (by simp)
  · have hsub : (Finset.range A).filter (fun k => k ≤ n ∧ n - k < B)
        ⊆ Finset.Ico (n + 1 - B) (n + 1) := by
      intro k hk
      simp only [Finset.mem_filter, Finset.mem_range, Finset.mem_Ico] at hk ⊢
      omega
    refine le_trans (Finset.card_le_card hsub) ?_
    rw [Nat.card_Ico]
    omega

/-- A bound on the products of in-range elements extends to every read. -/
theorem rd_scaled (X Y : List Int) (L : Nat) (C : Int) (hC : 0 ≤ C)
    (h : ∀ i j, i < X.length → j < Y.length → |X.getD i 0 * Y.getD j 0| * (L : Int) ≤ C)
    (i j : Int) : (L : Int) * |rd X i * rd Y j| ≤ C := by
  unfold rd
  by_cases hi : i < 0
  · simp [hi, hC]
  · by_cases hj : j < 0
    · simp [hj, hC]
    · rw [if_neg hi, if_neg hj]
      by_cases hi2 : i.toNat < X.length
      · by_cases hj2 : j.toNat < Y.length
        · rw [mul_comm]; exact h _ _ hi2 hj2
        · have h0 : Y.getD j.toNat 0 = 0 := by
            simp [List.getD, List.getElem?_eq_none (Nat.le_of_not_lt hj2)]
          rw [h0, mul_zero, abs_zero, mul_zero]
          exact hC
      · have h0 : X.getD i.toNat 0 = 0 := by
          simp [List.getD, List.getElem?_eq_none (Nat.le_of_not_lt hi2)]
        rw [h0, zero_mul, abs_zero, mul_zero]
        exact hC

/-- A multiply-accumulate loop of at most `L` steps over scaled operands never wraps. -/
theorem conv_mac_exact (X Y : List Int) (L : Nat)
    (hP : ∀ i j : Int, (L : Int) * |rd X i * rd Y j| ≤ 4611686018427387904)
    (k : Nat) (hk : k ≤ L) (px py : Int) :
    (conv_mac X Y k px py 0).2.2
        = ∑ i in Finset.range k, rd X (px + i) * rd Y (py - i)
      ∧ |∑ i in Finset.range k, rd X (px + i) * rd Y (py - i)| ≤ 4611686018427387904 := by
  have hb := scaled_sum_bound (fun i : Nat => rd X (px + i) * rd Y (py - i)) (L : Int)
    4611686018427387904 (by omega) (fun i => hP _ _) k
  have hbound : |∑ i in Finset.range k, rd X (px + i) * rd Y (py - i)|
      ≤ 4611686018427387904 := by
    by_cases hL : L = 0
    · have hk0 : k = 0 := by omega
      subst hk0
      simp
    · have hLpos : (0 : Int) < L := by omega
      have hkL : (k : Int) * 4611686018427387904 ≤ (L : Int) * 4611686018427387904 := by
        have : (k : Int) ≤ L := by omega
        nlinarith
      exact le_of_mul_le_mul_left (le_trans hb hkL) hLpos
  refine ⟨?_, hbound⟩
  have h0 := conv_mac_sum X Y k px py 0
  rw [wrap64_zero, zero_add] at h0
  rw [h0, wrap64_of_abs_le _ hbound]

/-- C17: when the inputs are scaled so that `|a[i] * b[j]| * min(srcALen, srcBLen) ≤ 2^62` for
all `i`, `j`, every output accumulates at most `min(srcALen, srcBLen)` products, every
multiply-accumulate loop of at most that many steps (in either operand order, from any start)
holds the exact partial sum, of size at most `2^62`, and each output is the exact integer sum
shifted right by 31 (floor division by `2^31`) and truncated to 32 bits. -/
theorem arm_conv_q31_scaled (a b dst : List Int)
    (hA : 1 ≤ a.length) (hB : 1 ≤ b.length)
    (hA32 : a.length < 4294967296) (hB32 : b.length < 4294967296)
    (hdst : a.length + b.length - 1 ≤ dst.length)
    (hscale : ∀ i j, i < a.length → j < b.length →
      |a.getD i 0 * b.getD j 0| * ((min a.length b.length : Nat) : Int) ≤ 4611686018427387904)
    (n : Nat) (hn : n < a.length + b.length - 1) :
    ((Finset.range a.length).filter (fun k => k ≤ n ∧ n - k < b.length)).card
        ≤ min a.length b.length
      ∧ (∀ k, k ≤ min a.length b.length → ∀ px py : Int,
          ((conv_mac a b k px py 0).2.2 = ∑ i in Finset.range k, rd a (px + i) * rd b (py - i)
            ∧ |∑ i in Finset.range k, rd a (px + i) * rd b (py - i)| ≤ 4611686018427387904)
          ∧ ((conv_mac b a k px py 0).2.2 = ∑ i in Finset.range k, rd b (px + i) * rd a (py - i)
            ∧ |∑ i in Finset.range k, rd b (px + i) * rd a (py - i)| ≤ 4611686018427387904))
      ∧ (arm_conv_q31 a a.length b b.length dst)[n]?
          = some (wrap32 (asr31
              (∑ k in (Finset.range a.length).filter (fun k => k ≤ n ∧ n - k < b.length),
                a.getD k 0 * b.getD (n - k) 0))) := by
  have hcard := conv_index_card a.length b.length n
  refine ⟨hcard, ?_, ?_⟩
  · intro k hk px py
    have hab := rd_scaled a b (min a.length b.length) 4611686018427387904 (by decide) hscale
    have hba : ∀ i j : Int,
        ((min a.length b.length : Nat) : Int) * |rd b i * rd a j| ≤ 4611686018427387904 := by
      intro i j
      rw [mul_comm (rd b i)]
      exact hab j i
    exact ⟨conv_mac_exact a b _ hab k hk px py, conv_mac_exact b a _ hba k hk px py⟩
  · rw [arm_conv_q31_getElem? a b dst hA hB hA32 hB32 hdst n hn]
    congr 3
    apply wrap64_of_abs_le
    have hf : ∀ k ∈ (Finset.range a.length).filter (fun k => k ≤ n ∧ n - k < b.length),
        ((min a.length b.length : Nat) : Int) * |a.getD k 0 * b.getD (n - k) 0|
          ≤ 4611686018427387904 := by
      intro k hk
      simp only [Finset.mem_filter, Finset.mem_range] at hk
      rw [mul_comm]
      exact hscale k (n - k) hk.1 hk.2.2
    have hs := scaled_finset_sum_bound _ (fun k => a.getD k 0 * b.getD (n - k) 0)
      ((min a.length b.length : Nat) : Int) 4611686018427387904 (by omega) hf
    have hLpos : (0 : Int) < ((min a.length b.length : Nat) : Int) := by
      have : 0 < min a.length b.length := by omega
      exact_mod_cast this
    have hc : (((Finset.range a.length).filter (fun k => k ≤ n ∧ n - k < b.length)).card : Int)
        ≤ ((min a.length b.length : Nat) : Int) := by exact_mod_cast hcard
    have hkL : (((Finset.range a.length).filter (fun k => k ≤ n ∧ n - k < b.length)).card : Int)
        * 4611686018427387904
        ≤ ((min a.length b.length : Nat) : Int) * 4611686018427387904 := by nlinarith
    exact le_of_mul_le_mul_left (le_trans hs hkL) hLpos

/-- C17 at `a = [2^30, -2^30, 3]`, `b = [2^30, 7]`, output offset `1`. -/
theorem arm_conv_q31_scaled_witness :
    (arm_conv_q31 [1073741824, -1073741824, 3] 3 [1073741824, 7] 2 [0, 0, 0, 0])[1]?
      = some (wrap32 (asr31
          (∑ k in (Finset.range 3).filter (fun k => k ≤ 1 ∧ 1 - k < 2),
            [(1073741824 : Int), -1073741824, 3].getD k 0
              * [(1073741824 : Int), 7].getD (1 - k) 0))) :=
  (arm_conv_q31_scaled [1073741824, -1073741824, 3] [1073741824, 7] [0, 0, 0, 0]
    (by decide) (by decide) (by decide) (by decide) (by decide)
    (by
      intro i j hi hj
      have hi3 : i < 3 := hi
      have hj2 : j < 2 := hj
      interval_cases i <;> interval_cases j <;> decide)
    1 (by decide)).2.2

/-! ### The alternate version -/

namespace Q

theorem u32_sub_add_one (x y : Nat) (h1 : 1 ≤ x + y) (h : x + y - 1 < 4294967296) :
    u32_sub (u32_add x y) 1 = x + y - 1 := by
  unfold u32_sub u32_add
  split_ifs <;> omega

end Q

theorem conv_alt_inner_sum (X Y : List Int) (A B i : Nat) (hi : i + 1 < 4294967296)
    (n j : Nat) (s : Int) (hj : j + n ≤ i + 1) :
    conv_alt_inner X Y A B i n j (wrap64 s)
      = wrap64 (s + ∑ t in Finset.range n,
          if i - (j + t) < B ∧ j + t < A then X.getD (j + t) 0 * Y.getD (i - (j + t)) 0
          else 0) := by
  induction n generalizing j s with
  | zero => simp [conv_alt_inner]
  | succ n ih =>
    have hsub : u32_sub i j = i - j := u32_sub_of_le (by omega) (by omega)
    have hadd : u32_add j 1 = j + 1 := u32_add_of_lt (by omega)
    rw [conv_alt_inner, hsub, hadd, Finset.sum_range_succ']
    simp only [Nat.add_zero]
    have hshift : ∀ t ∈ Finset.range n,
        (if i - (j + (t + 1)) < B ∧ j + (t + 1) < A then
            X.getD (j + (t + 1)) 0 * Y.getD (i - (j + (t + 1))) 0 else 0)
          = (if i - (j + 1 + t) < B ∧ j + 1 + t < A then
            X.getD (j + 1 + t) 0 * Y.getD (i - (j + 1 + t)) 0 else 0) := by
      intro t _
      have e : j + (t + 1) = j + 1 + t := by omega
      rw [e]
    rw [Finset.sum_congr rfl hshift]
    by_cases hc : i - j < B ∧ j < A
    · rw [if_pos hc, if_pos hc, wrap64_add_left, ih (j + 1) _ (by omega)]
      congr 1
      ring
    · rw [if_neg hc, if_neg hc, ih (j + 1) _ (by omega)]
      congr 1
      ring

/-- The inner loop of the alternate version computes the wrapped convolution sum. -/
theorem conv_alt_inner_eq (X Y : List Int) (A B i : Nat) (hi : i + 1 < 4294967296) :
    conv_alt_inner X Y A B i (i + 1) 0 0
      = wrap64 (∑ k in (Finset.range A).filter (fun k => k ≤ i ∧ i - k < B),
          X.getD k 0 * Y.getD (i - k) 0) := by
  have h := conv_alt_inner_sum X Y A B i hi (i + 1) 0 0 (by omega)
  rw [wrap64_zero, zero_add] at h
  rw [h]
  congr 1
  simp only [Nat.zero_add]
  rw [← Finset.sum_filter]
  apply Finset.sum_congr
  · ext k
    simp only [Finset.mem_filter, Finset.mem_range]
    omega
  · intro k _
    rfl

theorem conv_alt_outer_eq (X Y : List Int) (A B : Nat) (n i : Nat) (dst : List Int)
    (hi : i + n < 4294967296) :
    conv_alt_outer X Y A B n i dst
      = fill (fun k => wrap32 (asr31 (conv_alt_inner X Y A B (i + k) (i + k + 1) 0 0))) n i dst := by
  induction n generalizing i dst with
  | zero => rfl
  | succ n ih =>
    have hadd : u32_add i 1 = i + 1 := u32_add_of_lt (by omega)
    rw [conv_alt_outer, hadd, ih (i + 1) _ (by omega), fill]
    simp only [Nat.add_zero]
    congr 1
    funext k
    have : i + 1 + k = i + (k + 1) := by omega
    rw [this]

/-- Every element of the buffer left by the alternate version. -/
theorem arm_conv_q31_alt_getElem? (a b dst : List Int)
    (hA : 1 ≤ a.length) (h32 : a.length + b.length - 1 < 4294967296) (n : Nat) :
    (arm_conv_q31_alt a a.length b b.length dst)[n]?
      = if n < a.length + b.length - 1 ∧ n < dst.length then
          some (wrap32 (asr31 (wrap64
            (∑ k in (Finset.range a.length).filter (fun k => k ≤ n ∧ n - k < b.length),
              a.getD k 0 * b.getD (n - k) 0))))
        else dst[n]? := by
  unfold arm_conv_q31_alt
  rw [u32_sub_add_one _ _ (by omega) h32, conv_alt_outer_eq _ _ _ _ _ _ _ (by omega),
    fill_getElem?]
  by_cases hc : n < a.length + b.length - 1 ∧ n < dst.length
  · rw [if_pos (by omega), if_pos hc]
    simp only [Nat.zero_add, Nat.sub_zero]
    rw [conv_alt_inner_eq _ _ _ _ _ (by omega)]
  · rw [if_neg (by omega), if_neg hc]

/-- C19: for `srcALen ≥ 1`, `srcBLen ≥ 1` and a destination of `srcALen+srcBLen-1` elements or
more (fewer than `2^32`), the three-stage version and the alternate double-loop version of
`arm_conv_q31` leave the same destination buffer; in particular every element
`pDst[0 .. srcALen+srcBLen-2]` is identical. -/
theorem arm_conv_q31_alt_eq (a b dst : List Int)
    (hA : 1 ≤ a.length) (hB : 1 ≤ b.length)
    (hdst : a.length + b.length - 1 ≤ dst.length) (hdst32 : dst.length < 4294967296) :
    arm_conv_q31 a a.length b b.length dst = arm_conv_q31_alt a a.length b b.length dst := by
  have hA32 : a.length < 4294967296 := by omega
  have hB32 : b.length < 4294967296 := by omega
  apply List.ext_getElem?
  intro n
  rw [arm_conv_q31_alt_getElem? a b dst hA (by omega) n]
  by_cases hn : n < a.length + b.length - 1
  · rw [if_pos ⟨hn, by omega⟩]
    exact arm_conv_q31_getElem? a b dst hA hB hA32 hB32 hdst n hn
  · rw [if_neg (by omega)]
    unfold arm_conv_q31
    by_cases h : a.length ≥ b.length
    · rw [if_pos h]
      exact (conv_stages_frame a b dst a.length b.length hB h hA32).2 n (by omega)
    · rw [if_neg h]
      exact (conv_stages_frame b a dst b.length a.length hA (by omega) hB32).2 n (by omega)

/-- C19 at `a = [2^30, 2, 3]`, `b = [5, 7]` and a destination of five elements. -/
theorem arm_conv_q31_alt_eq_witness :
    arm_conv_q31 [1073741824, 2, 3] 3 [5, 7] 2 [0, 0, 0, 0, 1]
      = arm_conv_q31_alt [1073741824, 2, 3] 3 [5, 7] 2 [0, 0, 0, 0, 1] :=
  arm_conv_q31_alt_eq [1073741824, 2, 3] [5, 7] [0, 0, 0, 0, 1] (by decide) (by decide)
    (by decide) (by decide)

/-! ### The build with `ARM_MATH_LOOPUNROLL` -/

theorem conv_mac_add (X Y : List Int) (m n : Nat) (px py s : Int) :
    conv_mac X Y (m + n) px py s
      = conv_mac X Y n (conv_mac X Y m px py s).1 (conv_mac X Y m px py s).2.1
          (conv_mac X Y m px py s).2.2 := by
  induction m generalizing px py s with
  | zero => simp [conv_mac]
  | succ m ih =>
    have e : m + 1 + n = (m + n) + 1 := by omega
    rw [e, conv_mac, ih, conv_mac]

theorem conv_mac4_eq (X Y : List Int) (k : Nat) (px py s : Int) :
    conv_mac4 X Y k px py s = conv_mac X Y (4 * k) px py s := by
  induction k generalizing px py s with
  | zero => rfl
  | succ k ih =>
    have e : 4 * (k + 1) = 4 * k + 1 + 1 + 1 + 1 := by omega
    rw [e, conv_mac4, ih, conv_mac, conv_mac, conv_mac, conv_mac]
    have e1 : px + 1 + 1 = px + 2 := by ring
    have e2 : px + 2 + 1 = px + 3 := by ring
    have e3 : px + 3 + 1 = px + 4 := by ring
    have f1 : py - 1 - 1 = py - 2 := by ring
    have f2 : py - 2 - 1 = py - 3 := by ring
    have f3 : py - 3 - 1 = py - 4 := by ring
    simp only [e1, e2, e3, f1, f2, f3]

theorem conv_mac_unroll_eq (X Y : List Int) (n : Nat) (px py s : Int) :
    conv_mac_unroll X Y n px py s = conv_mac X Y n px py s := by
  unfold conv_mac_unroll
  simp only []
  rw [conv_mac4_eq, ← conv_mac_add, Nat.shiftRight_eq_div_pow]
  congr 1
  omega

theorem conv_stage1_unroll_eq (X Y : List Int) (n : Nat) (s : ConvState) :
    conv_stage1_unroll X Y n s = conv_stage1 X Y n s := by
  induction n generalizing s with
  | zero => rfl
  | succ n ih => rw [conv_stage1_unroll, conv_stage1, conv_mac_unroll_eq, ih]

theorem conv_stage2_unroll_eq (X Y : List Int) (B : Nat) (pSrc2 : Int) (n : Nat) (s : ConvState) :
    conv_stage2_unroll X Y B pSrc2 n s = conv_stage2 X Y B pSrc2 n s := by
  induction n generalizing s with
  | zero => rfl
  | succ n ih => rw [conv_stage2_unroll, conv_stage2, conv_mac_unroll_eq, ih]

theorem conv_stage3_unroll_eq (X Y : List Int) (pSrc2 : Int) (n : Nat) (pSrc1 : Int)
    (s : ConvState) :
    conv_stage3_unroll X Y pSrc2 n pSrc1 s = conv_stage3 X Y pSrc2 n pSrc1 s := by
  induction n generalizing s pSrc1 with
  | zero => rfl
  | succ n ih => rw [conv_stage3_unroll, conv_stage3, conv_mac_unroll_eq, ih]

theorem conv_stage2_add (X Y : List Int) (B : Nat) (pSrc2 : Int) (m n : Nat) (s : ConvState) :
    conv_stage2 X Y B pSrc2 (m + n) s
      = conv_stage2 X Y B pSrc2 n (conv_stage2 X Y B pSrc2 m s) := by
  induction m generalizing s with
  | zero => simp [conv_stage2]
  | succ m ih =>
    have e : m + 1 + n = (m + n) + 1 := by omega
    rw [e, conv_stage2, ih, conv_stage2]

theorem conv_triple_rem_add (X Y : List Int) (m n : Nat) (r : Conv3) :
    conv_triple_rem X Y (m + n) r = conv_triple_rem X Y n (conv_triple_rem X Y m r) := by
  induction m generalizing r with
  | zero => simp [conv_triple_rem]
  | succ m ih =>
    have e : m + 1 + n = (m + n) + 1 := by omega
    rw [e, conv_triple_rem, ih, conv_triple_rem]

/-- One pass through the body of the `do ... while` loop is three passes of the remainder
loop. -/
theorem conv_triple_do_eq (X Y : List Int) (k : Nat) (r : Conv3) :
    conv_triple_do X Y k r = conv_triple_rem X Y (3 * k) r := by
  induction k generalizing r with
  | zero => rfl
  | succ k ih =>
    have e : 3 * (k + 1) = 3 * k + 1 + 1 + 1 := by omega
    rw [e, conv_triple_do, ih, conv_triple_rem, conv_triple_rem, conv_triple_rem]
    have e1 : r.px + 1 + 1 = r.px + 2 := by ring
    have e2 : r.px + 2 + 1 = r.px + 3 := by ring
    have f1 : r.py - 1 - 1 = r.py - 2 := by ring
    have f2 : r.py - 2 - 1 = r.py - 3 := by ring
    simp only [e1, e2, f1, f2]

theorem conv_mac_ptrs (X Y : List Int) (j : Nat) (px py s : Int) :
    (conv_mac X Y j px py s).1 = px + j ∧ (conv_mac X Y j px py s).2.1 = py - j := by
  induction j generalizing px py s with
  | zero => simp [conv_mac]
  | succ j ih =>
    rw [conv_mac]
    obtain ⟨h1, h2⟩ := ih (px + 1) (py - 1) (wrap64 (s + rd X px * rd Y py))
    rw [h1, h2]
    push_cast
    constructor <;> ring

theorem conv_mac_succ_sum (X Y : List Int) (j : Nat) (px py s : Int) :
    (conv_mac X Y (j + 1) px py s).2.2
      = wrap64 ((conv_mac X Y j px py s).2.2 + rd X (px + j) * rd Y (py - j)) := by
  rw [conv_mac_add, conv_mac, conv_mac, (conv_mac_ptrs X Y j px py s).1,
    (conv_mac_ptrs X Y j px py s).2]

/-- The registers of the three-output block after `j` passes of the remainder loop: each
accumulator holds what the one-output loop accumulates in `j` steps from its own start. -/
theorem conv_triple_rem_eq (X Y : List Int) (j : Nat) (p q : Int) :
    conv_triple_rem X Y j
        { px := p + 2, py := q, x0 := rd X p, x1 := rd X (p + 1), acc0 := 0, acc1 := 0, acc2 := 0 }
      = { px := p + 2 + j, py := q - j, x0 := rd X (p + j), x1 := rd X (p + 1 + j)
          acc0 := (conv_mac X Y j p q 0).2.2
          acc1 := (conv_mac X Y j (p + 1) q 0).2.2
          acc2 := (conv_mac X Y j (p + 2) q 0).2.2 } := by
  induction j with
  | zero => simp [conv_triple_rem, conv_mac]
  | succ j ih =>
    rw [conv_triple_rem_add, ih, conv_triple_rem, conv_triple_rem, conv_mac_succ_sum,
      conv_mac_succ_sum, conv_mac_succ_sum]
    have e1 : p + 2 + (j : Int) + 1 = p + 2 + ((j + 1 : Nat) : Int) := by push_cast; ring
    have e2 : q - (j : Int) - 1 = q - ((j + 1 : Nat) : Int) := by push_cast; ring
    have e3 : p + 1 + (j : Int) = p + ((j + 1 : Nat) : Int) := by push_cast; ring
    have e4 : p + 2 + (j : Int) = p + 1 + ((j + 1 : Nat) : Int) := by push_cast; ring
    rw [e1, e2]
    rw [e4, e3]

/-- Three outputs at a time are three outputs one at a time. -/
theorem conv_stage2_triple_eq (X Y : List Int) (B : Nat) (pSrc2 : Int) (hB3 : 3 ≤ B)
    (hB : B < 4294967296) (t : Nat) (s : ConvState)
    (hpx : s.px = (s.count : Int)) (hpy : s.py = pSrc2) (hc : s.count + 3 * t < 4294967296) :
    conv_stage2_triple X Y B pSrc2 t s = conv_stage2 X Y B pSrc2 (3 * t) s := by
  induction t generalizing s with
  | zero => rfl
  | succ t ih =>
    have hk : do_while_count (B / 3) = B / 3 := by
      unfold do_while_count
      rw [if_neg (by omega)]
    have hm : u32_sub B ((3 * (B / 3)) % 4294967296) = B - 3 * (B / 3) := by
      rw [Nat.mod_eq_of_lt (by omega)]
      exact u32_sub_of_le (by omega) hB
    have h1 : u32_add s.count 1 = s.count + 1 := u32_add_of_lt (by omega)
    have h2 : u32_add (s.count + 1) 1 = s.count + 2 := u32_add_of_lt (by omega)
    have h3 : u32_add (s.count + 2) 1 = s.count + 3 := u32_add_of_lt (by omega)
    have h4 : u32_add s.count 3 = s.count + 3 := u32_add_of_lt (by omega)
    have e : 3 * (t + 1) = 1 + 1 + 1 + 3 * t := by omega
    have hB' : 3 * (B / 3) + (B - 3 * (B / 3)) = B := by omega
    rw [e, conv_stage2_add, conv_stage2_add, conv_stage2_add, conv_stage2_triple, hk, hm,
      conv_triple_do_eq, ← conv_triple_rem_add, hB', conv_triple_rem_eq]
    simp only [conv_stage2, h1, h2, h3, h4, hpx, hpy]
    rw [← ih]
    · congr 1
      simp [Nat.add_assoc]
    · rfl
    · rfl
    · simp only []; omega

theorem conv_stages_run_unroll_eq (X Y dst : List Int) (A B : Nat)
    (hB : 1 ≤ B) (hBA : B ≤ A) (hA : A < 4294967296) :
    conv_stages_run_unroll X A Y B dst = conv_stages_run X A Y B dst := by
  have hb1 : u32_sub B 1 = B - 1 := u32_sub_of_le hB (by omega)
  have hb2 : u32_sub A (B - 1) = A - (B - 1) := u32_sub_of_le (by omega) hA
  have hrem : u32_sub (A - (B - 1)) ((3 * ((A - (B - 1)) / 3)) % 4294967296)
      = A - (B - 1) - 3 * ((A - (B - 1)) / 3) := by
    rw [Nat.mod_eq_of_lt (by omega)]
    exact u32_sub_of_le (by omega) (by omega)
  have hsplit : 3 * ((A - (B - 1)) / 3) + (A - (B - 1) - 3 * ((A - (B - 1)) / 3))
      = A - (B - 1) := by omega
  unfold conv_stages_run_unroll conv_stages_run
  simp only [hb1, hb2, hrem, ite_self, conv_stage1_unroll_eq, conv_stage3_unroll_eq,
    conv_stage2_unroll_eq]
  generalize conv_stage1 X Y (B - 1)
    { pDst := dst, pOut := 0, px := 0, py := 0, count := 1, stores := [] } = s1
  by_cases h4 : B ≥ 4
  · have ht := conv_stage2_triple_eq X Y B ((B - 1 : Nat) : Int) (by omega) (by omega)
      ((A - (B - 1)) / 3) { s1 with px := 0, py := ((B - 1 : Nat) : Int), count := 0 }
      (by simp) rfl (by simp only []; omega)
    rw [if_pos h4, ht, ← conv_stage2_add, hsplit]
  · rw [if_neg h4]

/-- C20: for `srcALen ≥ 1` and `srcBLen ≥ 1`, `arm_conv_q31` built with `ARM_MATH_LOOPUNROLL`
(multiply-accumulates unrolled by 4 in stages 1 and 3, stage 2 computing three outputs at a time
through the rotating registers `x0`, `x1`, `x2` plus a remainder loop) leaves exactly the same
destination buffer as the build without it, for every pair of lengths. -/
theorem arm_conv_q31_unroll_eq (a b dst : List Int)
    (hA : 1 ≤ a.length) (hB : 1 ≤ b.length)
    (hA32 : a.length < 4294967296) (hB32 : b.length < 4294967296) :
    arm_conv_q31_unroll a a.length b b.length dst = arm_conv_q31 a a.length b b.length dst := by
  unfold arm_conv_q31_unroll arm_conv_q31 conv_stages
  by_cases h : a.length ≥ b.length
  · rw [if_pos h, if_pos h, conv_stages_run_unroll_eq a b dst _ _ hB h hA32]
  · rw [if_neg h, if_neg h, conv_stages_run_unroll_eq b a dst _ _ hA (by omega) hB32]

/-- C20 at lengths 8 and 5: stage 2 has four outputs (one block of three and one remaining
output) and `srcBLen = 5` is a multiple of neither 3 nor 4. -/
theorem arm_conv_q31_unroll_eq_witness :
    arm_conv_q31_unroll [1073741824, 2, 3, 4, 5, 6, 7, 8] 8 [1073741824, -5, 7, 9, 11] 5
        [0, 0, 0, 0, 0, 0, 0, 0, 0, 0, 0, 0]
      = arm_conv_q31 [1073741824, 2, 3, 4, 5, 6, 7, 8] 8 [1073741824, -5, 7, 9, 11] 5
        [0, 0, 0, 0, 0, 0, 0, 0, 0, 0, 0, 0] :=
  arm_conv_q31_unroll_eq [1073741824, 2, 3, 4, 5, 6, 7, 8] [1073741824, -5, 7, 9, 11]
    [0, 0, 0, 0, 0, 0, 0, 0, 0, 0, 0, 0] (by decide) (by decide) (by decide) (by decide)

/-! ## Claims on `arm_lms_norm_q31` -/

/-- C13 (behaviour of the code): with one tap, state sample and coefficient both `0x80000000`
and `postShift = 0`, the accumulator is `2^62`, its shift by `31 - postShift` is `+2^31`, and
the value stored in `pOut[0]` is `0x80000000 = -2^31` (not the saturated `0x7FFFFFFF`),
whatever the reciprocal routine returns. -/
theorem arm_lms_norm_q31_truncates (env : LmsEnv) :
    lms_mac [-2147483648] [-2147483648] 1 0 0 0 = 4611686018427387904
      ∧ asr 4611686018427387904 (31 - 0) = 2147483648
      ∧ clip_q63_to_q31 2147483648 = 2147483647
      ∧ (arm_lms_norm_q31 env lms_one_tap [-2147483648] [0] [0] [0] 1).pOut = [-2147483648] := by
  refine ⟨by decide, by decide, by decide, ?_⟩
  rfl

/-- C14 (behaviour of the code): for `w = x = 0x80000000` and old coefficient `0`, `coef` is
`2^30`, the 32-bit shift `coef << 1U` wraps to `-2^31`, and the stored coefficient is `-2^31`,
whereas `clamp(0 + 2 * floor(w * x / 2^32))` is `2^31 - 1`. -/
theorem lms_update_wraps :
    lms_update (-2147483648) [-2147483648] 1 0 0 [0] = [-2147483648]
      ∧ clip_q63_to_q31 (0 + 2 * asr ((-2147483648) * (-2147483648)) 32) = 2147483647 := by
  decide

theorem asr_zero (n : Nat) : asr 0 n = 0 := by
  unfold asr
  exact Int.zero_fdiv _

/-- With `mu = 0` the weight `w` is `0` whatever the reciprocal routine returns. -/
theorem lms_weight_zero (e oneByEnergy : Int) (n : Nat) :
    clip_q63_to_q31 (asr (wrap64 (wrap32 (asr (wrap64 (e * 0)) 31) * oneByEnergy)) n) = 0 := by
  have h1 : wrap32 (asr (wrap64 (e * 0)) 31) = 0 := by
    rw [mul_zero, wrap64_zero, asr_zero]; decide
  rw [h1, zero_mul, wrap64_zero, asr_zero]
  decide

theorem lms_two_taps_first (env : LmsEnv) :
    arm_lms_norm_q31 env lms_two_taps [1073741824] [0] [0] [0] 1
      = { S := { lms_two_taps with
                  pState := [1073741824, 1073741824], energy := 536870912, x0 := 0 }
          pOut := [0], pErr := [0] } := by
  unfold arm_lms_norm_q31 lms_two_taps
  simp only [lms_block]
  rw [lms_weight_zero]
  rfl

theorem lms_two_taps_second (env : LmsEnv) :
    (arm_lms_norm_q31 env
        { lms_two_taps with pState := [1073741824, 1073741824], energy := 536870912, x0 := 0 }
        [1073741824] [0] [0] [0] 1).pOut = [536870912] := by
  rfl

/-- C15, refutation of the claim as stated: for no reciprocal routine do two successive calls on
the two-tap instance with the same one-sample blocks (`pSrc = [2^30]`, `pRef = [0]`) produce the
same `pOut`: the first call stores `0`, the second one `2^29`, because the first call has left
its input sample in the state buffer. -/
theorem arm_lms_norm_q31_not_stateless :
    ¬ ∃ env : LmsEnv,
      (arm_lms_norm_q31 env (arm_lms_norm_q31 env lms_two_taps [1073741824] [0] [0] [0] 1).S
          [1073741824] [0] [0] [0] 1).pOut
        = (arm_lms_norm_q31 env lms_two_taps [1073741824] [0] [0] [0] 1).pOut := by
  rintro ⟨env, h⟩
  rw [lms_two_taps_first env] at h
  simp only [] at h
  rw [lms_two_taps_second env] at h
  exact absurd h (by decide)

/-! ### What a call of `arm_lms_norm_q31` depends on -/

/-- Storing the same value at the same offset of two buffers of equal length keeps them equal
wherever they were equal, and makes them equal at that offset. -/
theorem getD_set_agree (st1 st2 : List Int) (hl : st1.length = st2.length) (t : Nat) (v : Int)
    (k : Nat) (h : k ≠ t → st1.getD k 0 = st2.getD k 0) :
    (st1.set t v).getD k 0 = (st2.set t v).getD k 0 := by
  simp only [List.getD_eq_getElem?_getD, List.getElem?_set] at h ⊢
  by_cases hk : t = k
  · rw [if_pos hk, if_pos hk, hl]
  · rw [if_neg hk, if_neg hk]
    exact h (fun e => hk e.symm)

theorem lms_mac_congr (st1 st2 coeffs : List Int) (n px pb : Nat) (acc : Int)
    (h : ∀ j, j < n → st1.getD (px + j) 0 = st2.getD (px + j) 0) :
    lms_mac st1 coeffs n px pb acc = lms_mac st2 coeffs n px pb acc := by
  induction n generalizing px pb acc with
  | zero => rfl
  | succ n ih =>
    have h0 : st1.getD px 0 = st2.getD px 0 := h 0 (by omega)
    rw [lms_mac, lms_mac, h0]
    apply ih
    intro j hj
    have := h (j + 1) (by omega)
    rw [show px + 1 + j = px + (j + 1) from by omega]
    exact this

theorem lms_update_congr (w : Int) (st1 st2 : List Int) (n px pb : Nat) (coeffs : List Int)
    (h : ∀ j, j < n → st1.getD (px + j) 0 = st2.getD (px + j) 0) :
    lms_update w st1 n px pb coeffs = lms_update w st2 n px pb coeffs := by
  induction n generalizing px pb coeffs with
  | zero => rfl
  | succ n ih =>
    have h0 : st1.getD px 0 = st2.getD px 0 := h 0 (by omega)
    rw [lms_update, lms_update, h0]
    apply ih
    intro j hj
    have := h (j + 1) (by omega)
    rw [show px + 1 + j = px + (j + 1) from by omega]
    exact this

/-- One sample of the block loop preserves the agreement. -/
theorem lms_block_one_agree (env : LmsEnv) (S : arm_lms_norm_instance_q31) (src ref : List Int)
    (h1 : 1 ≤ S.numTaps) (s1 s2 : LmsState) (h : lms_agree S.numTaps s1 s2) :
    lms_agree S.numTaps (lms_block env S src ref 1 s1) (lms_block env S src ref 1 s2) := by
  obtain ⟨hl, hst, hcur, hc, ho, he, hen, hx, hp, hpc, hi⟩ := h
  have hagree : ∀ k, k < s1.pStateCurnt + 1 →
      (s1.state.set s1.pStateCurnt (src.getD s1.i 0)).getD k 0
        = (s2.state.set s1.pStateCurnt (src.getD s1.i 0)).getD k 0 := by
    intro k hk
    apply getD_set_agree _ _ hl
    intro hne
    exact hst k (by omega)
  have hwin : ∀ j, j < S.numTaps →
      (s1.state.set s1.pStateCurnt (src.getD s1.i 0)).getD (s1.pState + j) 0
        = (s2.state.set s1.pStateCurnt (src.getD s1.i 0)).getD (s1.pState + j) 0 := by
    intro j hj
    exact hagree _ (by omega)
  have hmac := lms_mac_congr _ _ s1.coeffs S.numTaps s1.pState 0 0 hwin
  have hx0 : (s1.state.set s1.pStateCurnt (src.getD s1.i 0)).getD s1.pState 0
      = (s2.state.set s1.pStateCurnt (src.getD s1.i 0)).getD s1.pState 0 :=
    hagree _ (by omega)
  simp only [lms_block]
  simp only [← hc, ← ho, ← he, ← hen, ← hx, ← hp, ← hpc, ← hi, ← hmac, ← hx0,
    ← lms_update_congr _ _ _ S.numTaps s1.pState 0 s1.coeffs hwin]
  refine ⟨?_, hagree, ?_, rfl, rfl, rfl, rfl, rfl, rfl, rfl, rfl⟩
  · simp only [List.length_set]; exact hl
  · simp only []; omega

theorem lms_block_succ (env : LmsEnv) (S : arm_lms_norm_instance_q31) (src ref : List Int)
    (n : Nat) (s : LmsState) :
    lms_block env S src ref (n + 1) s
      = lms_block env S src ref n (lms_block env S src ref 1 s) := by
  simp only [lms_block]

/-- The block loop preserves the agreement. -/
theorem lms_block_agree (env : LmsEnv) (S : arm_lms_norm_instance_q31) (src ref : List Int)
    (h1 : 1 ≤ S.numTaps) (n : Nat) (s1 s2 : LmsState) (h : lms_agree S.numTaps s1 s2) :
    lms_agree S.numTaps (lms_block env S src ref n s1) (lms_block env S src ref n s2) := by
  induction n generalizing s1 s2 with
  | zero => exact h
  | succ n ih =>
    rw [lms_block_succ, lms_block_succ]
    exact ih _ _ (lms_block_one_agree env S src ref h1 s1 s2 h)

theorem lms_copy_agree (m n c p : Nat) (st1 st2 : List Int) (hl : st1.length = st2.length)
    (hag : ∀ k, k < m → st1.getD k 0 = st2.getD k 0) (hsrc : p + n ≤ m) :
    (lms_copy n c p st1).length = (lms_copy n c p st2).length
      ∧ ∀ k, k < m → (lms_copy n c p st1).getD k 0 = (lms_copy n c p st2).getD k 0 := by
  induction n generalizing c p st1 st2 with
  | zero => exact ⟨hl, hag⟩
  | succ n ih =>
    rw [lms_copy, lms_copy, hag p (by omega)]
    apply ih
    · simp only [List.length_set]; exact hl
    · intro k hk
      apply getD_set_agree _ _ hl
      intro _
      exact hag k hk
    · omega

theorem lms_block_pStateCurnt (env : LmsEnv) (S : arm_lms_norm_instance_q31)
    (src ref : List Int) (n : Nat) (s : LmsState) :
    (lms_block env S src ref n s).pStateCurnt = s.pStateCurnt + n := by
  induction n generalizing s with
  | zero => rfl
  | succ n ih =>
    rw [lms_block, ih]
    simp only []
    omega

/-- The block loop reads the instance only through `numTaps`, `mu`, `postShift` and
`recipTable`. -/
theorem lms_block_instance (env : LmsEnv) (S : arm_lms_norm_instance_q31) (st : List Int)
    (src ref : List Int) (n : Nat) (s : LmsState) :
    lms_block env { S with pState := st } src ref n s = lms_block env S src ref n s := by
  induction n generalizing s with
  | zero => rfl
  | succ n ih => rw [lms_block, lms_block, ih]

/-- C15, amended: `arm_lms_norm_q31` has state.  What a call produces (`pOut`, `pErr`, the new
coefficients, `energy` and `x0`, and the retained samples) is determined by the blocks together
with the instance on entry, of which only `numTaps`, `mu`, `postShift`, the reciprocal table,
`energy`, `x0`, the coefficients and the first `numTaps - 1` samples of the state buffer
matter: replacing the rest of the state buffer by anything else changes none of them. -/
theorem arm_lms_norm_q31_dependence (env : LmsEnv) (S : arm_lms_norm_instance_q31)
    (st2 pSrc pRef pOut pErr : List Int) (blockSize : Nat)
    (h1 : 1 ≤ S.numTaps) (h32 : S.numTaps < 4294967296)
    (hlen : S.pState.length = st2.length)
    (hhead : ∀ k, k + 1 < S.numTaps → S.pState.getD k 0 = st2.getD k 0) :
    (arm_lms_norm_q31 env S pSrc pRef pOut pErr blockSize).pOut
        = (arm_lms_norm_q31 env { S with pState := st2 } pSrc pRef pOut pErr blockSize).pOut
      ∧ (arm_lms_norm_q31 env S pSrc pRef pOut pErr blockSize).pErr
        = (arm_lms_norm_q31 env { S with pState := st2 } pSrc pRef pOut pErr blockSize).pErr
      ∧ (arm_lms_norm_q31 env S pSrc pRef pOut pErr blockSize).S.pCoeffs
        = (arm_lms_norm_q31 env { S with pState := st2 } pSrc pRef pOut pErr blockSize).S.pCoeffs
      ∧ (arm_lms_norm_q31 env S pSrc pRef pOut pErr blockSize).S.energy
        = (arm_lms_norm_q31 env { S with pState := st2 } pSrc pRef pOut pErr blockSize).S.energy
      ∧ (arm_lms_norm_q31 env S pSrc pRef pOut pErr blockSize).S.x0
        = (arm_lms_norm_q31 env { S with pState := st2 } pSrc pRef pOut pErr blockSize).S.x0
      ∧ ∀ k, k + 1 < S.numTaps + blockSize →
          (arm_lms_norm_q31 env S pSrc pRef pOut pErr blockSize).S.pState.getD k 0
            = (arm_lms_norm_q31 env { S with pState := st2 } pSrc pRef pOut pErr
                blockSize).S.pState.getD k 0 := by
  have hsub : u32_sub S.numTaps 1 = S.numTaps - 1 := u32_sub_of_le h1 h32
  have h0 : lms_agree S.numTaps
      { state := S.pState, coeffs := S.pCoeffs, out := pOut, err := pErr
        energy := S.energy, x0 := S.x0
        pState := 0, pStateCurnt := S.numTaps - 1, i := 0 }
      { state := st2, coeffs := S.pCoeffs, out := pOut, err := pErr
        energy := S.energy, x0 := S.x0
        pState := 0, pStateCurnt := S.numTaps - 1, i := 0 } := by
    refine ⟨hlen, ?_, ?_, rfl, rfl, rfl, rfl, rfl, rfl, rfl, rfl⟩
    · intro k hk
      exact hhead k (by simp only [] at hk; omega)
    · simp only []; omega
  have hag := lms_block_agree env S pSrc pRef h1 blockSize _ _ h0
  have hpc := lms_block_pStateCurnt env S pSrc pRef blockSize
    { state := S.pState, coeffs := S.pCoeffs, out := pOut, err := pErr
      energy := S.energy, x0 := S.x0
      pState := 0, pStateCurnt := S.numTaps - 1, i := 0 }
  unfold arm_lms_norm_q31
  simp only [hsub, lms_block_instance]
  generalize lms_block env S pSrc pRef blockSize
    { state := S.pState, coeffs := S.pCoeffs, out := pOut, err := pErr
      energy := S.energy, x0 := S.x0
      pState := 0, pStateCurnt := S.numTaps - 1, i := 0 } = r1 at hag hpc ⊢
  generalize lms_block env S pSrc pRef blockSize
    { state := st2, coeffs := S.pCoeffs, out := pOut, err := pErr
      energy := S.energy, x0 := S.x0
      pState := 0, pStateCurnt := S.numTaps - 1, i := 0 } = r2 at hag ⊢
  obtain ⟨hl, hst, hcur, hc, ho, he, hen, hx, hp, _, _⟩ := hag
  simp only [] at hpc
  refine ⟨ho, he, hc, by rw [hen], hx, ?_⟩
  intro k hk
  rw [← hp]
  exact (lms_copy_agree r1.pStateCurnt (S.numTaps - 1) 0 r1.pState r1.state r2.state hl hst
    (by omega)).2 k (by omega)

/-- C15 amended, at the two-tap instance: the second sample of the state buffer does not
matter. -/
theorem arm_lms_norm_q31_dependence_witness :
    (arm_lms_norm_q31 lms_sample_env lms_two_taps [1073741824] [0] [0] [0] 1).pOut
      = (arm_lms_norm_q31 lms_sample_env { lms_two_taps with pState := [0, 99] }
          [1073741824] [0] [0] [0] 1).pOut :=
  (arm_lms_norm_q31_dependence lms_sample_env lms_two_taps [0, 99] [1073741824] [0]
    [0] [0] 1 (by decide) (by decide) (by decide)
    (by
      intro k hk
      have hk0 : k = 0 := by
        have : k + 1 < 2 := hk
        omega
      subst hk0
      rfl)).1

/-! ## The steps of the interrupt handler -/

theorem run_state_switch_trace (c : I2CConsts) (ms mstdat f : Nat)
    (handle : i2c_master_dma_handle_t) (e : List Effect) :
    ∃ t, (run_state_switch c ms mstdat f handle e).effects = e ++ t
      ∧ t.length ≤ 6 ∧ status_reads t = [] ∧ mstdat_reads t ≤ 1 ∧ dma_calls t ≤ 3 := by
  generalize hr : run_state_switch c ms mstdat f handle e = r
  rcases handle with ⟨st, tc, rb, buf, rs, sb, dh, cb, ud, ⟨fl, sa, dir, sub, ss, data, ds⟩⟩
  cases st <;> cases dir <;> simp only [run_state_switch, I2C_RunDMATransfer] at hr <;>
    (try split_ifs at hr) <;> subst hr <;>
    simp [status_reads, mstdat_reads, dma_calls]

theorem run_start_state_trace (c : I2CConsts) (handle : i2c_master_dma_handle_t) :
    match run_start_state c handle with
    | StartStep.ret r =>
      r.effects.length ≤ 3 ∧ status_reads r.effects = [] ∧ mstdat_reads r.effects = 0
        ∧ dma_calls r.effects = 0
    | StartStep.cont _ _ e =>
      e.length ≤ 2 ∧ status_reads e = [] ∧ mstdat_reads e = 0 ∧ dma_calls e = 0 := by
  generalize hr : run_start_state c handle = r
  rcases handle with ⟨st, tc, rb, buf, rs, sb, dh, cb, ud, ⟨fl, sa, dir, sub, ss, data, ds⟩⟩
  cases st <;> cases dir <;> simp only [run_start_state] at hr <;>
    (try split_ifs at hr) <;> subst hr <;> simp [status_reads, mstdat_reads, dma_calls]

theorem I2C_RunTransferStateMachineDMA_trace (c : I2CConsts) (status mstdat : Nat)
    (handle : i2c_master_dma_handle_t) :
    ∃ t, (I2C_RunTransferStateMachineDMA c status mstdat handle).effects
        = Effect.I2C_GetStatusFlags status :: t
      ∧ t.length ≤ 8 ∧ status_reads t = [] ∧ mstdat_reads t ≤ 1 ∧ dma_calls t ≤ 3 := by
  apply I2C_RunTransferStateMachineDMA_cases c status mstdat handle
    (fun r => ∃ t, r.effects = Effect.I2C_GetStatusFlags status :: t
      ∧ t.length ≤ 8 ∧ status_reads t = [] ∧ mstdat_reads t ≤ 1 ∧ dma_calls t ≤ 3)
  · simp [status_reads, mstdat_reads, dma_calls]
  · simp [status_reads, mstdat_reads, dma_calls]
  · simp [status_reads, mstdat_reads, dma_calls]
  · simp [status_reads, mstdat_reads, dma_calls]
  · intro ms
    have hB := run_start_state_trace c handle
    cases hst : run_start_state c handle with
    | ret r =>
      rw [hst] at hB
      simp only [] at hB ⊢
      obtain ⟨b1, b2, b3, b4⟩ := hB
      exact ⟨r.effects, rfl, by omega, b2, by omega, by omega⟩
    | cont f hd e =>
      rw [hst] at hB
      simp only [] at hB ⊢
      obtain ⟨b1, b2, b3, b4⟩ := hB
      obtain ⟨t, a1, a2, a3, a4, a5⟩ :=
        run_state_switch_trace c ms mstdat f hd (Effect.I2C_GetStatusFlags status :: e)
      refine ⟨e ++ t, by rw [a1]; rfl, ?_, ?_, ?_, ?_⟩
      · rw [List.length_append]
        omega
      · rw [status_reads_append, b2, a3]
        rfl
      · rw [mstdat_reads_append, b3]
        omega
      · rw [dma_calls_append, b4]
        omega

/-- C16, refutation of the claim as stated: with a completion callback that does not return,
a call that ends a transfer on arbitration loss does not return either: after seven steps
control is in the callback. -/
theorem I2C_MasterTransferDMAHandleIRQ_stuck :
    I2C_MasterTransferDMAHandleIRQ LPC845 true stuck_callback 0x11 0
        (some (sample_handle kTransmitDataState))
      = IrqResult.in_callback
          [Effect.I2C_GetStatusFlags 0x11, Effect.I2C_MasterClearStatusFlags 0x10,
           Effect.DMA_AbortTransfer, Effect.write_MSTCTL 0, Effect.assign_state kIdleState,
           Effect.I2C_DisableInterrupts 0x51,
           Effect.completionCallback 1 kStatus_I2C_ArbitrationLost 7] := by
  decide

/-- C16, amended: `I2C_MasterTransferDMAHandleIRQ` has no loop and no wait of its own.  For
every non-NULL handle, every value of the status register and of `MSTDAT` and every behaviour
of the callback, the handler performs at most 12 steps (register accesses, calls of the DMA
driver, assignments to `handle->state`, the callback invocation); the first of them is the
only read of the status register, `MSTDAT` is read at most once, the DMA driver is called at
most three times and the callback at most once.  Each call of the DMA driver counting as one
step, the handler returns after these steps unless it has invoked the callback and the callback
does not return. -/
theorem I2C_MasterTransferDMAHandleIRQ_bounded (c : I2CConsts) (NDEBUG : Bool)
    (callback : Nat → i2c_master_dma_transfer_callback_t) (status mstdat : Nat)
    (handle : i2c_master_dma_handle_t) :
    (I2C_MasterTransferDMAHandleIRQ c NDEBUG callback status mstdat
        (some handle)).effects.length ≤ 12
      ∧ (I2C_MasterTransferDMAHandleIRQ c NDEBUG callback status mstdat
          (some handle)).effects.head? = some (Effect.I2C_GetStatusFlags status)
      ∧ status_reads (I2C_MasterTransferDMAHandleIRQ c NDEBUG callback status mstdat
          (some handle)).effects = [status]
      ∧ mstdat_reads (I2C_MasterTransferDMAHandleIRQ c NDEBUG callback status mstdat
          (some handle)).effects ≤ 1
      ∧ dma_calls (I2C_MasterTransferDMAHandleIRQ c NDEBUG callback status mstdat
          (some handle)).effects ≤ 3
      ∧ (callback_calls (I2C_MasterTransferDMAHandleIRQ c NDEBUG callback status mstdat
          (some handle)).effects).length ≤ 1
      ∧ ((∃ es, I2C_MasterTransferDMAHandleIRQ c NDEBUG callback status mstdat (some handle)
              = IrqResult.in_callback es)
          ↔ (((I2C_RunTransferStateMachineDMA c status mstdat handle).result ≠ kStatus_Success
                ∨ (I2C_RunTransferStateMachineDMA c status mstdat handle).isDone = true)
              ∧ ∃ fn, handle.completionCallback = some fn
                ∧ callback fn
                    { (I2C_RunTransferStateMachineDMA c status mstdat handle).handle with
                      state := kIdleState }
                    (I2C_RunTransferStateMachineDMA c status mstdat handle).result
                    handle.userData = none))
      ∧ ((∃ es, I2C_MasterTransferDMAHandleIRQ c NDEBUG callback status mstdat (some handle)
              = IrqResult.in_callback es)
          ∨ ∃ h ces, I2C_MasterTransferDMAHandleIRQ c NDEBUG callback status mstdat (some handle)
              = IrqResult.returned (some h)
                  (I2C_MasterTransferDMAHandleIRQ c NDEBUG callback status mstdat
                    (some handle)).effects ces) := by
  obtain ⟨s1, s2, s3, s4, _⟩ := I2C_RunTransferStateMachineDMA_summary c status mstdat handle
  obtain ⟨t, t0, t1, t3, t4, t5⟩ := I2C_RunTransferStateMachineDMA_trace c status mstdat handle
  unfold I2C_MasterTransferDMAHandleIRQ
  simp only []
  generalize I2C_RunTransferStateMachineDMA c status mstdat handle = r
    at s1 s2 s3 s4 t0 ⊢
  generalize ({ r.handle with state := kIdleState } : i2c_master_dma_handle_t) = idle
  have hlen : r.effects.length ≤ 9 := by
    rw [t0, List.length_cons]
    omega
  have hsr : status_reads r.effects = [status] := by
    rw [t0]
    show status :: status_reads t = [status]
    rw [t3]
  have hmr : mstdat_reads r.effects ≤ 1 := by
    rw [t0]
    exact t4
  have hdc : dma_calls r.effects ≤ 3 := by
    rw [t0]
    exact t5
  have hhd : ∀ l : List Effect,
      (r.effects ++ l).head? = some (Effect.I2C_GetStatusFlags status) := by
    intro l
    rw [t0]
    rfl
  by_cases h : r.result ≠ kStatus_Success ∨ r.isDone = true
  · rw [if_pos h]
    cases hcb : handle.completionCallback with
    | none =>
      rw [s3.trans hcb]
      simp only [IrqResult.effects, status_reads_append, mstdat_reads_append, dma_calls_append,
        callback_calls_append, List.length_append, List.append_assoc, hhd, hsr, s1]
      refine ⟨by simp; omega, trivial, rfl, ?_, ?_,
          by simp [callback_calls], ?_, ?_⟩
      · simp [mstdat_reads]
        exact hmr
      · simp [dma_calls]
        exact hdc
      · constructor
        · rintro ⟨es, he⟩
          cases he
        · rintro ⟨_, fn, hfn, _⟩
          cases hfn
      · exact Or.inr ⟨_, _, rfl⟩
    | some fn =>
      rw [s3.trans hcb, s4]
      simp only []
      cases hc : callback fn idle r.result handle.userData with
      | none =>
        simp only [IrqResult.effects, status_reads_append, mstdat_reads_append,
          dma_calls_append, callback_calls_append, List.length_append, List.append_assoc, hhd, hsr, s1]
        refine ⟨by simp; omega, trivial, rfl, ?_, ?_,
          by simp [callback_calls], ?_, ?_⟩
        · simp [mstdat_reads]
          exact hmr
        · simp [dma_calls]
          exact hdc
        · constructor
          · intro _
            exact ⟨h, fn, rfl, hc⟩
          · intro _
            exact ⟨_, rfl⟩
        · exact Or.inl ⟨_, rfl⟩
      | some after =>
        simp only [IrqResult.effects, status_reads_append, mstdat_reads_append,
          dma_calls_append, callback_calls_append, List.length_append, List.append_assoc, hhd, hsr, s1]
        refine ⟨by simp; omega, trivial, rfl, ?_, ?_,
          by simp [callback_calls], ?_, ?_⟩
        · simp [mstdat_reads]
          exact hmr
        · simp [dma_calls]
          exact hdc
        · constructor
          · rintro ⟨es, he⟩
            cases he
          · rintro ⟨_, fn2, hfn, hn⟩
            cases hfn
            rw [hc] at hn
            cases hn
        · exact Or.inr ⟨_, _, rfl⟩
  · rw [if_neg h]
    simp only [IrqResult.effects, hsr, s1]
    refine ⟨by omega, ?_, trivial, hmr, hdc, by simp, ?_, ?_⟩
    · have := hhd []
      rwa [List.append_nil] at this
    · constructor
      · rintro ⟨es, he⟩
        cases he
      · rintro ⟨h2, _⟩
        exact absurd h2 h
    · exact Or.inr ⟨_, _, rfl⟩

/-! ## Claim on `arm_fir_init_f64` -/

theorem memset_loop_eq (c : Int) (n p : Nat) (buf : List Int) :
    memset_loop c n p buf = fill (fun _ => c % 256) n p buf := by
  induction n generalizing p buf with
  | zero => rfl
  | succ n ih => rw [memset_loop, ih, fill]

/-- C18: after `arm_fir_init_f64(S, numTaps, pCoeffs, pState, blockSize)` with
`blockSize ≥ 1` (and a state buffer of at least `numTaps + blockSize - 1` samples that fits a
32-bit address space), the three fields of the instance hold the arguments, every byte of the
first `numTaps + blockSize - 1` samples of the state buffer is 0, every byte of the later
samples is unchanged, the buffer keeps its size, and the coefficient array is unchanged. -/
theorem arm_fir_init_f64_spec (S : arm_fir_instance_f64) (numTaps pCoeffs pState blockSize : Nat)
    (stateBuf coeffBuf : List Int)
    (hb : 1 ≤ blockSize) (hn : numTaps < 65536) (hb32 : blockSize < 4294967296)
    (hbuf : 8 * (numTaps + blockSize - 1) ≤ stateBuf.length)
    (hfit : stateBuf.length < 4294967296) :
    (arm_fir_init_f64 S numTaps pCoeffs pState blockSize stateBuf coeffBuf).1
        = { numTaps := numTaps, pState := pState, pCoeffs := pCoeffs }
      ∧ (∀ i b, i < numTaps + blockSize - 1 → b < 8 →
          (arm_fir_init_f64 S numTaps pCoeffs pState blockSize stateBuf coeffBuf).2.1[8 * i + b]?
            = some 0)
      ∧ (∀ i b, numTaps + blockSize - 1 ≤ i → b < 8 →
          (arm_fir_init_f64 S numTaps pCoeffs pState blockSize stateBuf coeffBuf).2.1[8 * i + b]?
            = stateBuf[8 * i + b]?)
      ∧ (arm_fir_init_f64 S numTaps pCoeffs pState blockSize stateBuf coeffBuf).2.1.length
          = stateBuf.length
      ∧ (arm_fir_init_f64 S numTaps pCoeffs pState blockSize stateBuf coeffBuf).2.2
          = coeffBuf := by
  have h1 : u32_sub blockSize 1 = blockSize - 1 := u32_sub_of_le hb hb32
  have h2 : u32_add numTaps (blockSize - 1) = numTaps + blockSize - 1 := by
    rw [u32_add_of_lt (by omega)]
    omega
  have h3 : ((numTaps + blockSize - 1) * sizeof_float64_t) % 4294967296
      = 8 * (numTaps + blockSize - 1) := by
    unfold sizeof_float64_t
    omega
  unfold arm_fir_init_f64
  simp only [h1, h2, h3, memset_loop_eq]
  refine ⟨trivial, ?_, ?_, fill_length _ _ _ _, trivial⟩
  · intro i b hi hb8
    rw [fill_getElem?, if_pos (by omega)]
    rfl
  · intro i b hi hb8
    rw [fill_getElem?, if_neg (by omega)]

/-- C18 with two taps, a block of two samples and a state buffer of four samples (32 bytes):
the first byte of the fourth sample keeps its value. -/
theorem arm_fir_init_f64_spec_witness :
    (arm_fir_init_f64 ⟨0, 0, 0⟩ 2 4096 8192 2 (List.replicate 32 255) [1, 2, 3]).2.1[8 * 3 + 0]?
      = (List.replicate 32 (255 : Int))[8 * 3 + 0]? :=
  (arm_fir_init_f64_spec ⟨0, 0, 0⟩ 2 4096 8192 2 (List.replicate 32 255) [1, 2, 3]
    (by decide) (by decide) (by decide) (by decide) (by decide)).2.2.1 3 0 (by decide) (by decide)

/-! ## The redundant scalar builds of `arm_abs_q31` -/

theorem fill_add (g : Nat → Int) (m n p : Nat) (dst : List Int) :
    fill g (m + n) p dst = fill (fun k => g (m + k)) n (p + m) (fill g m p dst) := by
  induction m generalizing g p dst with
  | zero => simp [fill]
  | succ m ih =>
    have h1 : m + 1 + n = (m + n) + 1 := by omega
    rw [h1, fill, fill, ih]
    have h2 : p + 1 + m = p + (m + 1) := by omega
    rw [h2]
    congr 1
    funext k
    have h3 : m + 1 + k = m + k + 1 := by omega
    rw [h3]

theorem arm_abs_q31_tail_loop_eq (d : Bool) (src : List Int) (n pSrc pDst : Nat)
    (dst : List Int) :
    arm_abs_q31_tail_loop d src n pSrc pDst dst
      = fill (fun k => arm_abs_q31_value d (src.getD (pSrc + k) 0)) n pDst dst := by
  induction n generalizing pSrc pDst dst with
  | zero => rfl
  | succ n ih =>
    rw [arm_abs_q31_tail_loop, ih, fill]
    simp only [Nat.add_zero]
    congr 1
    funext k
    have : pSrc + 1 + k = pSrc + (k + 1) := by omega
    rw [this]

theorem arm_abs_q31_unroll_loop_eq (d : Bool) (src : List Int) (n pSrc pDst : Nat)
    (dst : List Int) :
    arm_abs_q31_unroll_loop d src n pSrc pDst dst
      = (pSrc + 4 * n, pDst + 4 * n,
          fill (fun k => arm_abs_q31_value d (src.getD (pSrc + k) 0)) (4 * n) pDst dst) := by
  induction n generalizing pSrc pDst dst with
  | zero => rfl
  | succ n ih =>
    have h4 : 4 * (n + 1) = 4 + 4 * n := by omega
    rw [arm_abs_q31_unroll_loop, h4, fill_add]
    simp only [ih, fill, Nat.add_zero, Nat.zero_add]
    refine Prod.ext (by simp only []; omega) (Prod.ext (by simp only []; omega) ?_)
    simp only []
    congr 1
    funext k
    have : pSrc + 4 + k = pSrc + (4 + k) := by omega
    rw [this]

theorem arm_abs_q31_build_eq (u d : Bool) (pSrc pDst : List Int) (blockSize : Nat) :
    arm_abs_q31_build u d pSrc pDst blockSize
      = fill (fun k => arm_abs_q31_value d (pSrc.getD k 0)) blockSize 0 pDst := by
  cases u
  · simp only [arm_abs_q31_build, arm_abs_q31_tail_loop_eq, Nat.zero_add]
    rfl
  · simp only [arm_abs_q31_build, if_true, arm_abs_q31_unroll_loop_eq, arm_abs_q31_tail_loop_eq,
      Nat.zero_add, Nat.shiftRight_eq_div_pow]
    have hb : blockSize = 4 * (blockSize / 2 ^ 2) + blockSize % 4 := by omega
    conv_rhs => rw [hb, fill_add]
    simp only [Nat.zero_add]

theorem arm_abs_q31_value_dsp (in_ : Int) (hlo : INT32_MIN ≤ in_) (hhi : in_ ≤ INT32_MAX) :
    arm_abs_q31_value true in_ = arm_abs_q31_value false in_ := by
  unfold INT32_MIN at hlo
  unfold INT32_MAX at hhi
  simp only [arm_abs_q31_value, if_true, Bool.false_eq_true, if_false, __QSUB, wrap32,
    INT32_MIN, INT32_MAX]
  split_ifs <;> omega

theorem getD_q31 (src : List Int) (h : ∀ x ∈ src, INT32_MIN ≤ x ∧ x ≤ INT32_MAX) (k : Nat) :
    INT32_MIN ≤ src.getD k 0 ∧ src.getD k 0 ≤ INT32_MAX := by
  by_cases hk : k < src.length
  · have : src.getD k 0 = src[k] := by simp [List.getD, List.getElem?_eq_getElem hk]
    rw [this]
    exact h _ (List.getElem_mem hk)
  · have : src.getD k 0 = 0 := by simp [List.getD, List.getElem?_eq_none (by omega : src.length ≤ k)]
    rw [this]
    decide

/-- C21: the redundant scalar builds of `arm_abs_q31` agree.  For every input vector, every
destination and every `blockSize` (a multiple of 4 or not), the `ARM_MATH_LOOPUNROLL` build
produces the same destination buffer as the build without loop unrolling, under either setting
of `ARM_MATH_DSP`; the build with both flags undefined is `arm_abs_q31`; for every 32-bit `in`
the `ARM_MATH_DSP` expression `(in > 0) ? in : __QSUB(0, in)` equals the plain expression
`(in > 0) ? in : ((in == INT32_MIN) ? INT32_MAX : -in)`; hence, for an input vector of 32-bit
values, all four builds produce the destination buffer of `arm_abs_q31`. -/
theorem arm_abs_q31_builds_agree (pSrc pDst : List Int) (blockSize : Nat) :
    (∀ d : Bool, arm_abs_q31_build true d pSrc pDst blockSize
        = arm_abs_q31_build false d pSrc pDst blockSize)
      ∧ arm_abs_q31_build false false pSrc pDst blockSize = arm_abs_q31 pSrc pDst blockSize
      ∧ (∀ in_ : Int, INT32_MIN ≤ in_ → in_ ≤ INT32_MAX →
          arm_abs_q31_value true in_ = arm_abs_q31_value false in_)
      ∧ ((∀ x ∈ pSrc, INT32_MIN ≤ x ∧ x ≤ INT32_MAX) →
          ∀ u d : Bool, arm_abs_q31_build u d pSrc pDst blockSize
            = arm_abs_q31 pSrc pDst blockSize) := by
  have hplain : arm_abs_q31_build false false pSrc pDst blockSize
      = arm_abs_q31 pSrc pDst blockSize := by
    rw [arm_abs_q31_build_eq, arm_abs_q31, arm_abs_q31_loop_eq]
    simp only [Nat.zero_add, arm_abs_q31_value, Bool.false_eq_true, if_false]
  refine ⟨fun d => ?_, hplain, arm_abs_q31_value_dsp, fun hq u d => ?_⟩
  · rw [arm_abs_q31_build_eq, arm_abs_q31_build_eq]
  · rw [← hplain, arm_abs_q31_build_eq, arm_abs_q31_build_eq]
    congr 1
    funext k
    cases d
    · rfl
    · exact arm_abs_q31_value_dsp _ (getD_q31 pSrc hq k).1 (getD_q31 pSrc hq k).2

/-- C21 at a vector of six elements (`blockSize = 6`, not a multiple of 4) that holds
`0x80000000`: the build with loop unrolling and `ARM_MATH_DSP` stores what `arm_abs_q31`
stores, leaving the seventh element of the destination as it was. -/
theorem arm_abs_q31_builds_agree_witness :
    arm_abs_q31_build true true [5, -7, -2147483648, 0, 2147483647, -1] [9, 9, 9, 9, 9, 9, 9] 6
        = arm_abs_q31 [5, -7, -2147483648, 0, 2147483647, -1] [9, 9, 9, 9, 9, 9, 9] 6
      ∧ arm_abs_q31 [5, -7, -2147483648, 0, 2147483647, -1] [9, 9, 9, 9, 9, 9, 9] 6
        = [5, 7, 2147483647, 0, 2147483647, 1, 9] :=
  ⟨(arm_abs_q31_builds_agree [5, -7, -2147483648, 0, 2147483647, -1] [9, 9, 9, 9, 9, 9, 9]
      6).2.2.2 (by decide) true true, by decide⟩
